import Mathlib

/-!
Verification of the WKT (Well-Known Text) geometry codec of
`ppge/geomet/wkt.py`: the tokenizer `_tokenize_wkt`, the parser `loads`
with its per-type routines (`_load_point`, `_load_linestring`,
`_load_polygon`, `_load_multipoint`, `_load_multilinestring`,
`_load_multipolygon`, `_load_geometrycollection`), and the serializer
`dumps` with `_round_and_pad` and the per-type dump routines.

Modelling conventions:
* Python floats are modelled as rationals (`ℚ`); the decimal-string
  rendering of `repr(float)` is modelled exactly for decimal-representable
  values (the only values `_round_and_pad` ever passes to `repr`, since it
  first rounds to `decimals` places), including Python's switch to
  scientific notation for magnitudes `>= 1e16` or `< 1e-4`.
* Python's stdlib `tokenize.generate_tokens` is modelled as a character
  level lexer over the WKT alphabet: identifier runs, numeral runs
  (digits and dots), single-character operator tokens, skipped
  whitespace, and a `TokenError` raised at end of input when the
  parenthesis level is still positive (Python's "EOF in multi-line
  statement").  Laziness of the generator is captured by a token list
  paired with an error flag that only fires when a consumer pulls past
  the final token.
* Python exceptions are modelled by `Except PyErr`; dict results by the
  structures `GeomData`/`GeoObj`.
-/

/-- Python exception kinds surfaced by the codec: `ValueError` (with its
message), generator exhaustion (`StopIteration`), `tokenize.TokenError`,
and `TypeError` (calling `None`). -/
inductive PyErr where
  | valueError (msg : String)
  | stopIteration
  | tokenError
  | typeError
  deriving DecidableEq

/-- Single quote character, used when building Python error message text. -/
def squote : String := String.singleton (Char.ofNat 39)

/-- Message of `INVALID_WKT_FMT % string` in wkt.py. -/
def invalidWkt (s : String) : String := "Invalid WKT: `" ++ s ++ "`"

/-- Message of `_unsupported_geom_type`. -/
def unsupportedMsg (t : String) : String :=
  "Unsupported geometry type " ++ squote ++ t ++ squote

/-- Message of Python `float(t)` failing. -/
def floatErrMsg (t : String) : String :=
  "could not convert string to float: " ++ squote ++ t ++ squote

/-- Message of Python `int(t)` failing. -/
def intErrMsg (t : String) : String :=
  "invalid literal for int() with base 10: " ++ squote ++ t ++ squote

/-- Message of `_assert_next_token` failing. -/
def expectedMsg (expected found : String) : String :=
  "Expected \"" ++ expected ++ "\" but found \"" ++ found ++ "\""

/-! ## The tokenizer

Model of `tokenize.generate_tokens` restricted to the WKT alphabet,
followed by the sign-stitching wrapper `_tokenize_wkt`. -/

/-- Lexer accumulator state: between tokens, inside an identifier run, or
inside a numeral run. -/
inductive LexSt where
  | idle
  | ident (acc : List Char)
  | num (acc : List Char)
  deriving DecidableEq

/-- Characters that continue a numeral token (digits and the dot). -/
def isNumCh (c : Char) : Bool := c.isDigit || c = '.'

/-- Characters that start or continue an identifier token. -/
def isIdentCh (c : Char) : Bool := c.isAlpha || c = '_'

/-- Whitespace skipped between tokens. -/
def isWsp (c : Char) : Bool := c = ' ' || c = '\t' || c = '\n' || c = '\r'

/-- Tokens emitted when the lexer state is flushed at a token boundary. -/
def flushSt : LexSt → List String
  | .idle => []
  | .ident acc => [String.mk acc]
  | .num acc => [String.mk acc]

/-- Character-level lexer loop.  Returns the tokens emitted while
consuming `cs`, the final accumulator state, and the final parenthesis
level (Python's `parenlev`, which may go negative on unmatched closers). -/
def lexAux : List Char → LexSt → Int → List String × LexSt × Int
  | [], st, d => ([], st, d)
  | c :: cs, st, d =>
    if isWsp c then
      let r := lexAux cs .idle d
      (flushSt st ++ r.1, r.2)
    else if isNumCh c then
      match st with
      | .num acc => lexAux cs (.num (acc ++ [c])) d
      | .ident acc =>
        if c.isDigit then lexAux cs (.ident (acc ++ [c])) d
        else
          let r := lexAux cs (.num [c]) d
          (flushSt (.ident acc) ++ r.1, r.2)
      | .idle => lexAux cs (.num [c]) d
    else if isIdentCh c then
      match st with
      | .ident acc => lexAux cs (.ident (acc ++ [c])) d
      | st =>
        let r := lexAux cs (.ident [c]) d
        (flushSt st ++ r.1, r.2)
    else
      let d2 : Int := if c = '(' then d + 1 else if c = ')' then d - 1 else d
      let r := lexAux cs .idle d2
      (flushSt st ++ [String.singleton c] ++ r.1, r.2)

/-- Raw token stream of a string together with the `TokenError` flag:
the error fires (lazily, at the end of the stream) exactly when the
parenthesis level is still positive at end of input. -/
def pyTokenize (s : String) : List String × Bool :=
  let r := lexAux s.data .idle 0
  (r.1 ++ flushSt r.2.1, r.2.2 > 0)

/-- Sign-stitching loop of `_tokenize_wkt`: a standalone `-` token is
remembered and prepended to the next token; empty-string tokens are
skipped without resetting the pending sign. -/
def stitch : Bool → List String → List String
  | _, [] => []
  | neg, t :: ts =>
    if t = "-" then stitch true ts
    else if t = "" then stitch neg ts
    else (if neg then "-" ++ t else t) :: stitch false ts

/-- Model of `_tokenize_wkt`: the stitched token list of a WKT string
paired with the terminal `TokenError` flag. -/
def tokenizeWkt (s : String) : List String × Bool :=
  let r := pyTokenize s
  (stitch false r.1, r.2)

/-- Lazy token stream handed to the per-type parsing routines: the tokens
not yet consumed, and whether pulling past the final token raises
`TokenError` (`true`) or `StopIteration` (`false`). -/
structure TokStream where
  toks : List String
  err : Bool
  deriving DecidableEq

/-- Pull the next token (`next(tokens)` in Python). -/
def TokStream.next (st : TokStream) : Except PyErr (String × TokStream) :=
  match st.toks with
  | [] => .error (if st.err then .tokenError else .stopIteration)
  | t :: ts => .ok (t, ⟨ts, st.err⟩)

/-! ## Numbers

Python floats are modelled as rationals.  `strToRat` models `float(t)`
on the token shapes the tokenizer can produce, `parsePyInt` models
`int(t)`, and the rendering functions below model `repr`/`format` on the
decimal-representable values that `_round_and_pad` produces. -/

/-- Numeric value of a list of decimal digit characters (most significant
first), read by a left fold as positional notation. -/
def digitsVal (cs : List Char) : ℕ :=
  cs.foldl (fun acc c => acc * 10 + (c.toNat - 48)) 0

/-- Decimal digits of a natural number, most significant first
(`natDigits 0 = ['0']`). -/
def natDigits (n : ℕ) : List Char :=
  if h : n < 10 then [Nat.digitChar n]
  else natDigits (n / 10) ++ [Nat.digitChar (n % 10)]
termination_by n
decreasing_by exact Nat.div_lt_self (by omega) (by omega)

/-- Unsigned decimal numeral body: an integer part, an optional dot and a
fractional part, with at least one digit overall.  This is the shape of
number tokens accepted by `float`. -/
def parseDec (cs : List Char) : Option ℚ :=
  let ip := cs.takeWhile Char.isDigit
  match cs.dropWhile Char.isDigit with
  | [] => if ip = [] then none else some (digitsVal ip)
  | '.' :: fp =>
    if fp.all Char.isDigit ∧ (ip ≠ [] ∨ fp ≠ []) then
      some ((digitsVal ip : ℚ) + (digitsVal fp : ℚ) / 10 ^ fp.length)
    else none
  | _ => none

/-- Model of Python `float(t)` on tokenizer outputs: an optional sign
followed by a decimal numeral.  Returns `none` where `float` raises
`ValueError`. -/
def strToRat (t : String) : Option ℚ :=
  match t.data with
  | [] => parseDec []
  | c :: rest =>
    if c = '-' then (parseDec rest).map Neg.neg
    else if c = '+' then parseDec rest
    else parseDec (c :: rest)

/-- Numeric value of an all-digit character list, or `none`. -/
def parseDigits (cs : List Char) : Option ℤ :=
  if cs ≠ [] ∧ cs.all Char.isDigit then some (digitsVal cs) else none

/-- Model of Python `int(t)`: optional sign and decimal digits. -/
def parsePyInt (t : String) : Option ℤ :=
  match t.data with
  | [] => parseDigits []
  | c :: rest =>
    if c = '-' then (parseDigits rest).map Neg.neg
    else if c = '+' then parseDigits rest
    else parseDigits (c :: rest)

/-- Round-half-to-even of a rational to an integer, the tie rule of
Python's `round`. -/
def roundHalfEven (x : ℚ) : ℤ :=
  let f := ⌊x⌋
  let r := x - f
  if r < 1/2 then f
  else if 1/2 < r then f + 1
  else if Even f then f else f + 1

/-- Model of Python `round(x, d)` for `d ≥ 0` decimals. -/
def roundDec (x : ℚ) (d : ℕ) : ℚ :=
  (roundHalfEven (x * 10 ^ d) : ℚ) / 10 ^ d

/-- Largest `k` with `p ^ k` dividing `n` (for `p ≥ 2`, `n ≥ 1`). -/
def maxPowDvd (p n : ℕ) : ℕ :=
  if 2 ≤ p ∧ 1 ≤ n ∧ p ∣ n then maxPowDvd p (n / p) + 1 else 0
termination_by n
decreasing_by
  rename_i h
  exact Nat.div_lt_self (by omega) (by omega)

/-- Smallest `e` with `den ∣ 10 ^ e`, when one exists: the decimal scale
of a rational in lowest terms. -/
def decScale (den : ℕ) : Option ℕ :=
  let a := maxPowDvd 2 den
  let b := maxPowDvd 5 den
  if 2 ^ a * 5 ^ b = den then some (max a b) else none

/-- Fixed-point digit rendering of `m / 10 ^ e` with exactly `e` digits
after the dot (`e ≥ 1`). -/
def fixedChars (m : ℕ) (e : ℕ) : List Char :=
  let ds := natDigits m
  let padded := List.replicate (e + 1 - ds.length) '0' ++ ds
  padded.take (padded.length - e) ++ '.' :: padded.drop (padded.length - e)

/-- Decimal predicate for Python's `repr(float)` switching to scientific
notation: magnitudes at least `1e16`, or nonzero magnitudes below
`1e-4`. -/
def reprHasE (q : ℚ) : Bool :=
  decide ((q ≠ 0 ∧ |q| < 1 / 10000) ∨ 10 ^ 16 ≤ |q|)

/-- Fixed-point `repr(float)` model for a decimal-representable rational:
minimal digits (trailing zeros stripped), always at least one digit after
the dot.  Used only on the non-scientific branch. -/
def reprPlainChars (q : ℚ) : List Char :=
  let e := (decScale q.den).getD 17
  let m := q.num.natAbs * (10 ^ e / q.den)
  let body := if e = 0 then natDigits m ++ ['.', '0'] else fixedChars m e
  if q < 0 then '-' :: body else body

/-- Model of Python `format(q, '.df')` on a value whose denominator
divides `10 ^ d`: exact fixed-point rendering with `d` digits. -/
def formatFixedChars (q : ℚ) (d : ℕ) : List Char :=
  let m := q.num.natAbs * (10 ^ d / q.den)
  let body := if d = 0 then natDigits m else fixedChars m d
  if q < 0 then '-' :: body else body

/-- Decimal string of a Python int (`repr(int)`). -/
def intRepr (k : ℤ) : String :=
  String.mk (if k < 0 then '-' :: natDigits k.natAbs else natDigits k.natAbs)

/-- Number of characters after the first dot (Python's
`len(s.split('.')[1])` when a dot is present). -/
def fracLen (cs : List Char) : ℕ :=
  (cs.dropWhile (fun c => c ≠ '.')).length - 1

/-- Model of `_round_and_pad(value, decimals)` of wkt.py: round to
`decimals` places; at zero decimals return the bare integer `repr`;
otherwise take `repr` of the rounded value (re-formatted to fixed point
if `repr` is scientific) and right-pad the fractional part with zeros up
to `decimals` digits.  The int/float distinction of the source collapses
in the rational model (`float(value)` is the identity here). -/
def roundAndPad (value : ℚ) (decimals : ℕ) : String :=
  if decimals = 0 then intRepr (roundHalfEven value)
  else
    let rounded := roundDec value decimals
    let cs :=
      if reprHasE rounded then formatFixedChars rounded decimals
      else reprPlainChars rounded
    String.mk (cs ++ List.replicate (decimals - fracLen cs) '0')

/-! ## Geometry values

The GeoJSON-like dicts consumed and produced by the codec, as the tagged
union of the seven kinds (the shape every code path of wkt.py reads and
writes: flat ordinate list for Point, one nesting level per `Multi`/ring
level, nested geometries for collections). -/

/-- Tagged union of the seven geometry kinds with their coordinate
shapes. -/
inductive GeomData where
  | point (coordinates : List ℚ)
  | lineString (coordinates : List (List ℚ))
  | polygon (coordinates : List (List (List ℚ)))
  | multiPoint (coordinates : List (List ℚ))
  | multiLineString (coordinates : List (List (List ℚ)))
  | multiPolygon (coordinates : List (List (List (List ℚ))))
  | geometryCollection (geometries : List GeomData)

mutual

/-- Decidable equality on geometry values (the nested `List GeomData`
of collections defeats the automatic derivation). -/
def geomDecEq : (a b : GeomData) → Decidable (a = b)
  | .point a, .point b =>
    if h : a = b then .isTrue (by rw [h])
    else .isFalse (fun hh => h (GeomData.point.inj hh))
  | .lineString a, .lineString b =>
    if h : a = b then .isTrue (by rw [h])
    else .isFalse (fun hh => h (GeomData.lineString.inj hh))
  | .polygon a, .polygon b =>
    if h : a = b then .isTrue (by rw [h])
    else .isFalse (fun hh => h (GeomData.polygon.inj hh))
  | .multiPoint a, .multiPoint b =>
    if h : a = b then .isTrue (by rw [h])
    else .isFalse (fun hh => h (GeomData.multiPoint.inj hh))
  | .multiLineString a, .multiLineString b =>
    if h : a = b then .isTrue (by rw [h])
    else .isFalse (fun hh => h (GeomData.multiLineString.inj hh))
  | .multiPolygon a, .multiPolygon b =>
    if h : a = b then .isTrue (by rw [h])
    else .isFalse (fun hh => h (GeomData.multiPolygon.inj hh))
  | .geometryCollection a, .geometryCollection b =>
    match geomListDecEq a b with
    | .isTrue h => .isTrue (by rw [h])
    | .isFalse h => .isFalse (fun hh => h (GeomData.geometryCollection.inj hh))
  | .point _, .lineString _ => .isFalse (fun h => nomatch h)
  | .point _, .polygon _ => .isFalse (fun h => nomatch h)
  | .point _, .multiPoint _ => .isFalse (fun h => nomatch h)
  | .point _, .multiLineString _ => .isFalse (fun h => nomatch h)
  | .point _, .multiPolygon _ => .isFalse (fun h => nomatch h)
  | .point _, .geometryCollection _ => .isFalse (fun h => nomatch h)
  | .lineString _, .point _ => .isFalse (fun h => nomatch h)
  | .lineString _, .polygon _ => .isFalse (fun h => nomatch h)
  | .lineString _, .multiPoint _ => .isFalse (fun h => nomatch h)
  | .lineString _, .multiLineString _ => .isFalse (fun h => nomatch h)
  | .lineString _, .multiPolygon _ => .isFalse (fun h => nomatch h)
  | .lineString _, .geometryCollection _ => .isFalse (fun h => nomatch h)
  | .polygon _, .point _ => .isFalse (fun h => nomatch h)
  | .polygon _, .lineString _ => .isFalse (fun h => nomatch h)
  | .polygon _, .multiPoint _ => .isFalse (fun h => nomatch h)
  | .polygon _, .multiLineString _ => .isFalse (fun h => nomatch h)
  | .polygon _, .multiPolygon _ => .isFalse (fun h => nomatch h)
  | .polygon _, .geometryCollection _ => .isFalse (fun h => nomatch h)
  | .multiPoint _, .point _ => .isFalse (fun h => nomatch h)
  | .multiPoint _, .lineString _ => .isFalse (fun h => nomatch h)
  | .multiPoint _, .polygon _ => .isFalse (fun h => nomatch h)
  | .multiPoint _, .multiLineString _ => .isFalse (fun h => nomatch h)
  | .multiPoint _, .multiPolygon _ => .isFalse (fun h => nomatch h)
  | .multiPoint _, .geometryCollection _ => .isFalse (fun h => nomatch h)
  | .multiLineString _, .point _ => .isFalse (fun h => nomatch h)
  | .multiLineString _, .lineString _ => .isFalse (fun h => nomatch h)
  | .multiLineString _, .polygon _ => .isFalse (fun h => nomatch h)
  | .multiLineString _, .multiPoint _ => .isFalse (fun h => nomatch h)
  | .multiLineString _, .multiPolygon _ => .isFalse (fun h => nomatch h)
  | .multiLineString _, .geometryCollection _ => .isFalse (fun h => nomatch h)
  | .multiPolygon _, .point _ => .isFalse (fun h => nomatch h)
  | .multiPolygon _, .lineString _ => .isFalse (fun h => nomatch h)
  | .multiPolygon _, .polygon _ => .isFalse (fun h => nomatch h)
  | .multiPolygon _, .multiPoint _ => .isFalse (fun h => nomatch h)
  | .multiPolygon _, .multiLineString _ => .isFalse (fun h => nomatch h)
  | .multiPolygon _, .geometryCollection _ => .isFalse (fun h => nomatch h)
  | .geometryCollection _, .point _ => .isFalse (fun h => nomatch h)
  | .geometryCollection _, .lineString _ => .isFalse (fun h => nomatch h)
  | .geometryCollection _, .polygon _ => .isFalse (fun h => nomatch h)
  | .geometryCollection _, .multiPoint _ => .isFalse (fun h => nomatch h)
  | .geometryCollection _, .multiLineString _ => .isFalse (fun h => nomatch h)
  | .geometryCollection _, .multiPolygon _ => .isFalse (fun h => nomatch h)

/-- Decidable equality on lists of geometry values. -/
def geomListDecEq : (a b : List GeomData) → Decidable (a = b)
  | [], [] => .isTrue rfl
  | [], _ :: _ => .isFalse (fun h => nomatch h)
  | _ :: _, [] => .isFalse (fun h => nomatch h)
  | a :: as, b :: bs =>
    match geomDecEq a b, geomListDecEq as bs with
    | .isTrue h1, .isTrue h2 => .isTrue (by rw [h1, h2])
    | .isFalse h1, _ => .isFalse (fun hh => h1 (List.cons.inj hh).1)
    | _, .isFalse h2 => .isFalse (fun hh => h2 (List.cons.inj hh).2)

end

instance : DecidableEq GeomData := geomDecEq

instance {ε α : Type} [DecidableEq ε] [DecidableEq α] :
    DecidableEq (Except ε α)
  | .ok a, .ok b =>
    if h : a = b then .isTrue (by rw [h])
    else .isFalse (fun hh => h (Except.ok.inj hh))
  | .error a, .error b =>
    if h : a = b then .isTrue (by rw [h])
    else .isFalse (fun hh => h (Except.error.inj hh))
  | .ok _, .error _ => .isFalse (fun h => nomatch h)
  | .error _, .ok _ => .isFalse (fun h => nomatch h)

/-- The `'type'` field of the GeoJSON dict. -/
def typeName : GeomData → String
  | .point _ => "Point"
  | .lineString _ => "LineString"
  | .polygon _ => "Polygon"
  | .multiPoint _ => "MultiPoint"
  | .multiLineString _ => "MultiLineString"
  | .multiPolygon _ => "MultiPolygon"
  | .geometryCollection _ => "GeometryCollection"

/-- Top-level object passed to `dumps` / returned by `loads`: the
geometry plus the two optional SRID carriers, `meta.srid` and
`crs.properties.name`. -/
structure GeoObj where
  data : GeomData
  metaSrid : Option ℤ := none
  crsName : Option String := none
  deriving DecidableEq

/-- Modelled from the spec: `util.flatten_multi_dim` (imported by wkt.py
from the geomet package, whose `util` module is not part of the given
sources).  Per §4.3 step 2 of the spec, `dumps` treats a non-collection
geometry as empty exactly when "the coordinate structure, fully
flattened, contains zero numeric leaves"; this is that full flattening
on each coordinate shape. -/
def flattenCoords : GeomData → List ℚ
  | .point c => c
  | .lineString c => c.flatten
  | .polygon c => c.flatten.flatten
  | .multiPoint c => c.flatten
  | .multiLineString c => c.flatten.flatten
  | .multiPolygon c => c.flatten.flatten.flatten
  | .geometryCollection _ => []

/-- Python `sep.join(strs)`. -/
def joinSep (sep : String) : List String → String
  | [] => ""
  | [x] => x
  | x :: y :: ys => x ++ sep ++ joinSep sep (y :: ys)

/-- Space-joined ordinates of one point (`' '.join(_round_and_pad(c,
decimals) for c in pt)`). -/
def dumpPt (pt : List ℚ) (decimals : ℕ) : String :=
  joinSep " " (pt.map (fun c => roundAndPad c decimals))

/-- Comma-joined point list (`', '.join(...)` over points). -/
def dumpPtList (pts : List (List ℚ)) (decimals : ℕ) : String :=
  joinSep ", " (pts.map (fun pt => dumpPt pt decimals))

/-- Comma-joined parenthesised rings of a polygon body. -/
def dumpRings (rings : List (List (List ℚ))) (decimals : ℕ) : String :=
  joinSep ", " (rings.map (fun r => "(" ++ dumpPtList r decimals ++ ")"))

/-- Model of `_dump_point`. -/
def dumpPoint (coords : List ℚ) (decimals : ℕ) : String :=
  if coords = [] then "POINT EMPTY"
  else "POINT (" ++ dumpPt coords decimals ++ ")"

/-- Model of `_dump_linestring`. -/
def dumpLinestring (coords : List (List ℚ)) (decimals : ℕ) : String :=
  if coords = [] then "LINESTRING EMPTY"
  else "LINESTRING (" ++ dumpPtList coords decimals ++ ")"

/-- Model of `_dump_polygon`. -/
def dumpPolygon (coords : List (List (List ℚ))) (decimals : ℕ) : String :=
  if coords = [] then "POLYGON EMPTY"
  else "POLYGON (" ++ dumpRings coords decimals ++ ")"

/-- Model of `_dump_multipoint` (each point is parenthesised). -/
def dumpMultipoint (coords : List (List ℚ)) (decimals : ℕ) : String :=
  if coords = [] then "MULTIPOINT EMPTY"
  else
    "MULTIPOINT (" ++
      joinSep ", " (coords.map (fun pt => "(" ++ dumpPt pt decimals ++ ")")) ++
    ")"

/-- Model of `_dump_multilinestring`. -/
def dumpMultilinestring (coords : List (List (List ℚ))) (decimals : ℕ) :
    String :=
  if coords = [] then "MULTILINESTRING EMPTY"
  else "MULTILINESTRING (" ++ dumpRings coords decimals ++ ")"

/-- Model of `_dump_multipolygon`. -/
def dumpMultipolygon (coords : List (List (List (List ℚ)))) (decimals : ℕ) :
    String :=
  if coords = [] then "MULTIPOLYGON EMPTY"
  else
    "MULTIPOLYGON (" ++
      joinSep ", "
        (coords.map (fun poly => "(" ++ dumpRings poly decimals ++ ")")) ++
    ")"

mutual

/-- Per-type dump dispatch (the `_dumps_registry` lookup applied to a
geometry dict), including `_dump_geometrycollection` which joins the
nested dumps with a bare comma. -/
def dumpGeom : GeomData → ℕ → String
  | .point c, d => dumpPoint c d
  | .lineString c, d => dumpLinestring c d
  | .polygon c, d => dumpPolygon c d
  | .multiPoint c, d => dumpMultipoint c d
  | .multiLineString c, d => dumpMultilinestring c d
  | .multiPolygon c, d => dumpMultipolygon c d
  | .geometryCollection gs, d =>
    if gs.isEmpty then "GEOMETRYCOLLECTION EMPTY"
    else "GEOMETRYCOLLECTION (" ++ joinSep "," (dumpGeomList gs d) ++ ")"

/-- Dumps of each member of a geometry collection, in order. -/
def dumpGeomList : List GeomData → ℕ → List String
  | [], _ => []
  | g :: gs, d => dumpGeom g d :: dumpGeomList gs d

end

/-- Non-empty tail of `dumps`: run the exporter, then resolve the SRID
sources exactly as the source does. -/
def dumpsTail (obj : GeoObj) (decimals : ℕ) : Except PyErr String :=
  let result := dumpGeom obj.data decimals
  let metaSrid := obj.metaSrid
  let crsSrid := obj.crsName.map (fun c => c.replace "EPSG" "")
  match metaSrid, crsSrid with
  | some m, some c =>
    if toString m ≠ c then
      .error (.valueError
        ("Ambiguous CRS/SRID values: " ++ toString m ++ " and " ++ c))
    else
      -- `meta_srid or crs_srid`: `meta_srid` wins when truthy (nonzero)
      let srid := if m ≠ 0 then toString m else c
      .ok ("SRID=" ++ srid ++ ";" ++ result)
  | some m, none =>
    -- `m or None` is `None` when `m == 0`: no prefix then
    if m ≠ 0 then .ok ("SRID=" ++ toString m ++ ";" ++ result)
    else .ok result
  | none, some c => .ok ("SRID=" ++ c ++ ";" ++ result)
  | none, none => .ok result

/-- Python `str.upper()` on the ASCII type names: character-wise
uppercasing of the string's characters. -/
def strUpper (s : String) : String := String.mk (s.data.map Char.toUpper)

/-- Model of `dumps(obj, decimals=16)`: empty-geometry short circuit,
per-type dispatch, then SRID handling from `meta.srid` and
`crs.properties.name` (conflict, as strings, is a `ValueError`; Python's
`or` picks `meta.srid` only when it is truthy, and the prefix is emitted
only when the chosen value is not `None`). -/
def dumps (obj : GeoObj) (decimals : ℕ := 16) : Except PyErr String :=
  match obj.data with
  | .geometryCollection gs =>
    if gs.isEmpty then .ok "GEOMETRYCOLLECTION EMPTY"
    else dumpsTail obj decimals
  | g =>
    if flattenCoords g = [] then
      .ok (strUpper (typeName g) ++ " EMPTY")
    else dumpsTail obj decimals

/-! ## The parser

Per-type loading routines.  Each takes the token stream positioned just
after the geometry-type keyword plus the original input string (used in
error messages), and returns the parsed geometry together with the
unconsumed stream.  The `for t in tokens` loops of the source exit
normally on `StopIteration` (clean stream end) and turn `TokenError`
into `ValueError(INVALID_WKT_FMT % string)`; errors from `float(t)`
propagate as-is. -/

/-- Loop body of `_load_point`: collect ordinates until `)`. -/
def pointLoop (s : String) : List String → Bool → List ℚ →
    Except PyErr (GeomData × TokStream)
  | [], err, acc =>
    if err then .error (.valueError (invalidWkt s)) else .ok (.point acc, ⟨[], err⟩)
  | t :: ts, err, acc =>
    if t = ")" then .ok (.point acc, ⟨ts, err⟩)
    else
      match strToRat t with
      | some q => pointLoop s ts err (acc ++ [q])
      | none => .error (.valueError (floatErrMsg t))

/-- Model of `_load_point`. -/
def loadPoint (st : TokStream) (s : String) : Except PyErr (GeomData × TokStream) :=
  match st.next with
  | .error e => .error e
  | .ok (t, st1) =>
    if t = "EMPTY" then .ok (.point [], st1)
    else if t ≠ "(" then .error (.valueError (invalidWkt s))
    else pointLoop s st1.toks st1.err []

/-- Loop body of `_load_linestring`: points separated by `,`, closed by
`)`; the point being built is dropped if the stream ends cleanly. -/
def lineLoop (s : String) : List String → Bool → List ℚ → List (List ℚ) →
    Except PyErr (GeomData × TokStream)
  | [], err, _, acc =>
    if err then .error (.valueError (invalidWkt s))
    else .ok (.lineString acc, ⟨[], err⟩)
  | t :: ts, err, pt, acc =>
    if t = ")" then .ok (.lineString (acc ++ [pt]), ⟨ts, err⟩)
    else if t = "," then lineLoop s ts err [] (acc ++ [pt])
    else
      match strToRat t with
      | some q => lineLoop s ts err (pt ++ [q]) acc
      | none => .error (.valueError (floatErrMsg t))

/-- Model of `_load_linestring`. -/
def loadLinestring (st : TokStream) (s : String) :
    Except PyErr (GeomData × TokStream) :=
  match st.next with
  | .error e => .error e
  | .ok (t, st1) =>
    if t = "EMPTY" then .ok (.lineString [], st1)
    else if t ≠ "(" then .error (.valueError (invalidWkt s))
    else lineLoop s st1.toks st1.err [] []

/-- Replace the last element of a list (identity on `[]`). -/
def updateLast (f : α → α) : List α → List α
  | [] => []
  | [x] => [f x]
  | x :: y :: ys => x :: updateLast f (y :: ys)

/-- Loop body of `_load_polygon`.  The source mutates Python lists in
place, so after a ring is closed (`on_ring` false) an ordinate token
appends both to the local `pt` list and — through aliasing — to the last
point of the last ring already stored in `coords`; `updateLast` mirrors
that aliasing. -/
def polyLoop (s : String) : List String → Bool → List (List (List ℚ)) →
    List (List ℚ) → List ℚ → Bool → Except PyErr (GeomData × TokStream)
  | [], err, coords, _, _, _ =>
    if err then .error (.valueError (invalidWkt s))
    else .ok (.polygon coords, ⟨[], err⟩)
  | t :: ts, err, coords, ring, pt, onRing =>
    if t = ")" then
      if onRing then
        polyLoop s ts err (coords ++ [ring ++ [pt]]) (ring ++ [pt]) pt false
      else .ok (.polygon coords, ⟨ts, err⟩)
    else if t = "(" then polyLoop s ts err coords [] [] true
    else if t = "," then
      if onRing then polyLoop s ts err coords (ring ++ [pt]) [] true
      else polyLoop s ts err coords ring pt false
    else
      match strToRat t with
      | some q =>
        if onRing then polyLoop s ts err coords ring (pt ++ [q]) true
        else
          polyLoop s ts err (updateLast (updateLast (· ++ [q])) coords)
            (updateLast (· ++ [q]) ring) (pt ++ [q]) false
      | none => .error (.valueError (floatErrMsg t))

/-- Model of `_load_polygon`: expects `EMPTY` or `( (`, then the ring
loop. -/
def loadPolygon (st : TokStream) (s : String) :
    Except PyErr (GeomData × TokStream) :=
  match st.next with
  | .error e => .error e
  | .ok (t, st1) =>
    if t = "EMPTY" then .ok (.polygon [], st1)
    else
      match st1.next with
      | .error e => .error e
      | .ok (t2, st2) =>
        if ¬(t2 = "(" ∧ t = "(") then .error (.valueError (invalidWkt s))
        else polyLoop s st2.toks st2.err [] [] [] true

/-- Loop body of `_load_multipoint`: nesting-depth tracking so that the
parenthesised and bare forms parse alike; the final part-built point is
flushed after the loop when non-empty. -/
def mpLoop (s : String) : List String → Bool → ℤ → List ℚ → List (List ℚ) →
    Except PyErr (GeomData × TokStream)
  | [], err, _, pt, acc =>
    if err then .error (.valueError (invalidWkt s))
    else .ok (.multiPoint (if 0 < pt.length then acc ++ [pt] else acc), ⟨[], err⟩)
  | t :: ts, err, depth, pt, acc =>
    if t = "(" then mpLoop s ts err (depth + 1) pt acc
    else if t = ")" then
      if depth - 1 = 0 then
        .ok (.multiPoint (if 0 < pt.length then acc ++ [pt] else acc), ⟨ts, err⟩)
      else mpLoop s ts err (depth - 1) pt acc
    else if t = "," then mpLoop s ts err depth [] (acc ++ [pt])
    else
      match strToRat t with
      | some q => mpLoop s ts err depth (pt ++ [q]) acc
      | none => .error (.valueError (floatErrMsg t))

/-- Model of `_load_multipoint`. -/
def loadMultipoint (st : TokStream) (s : String) :
    Except PyErr (GeomData × TokStream) :=
  match st.next with
  | .error e => .error e
  | .ok (t, st1) =>
    if t = "EMPTY" then .ok (.multiPoint [], st1)
    else if t ≠ "(" then .error (.valueError (invalidWkt s))
    else mpLoop s st1.toks st1.err 1 [] []

/-- Coordinates of a parsed LineString dict (`linestr['coordinates']`). -/
def lsCoords : GeomData → List (List ℚ)
  | .lineString c => c
  | _ => []

/-- Coordinates of a parsed Polygon dict (`poly['coordinates']`). -/
def polyCoords : GeomData → List (List (List ℚ))
  | .polygon c => c
  | _ => []

/-- The linestring loop consumes at least the tokens up to its result
stream. -/
def lineLoop_consumes (s : String) (ts : List String) (err : Bool)
    (pt : List ℚ) (acc : List (List ℚ)) (g : GeomData) (st1 : TokStream)
    (h : lineLoop s ts err pt acc = .ok (g, st1)) :
    st1.toks.length ≤ ts.length := by
  induction ts generalizing pt acc with
  | nil =>
    simp only [lineLoop] at h
    split at h
    · exact absurd h (by simp)
    · cases h; simp
  | cons t ts ih =>
    simp only [lineLoop] at h
    split at h
    · cases h; simp
    · split at h
      · exact le_trans (ih _ _ h) (by simp)
      · split at h
        · exact le_trans (ih _ _ h) (by simp)
        · exact absurd h (by simp)

/-- `_load_linestring` strictly consumes tokens on success. -/
def loadLinestring_consumes (st : TokStream) (s : String) (g : GeomData)
    (st1 : TokStream) (h : loadLinestring st s = .ok (g, st1)) :
    st1.toks.length < st.toks.length := by
  unfold loadLinestring at h
  unfold TokStream.next at h
  cases hts : st.toks with
  | nil => rw [hts] at h; exact absurd h (by simp)
  | cons t ts =>
    rw [hts] at h
    simp only [] at h
    split at h
    · cases h; simp [hts]
    · split at h
      · exact absurd h (by simp)
      · have := lineLoop_consumes s ts st.err [] [] g st1 h
        simp only at this
        simp [hts]; omega

/-- The polygon ring loop consumes at least the tokens up to its result
stream. -/
def polyLoop_consumes (s : String) (ts : List String) (err : Bool)
    (coords : List (List (List ℚ))) (ring : List (List ℚ)) (pt : List ℚ)
    (onRing : Bool) (g : GeomData) (st1 : TokStream)
    (h : polyLoop s ts err coords ring pt onRing = .ok (g, st1)) :
    st1.toks.length ≤ ts.length := by
  induction ts generalizing coords ring pt onRing with
  | nil =>
    simp only [polyLoop] at h
    split at h
    · exact absurd h (by simp)
    · cases h; simp
  | cons t ts ih =>
    simp only [polyLoop] at h
    split at h
    · split at h
      · exact le_trans (ih _ _ _ _ h) (by simp)
      · cases h; simp
    · split at h
      · exact le_trans (ih _ _ _ _ h) (by simp)
      · split at h
        · split at h
          · exact le_trans (ih _ _ _ _ h) (by simp)
          · exact le_trans (ih _ _ _ _ h) (by simp)
        · split at h
          · split at h
            · exact le_trans (ih _ _ _ _ h) (by simp)
            · exact le_trans (ih _ _ _ _ h) (by simp)
          · exact absurd h (by simp)

/-- `_load_polygon` strictly consumes tokens on success. -/
def loadPolygon_consumes (st : TokStream) (s : String) (g : GeomData)
    (st1 : TokStream) (h : loadPolygon st s = .ok (g, st1)) :
    st1.toks.length < st.toks.length := by
  unfold loadPolygon at h
  unfold TokStream.next at h
  cases hts : st.toks with
  | nil => rw [hts] at h; exact absurd h (by simp)
  | cons t ts =>
    rw [hts] at h
    simp only [] at h
    split at h
    · cases h; simp [hts]
    · cases hts2 : ts with
      | nil => rw [hts2] at h; exact absurd h (by simp)
      | cons t2 ts2 =>
        rw [hts2] at h
        simp only [] at h
        split at h
        · exact absurd h (by simp)
        · have := polyLoop_consumes s ts2 st.err [] [] [] true g st1 h
          simp only at this
          simp [hts, hts2]; omega

/-- Length bookkeeping for `TokStream.next`. -/
def next_len (st : TokStream) (t : String) (st1 : TokStream)
    (h : st.next = .ok (t, st1)) : st1.toks.length + 1 = st.toks.length := by
  unfold TokStream.next at h
  cases hts : st.toks with
  | nil => rw [hts] at h; exact absurd h (by simp)
  | cons a as => rw [hts] at h; cases h; simp [hts]

/-- Loop of `_load_multilinestring`: repeatedly delegate to the
linestring routine; `StopIteration`/`TokenError` anywhere in an
iteration become `ValueError(INVALID_WKT...)`, other errors propagate. -/
def mlsLoop (s : String) (st : TokStream) (acc : List (List (List ℚ))) :
    Except PyErr (GeomData × TokStream) :=
  match hl : loadLinestring st s with
  | .error .stopIteration => .error (.valueError (invalidWkt s))
  | .error .tokenError => .error (.valueError (invalidWkt s))
  | .error e => .error e
  | .ok (g, st1) =>
    match hn : st1.next with
    | .error .stopIteration => .error (.valueError (invalidWkt s))
    | .error .tokenError => .error (.valueError (invalidWkt s))
    | .error e => .error e
    | .ok (t, st2) =>
      if t = ")" then .ok (.multiLineString (acc ++ [lsCoords g]), st2)
      else mlsLoop s st2 (acc ++ [lsCoords g])
termination_by st.toks.length
decreasing_by
  have h1 := loadLinestring_consumes st s g st1 hl
  have h2 := next_len st1 t st2 hn
  omega

/-- Model of `_load_multilinestring`. -/
def loadMultilinestring (st : TokStream) (s : String) :
    Except PyErr (GeomData × TokStream) :=
  match st.next with
  | .error e => .error e
  | .ok (t, st1) =>
    if t = "EMPTY" then .ok (.multiLineString [], st1)
    else if t ≠ "(" then .error (.valueError (invalidWkt s))
    else mlsLoop s st1 []

/-- Loop of `_load_multipolygon`, mirror image of `mlsLoop`. -/
def mpolyLoop (s : String) (st : TokStream) (acc : List (List (List (List ℚ)))) :
    Except PyErr (GeomData × TokStream) :=
  match hl : loadPolygon st s with
  | .error .stopIteration => .error (.valueError (invalidWkt s))
  | .error .tokenError => .error (.valueError (invalidWkt s))
  | .error e => .error e
  | .ok (g, st1) =>
    match hn : st1.next with
    | .error .stopIteration => .error (.valueError (invalidWkt s))
    | .error .tokenError => .error (.valueError (invalidWkt s))
    | .error e => .error e
    | .ok (t, st2) =>
      if t = ")" then .ok (.multiPolygon (acc ++ [polyCoords g]), st2)
      else mpolyLoop s st2 (acc ++ [polyCoords g])
termination_by st.toks.length
decreasing_by
  have h1 := loadPolygon_consumes st s g st1 hl
  have h2 := next_len st1 t st2 hn
  omega

/-- Model of `_load_multipolygon`. -/
def loadMultipolygon (st : TokStream) (s : String) :
    Except PyErr (GeomData × TokStream) :=
  match st.next with
  | .error e => .error e
  | .ok (t, st1) =>
    if t = "EMPTY" then .ok (.multiPolygon [], st1)
    else if t ≠ "(" then .error (.valueError (invalidWkt s))
    else mpolyLoop s st1 []

mutual

/-- Model of `_load_geometrycollection`: `EMPTY` or `(`, then the member
loop. -/
def loadGeometrycollection (st : TokStream) (s : String) :
    Except PyErr (GeomData × TokStream) :=
  match hn : st.next with
  | .error e => .error e
  | .ok (t, st1) =>
    if t = "EMPTY" then .ok (.geometryCollection [], st1)
    else if t ≠ "(" then .error (.valueError (invalidWkt s))
    else gcLoop st1 s []
termination_by st.toks.length + 1
decreasing_by have := next_len st t st1 hn; omega

/-- Member loop of `_load_geometrycollection`: read a token; `)` closes,
`,` separates, any other token is looked up in `_loads_registry` (a miss
calls `None` — a `TypeError`) and the matched routine parses the next
member.  `StopIteration`/`TokenError` inside the iteration become
`ValueError(INVALID_WKT...)`; the final guard branch is a termination
guard, unreachable because every routine consumes tokens. -/
def gcLoop (st : TokStream) (s : String) (acc : List GeomData) :
    Except PyErr (GeomData × TokStream) :=
  match hn : st.next with
  | .error _ => .error (.valueError (invalidWkt s))
  | .ok (t, st1) =>
    if t = ")" then .ok (.geometryCollection acc, st1)
    else if t = "," then gcLoop st1 s acc
    else
      let r :=
        if t = "POINT" then loadPoint st1 s
        else if t = "LINESTRING" then loadLinestring st1 s
        else if t = "POLYGON" then loadPolygon st1 s
        else if t = "MULTIPOINT" then loadMultipoint st1 s
        else if t = "MULTILINESTRING" then loadMultilinestring st1 s
        else if t = "MULTIPOLYGON" then loadMultipolygon st1 s
        else if t = "GEOMETRYCOLLECTION" then loadGeometrycollection st1 s
        else .error .typeError
      match r with
      | .error .stopIteration => .error (.valueError (invalidWkt s))
      | .error .tokenError => .error (.valueError (invalidWkt s))
      | .error e => .error e
      | .ok (g, st2) =>
        if hlen : st2.toks.length < st.toks.length then gcLoop st2 s (acc ++ [g])
        else .error (.valueError (invalidWkt s))
termination_by st.toks.length + 1
decreasing_by
  · have := next_len st t st1 hn; omega
  · have := next_len st t st1 hn; omega
  · omega

end

/-- Model of `_loads_registry`: per-type routine keyed by the upper-case
type keyword, `none` on a miss. -/
def loadsRegistry (t : String) :
    Option (TokStream → String → Except PyErr (GeomData × TokStream)) :=
  if t = "POINT" then some loadPoint
  else if t = "LINESTRING" then some loadLinestring
  else if t = "POLYGON" then some loadPolygon
  else if t = "MULTIPOINT" then some loadMultipoint
  else if t = "MULTILINESTRING" then some loadMultilinestring
  else if t = "MULTIPOLYGON" then some loadMultipolygon
  else if t = "GEOMETRYCOLLECTION" then some loadGeometrycollection
  else none

/-- The `_type_map_caps_to_mixed` empty-geometry values returned by the
`EMPTY` short circuit of `loads` (`dict(type=..., coordinates=[])`). -/
def emptyGeomOf (t : String) : GeomData :=
  if t = "POINT" then .point []
  else if t = "LINESTRING" then .lineString []
  else if t = "POLYGON" then .polygon []
  else if t = "MULTIPOINT" then .multiPoint []
  else if t = "MULTILINESTRING" then .multiLineString []
  else if t = "MULTIPOLYGON" then .multiPolygon []
  else .geometryCollection []

/-- Body of `loads` on an already-tokenized stream: optional
`SRID=<n>;` header, registry lookup, `EMPTY` peek (which returns without
attaching SRID metadata), re-chaining of the peeked token, and SRID
attachment on the importer's result. -/
def loadsT (st : TokStream) (s : String) : Except PyErr GeoObj :=
  match st.next with
  | .error e => .error e
  | .ok (t0, st1) =>
    let srid? : Except PyErr (Option ℤ × TokStream × String) :=
      if t0 = "SRID" then
        match st1.next with
        | .error e => .error e
        | .ok (t1, st2) =>
          if t1 ≠ "=" then .error (.valueError (expectedMsg "=" t1))
          else
            match st2.next with
            | .error e => .error e
            | .ok (t2, st3) =>
              match parsePyInt t2 with
              | none => .error (.valueError (intErrMsg t2))
              | some n =>
                match st3.next with
                | .error e => .error e
                | .ok (t3, st4) =>
                  if t3 ≠ ";" then .error (.valueError (expectedMsg ";" t3))
                  else
                    match st4.next with
                    | .error e => .error e
                    | .ok (ty, st5) => .ok (some n, st5, ty)
      else .ok (none, st1, t0)
    match srid? with
    | .error e => .error e
    | .ok (srid, st6, geomType) =>
      match loadsRegistry geomType with
      | none => .error (.valueError (unsupportedMsg geomType))
      | some importer =>
        match st6.next with
        | .error e => .error e
        | .ok (peek, st7) =>
          if peek = "EMPTY" then .ok ⟨emptyGeomOf geomType, none, none⟩
          else
            match importer ⟨peek :: st7.toks, st7.err⟩ s with
            | .error e => .error e
            | .ok (g, _) => .ok ⟨g, srid, none⟩

/-- Model of `loads(string)`: tokenize with `_tokenize_wkt`, then parse. -/
def loads (s : String) : Except PyErr GeoObj :=
  let r := tokenizeWkt s
  loadsT ⟨r.1, r.2⟩ s

/-! ## Claim-support definitions -/

/-- Boolean test that `q` is exactly representable with `d` decimal
places (`q * 10 ^ d` is an integer). -/
def decimalAtB (d : ℕ) (q : ℚ) : Bool := (q * 10 ^ d).den = 1

/-- Non-empty coordinate tuple whose ordinates all carry `d` decimal
places. -/
def tupleSafe (d : ℕ) (pt : List ℚ) : Bool :=
  !pt.isEmpty && pt.all (decimalAtB d)

/-- Geometries for which the `d`-decimal dump/load round-trip is exact:
non-empty (so the `EMPTY` short circuit is not taken), every nested
sequence non-empty, every ordinate at `d` decimal places. -/
def roundTripSafe (d : ℕ) : GeomData → Bool
  | .point c => tupleSafe d c
  | .lineString c => !c.isEmpty && c.all (tupleSafe d)
  | .polygon c => !c.isEmpty && c.all (fun r => !r.isEmpty && r.all (tupleSafe d))
  | .multiPoint c => !c.isEmpty && c.all (tupleSafe d)
  | .multiLineString c =>
    !c.isEmpty && c.all (fun r => !r.isEmpty && r.all (tupleSafe d))
  | .multiPolygon c =>
    !c.isEmpty &&
      c.all (fun p => !p.isEmpty &&
        p.all (fun r => !r.isEmpty && r.all (tupleSafe d)))
  | .geometryCollection _ => false

/-- Shape of a stitched numeral token: an optional leading minus, then a
non-empty run of digits and dots (what the tokenizer emits for a signed
numeral). -/
def numShape (t : String) : Bool :=
  match t.data with
  | [] => false
  | c :: b =>
    if c = '-' then !b.isEmpty && b.all isNumCh
    else isNumCh c && b.all isNumCh

/-- Parenthesised MULTIPOINT form `MULTIPOINT((x1 y1),(x2 y2),...)`
built from numeral tokens. -/
def mpParenForm (pts : List (List String)) : String :=
  "MULTIPOINT(" ++
    joinSep "," (pts.map (fun pt => "(" ++ joinSep " " pt ++ ")")) ++ ")"

/-- Bare MULTIPOINT form `MULTIPOINT(x1 y1, x2 y2, ...)` built from the
same numeral tokens. -/
def mpBareForm (pts : List (List String)) : String :=
  "MULTIPOINT(" ++ joinSep ", " (pts.map (fun pt => joinSep " " pt)) ++ ")"

/-- Parenthesis contribution of a stitched token: the sign-stitching can
only ever prefix a single minus, so an opening paren travels as `(` or
`-(` and a closing one as `)` or `-)`. -/
def genBal (t : String) : ℤ :=
  if t = "(" ∨ t = "-(" then 1 else if t = ")" ∨ t = "-)" then -1 else 0

/-- Net parenthesis balance of a token list. -/
def genBalL (ts : List String) : ℤ := (ts.map genBal).sum

/-- Raw lexer tokens are parenthesis singletons or paren-free strings. -/
def rawTokOk (t : String) : Bool :=
  t = "(" || t = ")" || t.data.all (fun c => c ≠ '(' && c ≠ ')')

/-- Characters of a signed numeral token with the sign stripped. -/
def numBody (t : String) : List Char :=
  match t.data with
  | [] => []
  | c :: b => if c = '-' then b else c :: b

/-- Raw `-` operator token preceding a signed numeral, if any. -/
def rawPre (t : String) : List String :=
  match t.data with
  | [] => []
  | c :: _ => if c = '-' then ["-"] else []

/-- Raw token pieces the lexer produces for a (possibly signed) numeral
token: the stitcher turns them back into the one token. -/
def rawOf (t : String) : List String := rawPre t ++ [String.mk (numBody t)]

/-- Final pending-sign state of the stitching loop after a token list. -/
def stitchEnd : Bool → List String → Bool
  | neg, [] => neg
  | neg, t :: ts =>
    if t = "-" then stitchEnd true ts
    else if t = "" then stitchEnd neg ts
    else stitchEnd false ts

/-- Raw lexer tokens of one dumped coordinate tuple (sign operators still
separate). -/
def rawPtToks (d : ℕ) (pt : List ℚ) : List String :=
  (pt.map fun q => rawOf (roundAndPad q d)).flatten

/-- Stitched tokens of one dumped coordinate tuple. -/
def stPtToks (d : ℕ) (pt : List ℚ) : List String :=
  pt.map fun q => roundAndPad q d

/-- Raw tokens of a comma-separated point list (LineString body). -/
def rawPtsToks (d : ℕ) (pts : List (List ℚ)) : List String :=
  List.intercalate [","] (pts.map (rawPtToks d))

/-- Stitched tokens of a comma-separated point list. -/
def stPtsToks (d : ℕ) (pts : List (List ℚ)) : List String :=
  List.intercalate [","] (pts.map (stPtToks d))

/-- Raw tokens of a comma-separated list of parenthesised point lists
(Polygon / MultiLineString body). -/
def rawRingsToks (d : ℕ) (rs : List (List (List ℚ))) : List String :=
  List.intercalate [","] (rs.map fun r => "(" :: rawPtsToks d r ++ [")"])

/-- Stitched tokens of a comma-separated list of parenthesised point
lists. -/
def stRingsToks (d : ℕ) (rs : List (List (List ℚ))) : List String :=
  List.intercalate [","] (rs.map fun r => "(" :: stPtsToks d r ++ [")"])

/-- Raw tokens of a MultiPoint body (each point parenthesised). -/
def rawMpToks (d : ℕ) (pts : List (List ℚ)) : List String :=
  List.intercalate [","] (pts.map fun pt => "(" :: rawPtToks d pt ++ [")"])

/-- Stitched tokens of a MultiPoint body. -/
def stMpToks (d : ℕ) (pts : List (List ℚ)) : List String :=
  List.intercalate [","] (pts.map fun pt => "(" :: stPtToks d pt ++ [")"])

/-- Raw tokens of a MultiPolygon body (each polygon parenthesised). -/
def rawPolysToks (d : ℕ) (ps : List (List (List (List ℚ)))) : List String :=
  List.intercalate [","] (ps.map fun p => "(" :: rawRingsToks d p ++ [")"])

/-- Stitched tokens of a MultiPolygon body. -/
def stPolysToks (d : ℕ) (ps : List (List (List (List ℚ)))) : List String :=
  List.intercalate [","] (ps.map fun p => "(" :: stRingsToks d p ++ [")"])

/-- Parenthesis-level update of the lexer on an operator character. -/
def opDep (c : Char) (d : ℤ) : ℤ :=
  if c = '(' then d + 1 else if c = ')' then d - 1 else d

/-- Accumulator wellformedness of the lexer state: accumulated characters
are numeral or identifier characters, so flushed tokens are never
parenthesis tokens. -/
def stOkP : LexSt → Prop
  | .idle => True
  | .ident acc => ∀ c ∈ acc, isNumCh c = true ∨ isIdentCh c = true
  | .num acc => ∀ c ∈ acc, isNumCh c = true ∨ isIdentCh c = true

/-- The `EMPTY`/geometry-collection body condition under which `dumps`
reaches its SRID-handling tail instead of the `EMPTY` short circuit. -/
def dumpsBody : GeomData → Prop
  | .geometryCollection gs => gs ≠ []
  | g => flattenCoords g ≠ []

/-! ## Digit and numeral lemmas -/

theorem digitsVal_foldl (b : List Char) (acc : ℕ) :
    b.foldl (fun a c => a * 10 + (c.toNat - 48)) acc
      = acc * 10 ^ b.length + digitsVal b := by
  induction b generalizing acc with
  | nil => simp [digitsVal]
  | cons c cs ih =>
    have h1 : digitsVal (c :: cs)
        = cs.foldl (fun a c => a * 10 + (c.toNat - 48)) (c.toNat - 48) := by
      simp [digitsVal]
    simp only [List.foldl_cons, List.length_cons, h1, ih]
    ring

theorem digitsVal_append (a b : List Char) :
    digitsVal (a ++ b) = digitsVal a * 10 ^ b.length + digitsVal b := by
  unfold digitsVal
  rw [List.foldl_append]
  exact digitsVal_foldl b _

theorem digitsVal_replicate_zero (z : ℕ) :
    digitsVal (List.replicate z '0') = 0 := by
  induction z with
  | zero => simp [digitsVal]
  | succ n ih =>
    have : List.replicate (n + 1) '0' = List.replicate n '0' ++ ['0'] := by
      rw [← List.replicate_succ']
    rw [this, digitsVal_append, ih]
    simp [digitsVal]

theorem digitChar_isDigit (n : ℕ) (h : n < 10) : (Nat.digitChar n).isDigit := by
  interval_cases n <;> decide

theorem digitChar_val (n : ℕ) (h : n < 10) :
    (Nat.digitChar n).toNat - 48 = n := by
  interval_cases n <;> decide

theorem digitsVal_single (c : Char) : digitsVal [c] = c.toNat - 48 := by
  simp [digitsVal]

theorem natDigits_ne_nil (n : ℕ) : natDigits n ≠ [] := by
  unfold natDigits
  split
  · simp
  · simp

theorem natDigits_all_digit (n : ℕ) : ∀ c ∈ natDigits n, c.isDigit := by
  induction n using natDigits.induct with
  | case1 n h =>
    unfold natDigits
    rw [dif_pos h]
    intro c hc
    simp at hc
    subst hc
    exact digitChar_isDigit n h
  | case2 n h ih =>
    unfold natDigits
    rw [dif_neg h]
    intro c hc
    rcases List.mem_append.1 hc with h1 | h1
    · exact ih c h1
    · simp at h1
      subst h1
      exact digitChar_isDigit _ (Nat.mod_lt _ (by omega))

theorem digitsVal_natDigits (n : ℕ) : digitsVal (natDigits n) = n := by
  induction n using natDigits.induct with
  | case1 n h =>
    unfold natDigits
    rw [dif_pos h, digitsVal_single, digitChar_val n h]
  | case2 n h ih =>
    unfold natDigits
    rw [dif_neg h, digitsVal_append, ih, digitsVal_single,
      digitChar_val _ (Nat.mod_lt _ (by omega))]
    simp
    omega

theorem takeWhile_all_eq {p : Char → Bool} (a : List Char)
    (h : ∀ c ∈ a, p c = true) : a.takeWhile p = a := by
  induction a with
  | nil => rfl
  | cons c cs ih =>
    rw [List.takeWhile_cons, if_pos (h c (by simp))]
    rw [ih (fun c hc => h c (by simp [hc]))]

theorem dropWhile_all_eq {p : Char → Bool} (a : List Char)
    (h : ∀ c ∈ a, p c = true) : a.dropWhile p = [] := by
  induction a with
  | nil => rfl
  | cons c cs ih =>
    rw [List.dropWhile_cons, if_pos (h c (by simp))]
    exact ih (fun c hc => h c (by simp [hc]))

theorem takeWhile_append_stop {p : Char → Bool} (a : List Char)
    (rest : List Char) (ha : ∀ c ∈ a, p c = true)
    (hr : ∀ c cs, rest = c :: cs → p c = false) :
    (a ++ rest).takeWhile p = a ∧ (a ++ rest).dropWhile p = rest := by
  induction a with
  | nil =>
    cases rest with
    | nil => simp
    | cons c cs =>
      simp [List.takeWhile_cons, List.dropWhile_cons, hr c cs rfl]
  | cons c cs ih =>
    have hc : p c = true := ha c (by simp)
    have ih2 := ih (fun x hx => ha x (by simp [hx]))
    simp only [List.cons_append, List.takeWhile_cons, List.dropWhile_cons,
      hc, if_pos]
    exact ⟨by rw [ih2.1], by rw [ih2.2]⟩

theorem parseDec_digits (ds : List Char) (h : ds ≠ [])
    (hd : ∀ c ∈ ds, c.isDigit = true) :
    parseDec ds = some ((digitsVal ds : ℚ)) := by
  unfold parseDec
  rw [takeWhile_all_eq ds hd, dropWhile_all_eq ds hd]
  simp [h]

theorem parseDec_point (ip fp : List Char)
    (hip : ∀ c ∈ ip, c.isDigit = true) (hfp : ∀ c ∈ fp, c.isDigit = true)
    (hne : ip ≠ [] ∨ fp ≠ []) :
    parseDec (ip ++ '.' :: fp)
      = some ((digitsVal ip : ℚ) + (digitsVal fp : ℚ) / 10 ^ fp.length) := by
  have hsplit := takeWhile_append_stop (p := Char.isDigit) ip ('.' :: fp) hip
    (by intro c cs h; cases h; rfl)
  unfold parseDec
  rw [hsplit.1, hsplit.2]
  simp only [List.all_eq_true]
  rw [if_pos ⟨hfp, hne⟩]

theorem fixedChars_eq (m e : ℕ) :
    ∃ ip fp : List Char,
      fixedChars m e = ip ++ '.' :: fp ∧ ip ≠ [] ∧ fp.length = e ∧
      (∀ c ∈ ip, c.isDigit = true) ∧ (∀ c ∈ fp, c.isDigit = true) ∧
      digitsVal ip * 10 ^ e + digitsVal fp = m := by
  unfold fixedChars
  set ds := natDigits m with hds
  set padded := List.replicate (e + 1 - ds.length) '0' ++ ds with hpadded
  have hlen : e + 1 ≤ padded.length := by
    simp only [hpadded, List.length_append, List.length_replicate]
    have := natDigits_ne_nil m
    have : 1 ≤ ds.length := by
      cases hc : ds with
      | nil => exact absurd hc (by rw [hds]; exact natDigits_ne_nil m)
      | cons a as => simp
    omega
  have hpd : ∀ c ∈ padded, c.isDigit = true := by
    intro c hc
    rcases List.mem_append.1 hc with h1 | h1
    · rw [List.eq_of_mem_replicate h1]; rfl
    · exact natDigits_all_digit m c h1
  have hval : digitsVal padded = m := by
    rw [hpadded, digitsVal_append, digitsVal_replicate_zero,
      digitsVal_natDigits]
    simp
  refine ⟨padded.take (padded.length - e), padded.drop (padded.length - e),
    rfl, ?_, ?_, ?_, ?_, ?_⟩
  · have : 0 < padded.length - e := by omega
    intro hnil
    rw [List.take_eq_nil_iff] at hnil
    rcases hnil with h1 | h1
    · omega
    · rw [h1] at hlen; simp at hlen
  · rw [List.length_drop]; omega
  · intro c hc; exact hpd c (List.mem_of_mem_take hc)
  · intro c hc; exact hpd c (List.mem_of_mem_drop hc)
  · have hsplit : padded.take (padded.length - e) ++
        padded.drop (padded.length - e) = padded := List.take_append_drop _ _
    have := digitsVal_append (padded.take (padded.length - e))
      (padded.drop (padded.length - e))
    rw [hsplit] at this
    rw [List.length_drop] at this
    have he : padded.length - (padded.length - e) = e := by omega
    rw [he] at this
    omega

/-! ## Scale and rounding lemmas -/

theorem maxPowDvd_spec (p : ℕ) (hp : 2 ≤ p) :
    ∀ n, 1 ≤ n →
      p ^ maxPowDvd p n ∣ n ∧ ¬ p ^ (maxPowDvd p n + 1) ∣ n := by
  intro n
  induction n using Nat.strong_induction_on with
  | _ n ih =>
    intro hn
    rw [maxPowDvd]
    split
    · rename_i hcond
      obtain ⟨-, -, hdvd⟩ := hcond
      have hple : p ≤ n := Nat.le_of_dvd (by omega) hdvd
      have hdivlt : n / p < n := Nat.div_lt_self (by omega) (by omega)
      have hdivpos : 1 ≤ n / p := (Nat.one_le_div_iff (by omega)).2 hple
      obtain ⟨d1, d2⟩ := ih (n / p) hdivlt hdivpos
      have hnp : p * (n / p) = n := Nat.mul_div_cancel' hdvd
      constructor
      · have h1 : p * p ^ maxPowDvd p (n / p) ∣ p * (n / p) :=
          mul_dvd_mul_left p d1
        rw [hnp] at h1
        calc p ^ (maxPowDvd p (n / p) + 1)
            = p * p ^ maxPowDvd p (n / p) := by ring
          _ ∣ n := h1
      · intro hcon
        have h2 : p * p ^ (maxPowDvd p (n / p) + 1) ∣ p * (n / p) := by
          have heq : p * p ^ (maxPowDvd p (n / p) + 1)
              = p ^ (maxPowDvd p (n / p) + 1 + 1) := by ring
          rw [heq, hnp]
          exact hcon
        exact d2 ((mul_dvd_mul_iff_left (by omega : p ≠ 0)).1 h2)
    · rename_i hcond
      push_neg at hcond
      have hnd : ¬ p ∣ n := hcond hp hn
      exact ⟨one_dvd n, by simpa using hnd⟩

theorem decScale_spec (den d : ℕ) (hpos : 1 ≤ den) (hden : den ∣ 10 ^ d) :
    ∃ e, decScale den = some e ∧ e ≤ d ∧ den ∣ 10 ^ e := by
  obtain ⟨a2, na2⟩ := maxPowDvd_spec 2 (by omega) den hpos
  obtain ⟨a5, na5⟩ := maxPowDvd_spec 5 (by omega) den hpos
  set a := maxPowDvd 2 den
  set b := maxPowDvd 5 den
  have h25 : Nat.Coprime 2 5 := by decide
  have h52 : Nat.Coprime 5 2 := by decide
  have hcop : Nat.Coprime (2 ^ a) (5 ^ b) := Nat.Coprime.pow a b h25
  have hab : 2 ^ a * 5 ^ b ∣ den := hcop.mul_dvd_of_dvd_of_dvd a2 a5
  obtain ⟨m, hm⟩ := hab
  have hm2 : ¬ 2 ∣ m := by
    intro ⟨k, hk⟩
    apply na2
    rw [hm, hk, pow_succ]
    exact ⟨5 ^ b * k, by ring⟩
  have hm5 : ¬ 5 ∣ m := by
    intro ⟨k, hk⟩
    apply na5
    rw [hm, hk, pow_succ]
    exact ⟨2 ^ a * k, by ring⟩
  have hmdvd : m ∣ 10 ^ d := dvd_trans ⟨2 ^ a * 5 ^ b, by rw [hm]; ring⟩ hden
  have hten : (10 : ℕ) ^ d = 2 ^ d * 5 ^ d := by
    rw [show (10 : ℕ) = 2 * 5 from rfl, mul_pow]
  have hcop2 : Nat.Coprime m 2 :=
    Nat.coprime_comm.1 (Nat.Prime.coprime_iff_not_dvd (by norm_num) |>.2 hm2)
  have hcop5 : Nat.Coprime m 5 :=
    Nat.coprime_comm.1 (Nat.Prime.coprime_iff_not_dvd (by norm_num) |>.2 hm5)
  have hcop10 : Nat.Coprime m (10 ^ d) := by
    rw [hten]
    exact Nat.Coprime.mul_right (hcop2.pow_right d) (hcop5.pow_right d)
  have hm1 : m = 1 := by
    have := Nat.gcd_eq_left hmdvd
    rw [Nat.Coprime] at hcop10
    omega
  have hden_eq : den = 2 ^ a * 5 ^ b := by rw [hm, hm1, mul_one]
  have ha_le : a ≤ d := by
    have h2d : 2 ^ a ∣ 2 ^ d * 5 ^ d := by
      rw [← hten]
      exact dvd_trans a2 hden
    have : 2 ^ a ∣ 2 ^ d :=
      Nat.Coprime.dvd_of_dvd_mul_right (Nat.Coprime.pow a d h25) h2d
    exact (Nat.pow_dvd_pow_iff_le_right (by norm_num)).1 this
  have hb_le : b ≤ d := by
    have h5d : 5 ^ b ∣ 2 ^ d * 5 ^ d := by
      rw [← hten]
      exact dvd_trans a5 hden
    rw [mul_comm] at h5d
    have : 5 ^ b ∣ 5 ^ d :=
      Nat.Coprime.dvd_of_dvd_mul_right (Nat.Coprime.pow b d h52) h5d
    exact (Nat.pow_dvd_pow_iff_le_right (by norm_num)).1 this
  refine ⟨max a b, ?_, ?_, ?_⟩
  · unfold decScale
    simp only []
    rw [if_pos hden_eq.symm]
  · omega
  · rw [hden_eq, show (10 : ℕ) ^ max a b = 2 ^ max a b * 5 ^ max a b by
      rw [show (10 : ℕ) = 2 * 5 from rfl, mul_pow]]
    exact mul_dvd_mul (pow_dvd_pow 2 (le_max_left a b))
      (pow_dvd_pow 5 (le_max_right a b))

theorem roundHalfEven_intCast (k : ℤ) : roundHalfEven (k : ℚ) = k := by
  unfold roundHalfEven
  rw [Int.floor_intCast]
  norm_num

theorem rat_eq_num_of_den_one (x : ℚ) (h : x.den = 1) : x = (x.num : ℚ) := by
  conv_lhs => rw [← Rat.num_div_den x]
  rw [h]
  norm_num

theorem roundDec_id (q : ℚ) (d : ℕ) (h : decimalAtB d q = true) :
    roundDec q d = q := by
  unfold decimalAtB at h
  rw [decide_eq_true_iff] at h
  unfold roundDec
  rw [rat_eq_num_of_den_one _ h, roundHalfEven_intCast]
  rw [← rat_eq_num_of_den_one _ h]
  field_simp

theorem roundDec_den_dvd (x : ℚ) (d : ℕ) : (roundDec x d).den ∣ 10 ^ d := by
  unfold roundDec
  have : ((roundHalfEven (x * 10 ^ d) : ℚ) / (10 : ℚ) ^ d)
      = ((roundHalfEven (x * 10 ^ d) : ℤ) : ℚ) / (((10 ^ d : ℤ)) : ℚ) := by
    push_cast
    ring
  rw [this, ← Rat.divInt_eq_div]
  have hd := Rat.den_dvd (roundHalfEven (x * 10 ^ d)) (10 ^ d : ℤ)
  exact_mod_cast hd

theorem m_div_eq (q : ℚ) (e : ℕ) (hden : q.den ∣ 10 ^ e) :
    ((q.num.natAbs * (10 ^ e / q.den) : ℕ) : ℚ) / 10 ^ e = |q| := by
  have hdpos : (0 : ℚ) < (q.den : ℚ) := by
    exact_mod_cast q.den_pos
  have hcast : ((10 ^ e / q.den : ℕ) : ℚ) = (10 : ℚ) ^ e / (q.den : ℚ) := by
    rw [Nat.cast_div hden (by positivity)]
    push_cast
    ring
  push_cast [hcast]
  rw [show ((q.num.natAbs : ℚ)) = |(q.num : ℚ)| by
    rw [Int.cast_natAbs]
    exact Int.cast_abs]
  have habs : |q| = |(q.num : ℚ)| / (q.den : ℚ) := by
    conv_lhs => rw [← Rat.num_div_den q]
    rw [abs_div, abs_of_pos hdpos]
  rw [habs]
  field_simp
  ring

theorem parseDec_fixedChars_pad (m e z : ℕ) :
    parseDec (fixedChars m e ++ List.replicate z '0')
      = some ((m : ℚ) / 10 ^ e) := by
  obtain ⟨ip, fp, heq, hip_ne, hfp_len, hip_dig, hfp_dig, hval⟩ :=
    fixedChars_eq m e
  rw [heq]
  rw [show (ip ++ '.' :: fp) ++ List.replicate z '0'
      = ip ++ '.' :: (fp ++ List.replicate z '0') by simp]
  rw [parseDec_point ip (fp ++ List.replicate z '0') hip_dig
    (by
      intro c hc
      rcases List.mem_append.1 hc with h1 | h1
      · exact hfp_dig c h1
      · rw [List.eq_of_mem_replicate h1]; rfl)
    (Or.inl hip_ne)]
  congr 1
  rw [digitsVal_append, digitsVal_replicate_zero, List.length_append,
    List.length_replicate, hfp_len]
  push_cast
  rw [show (10 : ℚ) ^ (e + z) = 10 ^ e * 10 ^ z by ring]
  have h10z : (10 : ℚ) ^ z ≠ 0 := by positivity
  have h10e : (10 : ℚ) ^ e ≠ 0 := by positivity
  field_simp
  have : (digitsVal ip : ℚ) * 10 ^ e + (digitsVal fp : ℚ) = (m : ℚ) := by
    exact_mod_cast congrArg (Nat.cast : ℕ → ℚ) hval
  rw [← this]
  ring

theorem fracLen_concat (pre fp : List Char) (hpre : ∀ c ∈ pre, c ≠ '.') :
    fracLen (pre ++ '.' :: fp) = fp.length := by
  unfold fracLen
  have : (pre ++ '.' :: fp).dropWhile (fun c => c ≠ '.') = '.' :: fp := by
    induction pre with
    | nil =>
      rw [List.nil_append, List.dropWhile_cons]
      simp
    | cons c cs ih =>
      rw [List.cons_append, List.dropWhile_cons,
        if_pos (by simpa using hpre c (by simp))]
      exact ih (fun x hx => hpre x (by simp [hx]))
  rw [this]
  simp

theorem strToRat_mk_cons (c : Char) (rest : List Char) :
    strToRat (String.mk (c :: rest)) =
      if c = '-' then (parseDec rest).map Neg.neg
      else if c = '+' then parseDec rest
      else parseDec (c :: rest) := rfl

theorem digit_ne_signs (c : Char) (h : c.isDigit = true) :
    c ≠ '-' ∧ c ≠ '+' := by
  constructor <;> intro he <;> rw [he] at h <;> exact absurd h (by decide)

theorem strToRat_intRepr (k : ℤ) : strToRat (intRepr k) = some (k : ℚ) := by
  unfold intRepr
  split
  · rename_i hneg
    rw [strToRat_mk_cons, if_pos rfl,
      parseDec_digits _ (natDigits_ne_nil _) (natDigits_all_digit _),
      digitsVal_natDigits]
    have hq : ((k.natAbs : ℕ) : ℚ) = -(k : ℚ) := by
      rw [Int.cast_natAbs, abs_of_neg hneg]
      push_cast
      ring
    simp [hq]
  · rename_i hpos
    cases hnd : natDigits k.natAbs with
    | nil => exact absurd hnd (natDigits_ne_nil _)
    | cons c rest =>
      have hcd : c.isDigit = true := natDigits_all_digit _ c (by rw [hnd]; simp)
      obtain ⟨h1, h2⟩ := digit_ne_signs c hcd
      rw [strToRat_mk_cons, if_neg h1, if_neg h2, ← hnd,
        parseDec_digits _ (natDigits_ne_nil _) (natDigits_all_digit _),
        digitsVal_natDigits]
      have hq : ((k.natAbs : ℕ) : ℚ) = (k : ℚ) := by
        rw [Int.cast_natAbs, abs_of_nonneg (not_lt.1 hpos)]
      rw [hq]

theorem strToRat_signed (q : ℚ) (body : List Char)
    (hhead : ∃ c rest, body = c :: rest ∧ c ≠ '-' ∧ c ≠ '+')
    (hparse : parseDec body = some |q|) :
    strToRat (String.mk (if q < 0 then '-' :: body else body)) = some q := by
  split
  · rename_i hneg
    rw [strToRat_mk_cons, if_pos rfl, hparse]
    simp [abs_of_neg hneg]
  · rename_i hpos
    obtain ⟨c, rest, hb, h1, h2⟩ := hhead
    rw [hb, strToRat_mk_cons, if_neg h1, if_neg h2, ← hb, hparse,
      abs_of_nonneg (not_lt.1 hpos)]

theorem fracLen_cons_ne (c : Char) (X : List Char) (h : c ≠ '.') :
    fracLen (c :: X) = fracLen X := by
  unfold fracLen
  rw [List.dropWhile_cons, if_pos (by simpa using h)]

theorem fracLen_fixedChars (m e : ℕ) : fracLen (fixedChars m e) = e := by
  obtain ⟨ip, fp, heq, hip_ne, hfp_len, hip_dig, hfp_dig, hval⟩ :=
    fixedChars_eq m e
  rw [heq, fracLen_concat ip fp
    (fun c hc => (by
      intro hdot
      have := hip_dig c hc
      rw [hdot] at this
      exact absurd this (by decide)))]
  exact hfp_len

theorem fixedChars_head (m e : ℕ) :
    ∃ c rest, fixedChars m e = c :: rest ∧ c.isDigit = true := by
  obtain ⟨ip, fp, heq, hip_ne, hfp_len, hip_dig, hfp_dig, hval⟩ :=
    fixedChars_eq m e
  cases hip : ip with
  | nil => exact absurd hip hip_ne
  | cons c rest =>
    have hcd : c.isDigit = true := hip_dig c (by rw [hip]; simp)
    exact ⟨c, rest ++ '.' :: fp, by rw [heq, hip]; simp, hcd⟩

theorem strToRat_padded_signed (q : ℚ) (d : ℕ) (body : List Char)
    (hhead : ∃ c rest, body = c :: rest ∧ c.isDigit = true)
    (hparse : parseDec (body ++ List.replicate (d - fracLen body) '0')
      = some |q|) :
    strToRat (String.mk ((if q < 0 then '-' :: body else body)
      ++ List.replicate
          (d - fracLen (if q < 0 then '-' :: body else body)) '0'))
      = some q := by
  obtain ⟨c, rest, hb, hcd⟩ := hhead
  obtain ⟨h1, h2⟩ := digit_ne_signs c hcd
  by_cases hneg : q < 0
  · simp only [if_pos hneg]
    have hfl : fracLen ('-' :: body) = fracLen body :=
      fracLen_cons_ne _ _ (by decide)
    rw [hfl,
      show ('-' :: body) ++ List.replicate (d - fracLen body) '0'
        = '-' :: (body ++ List.replicate (d - fracLen body) '0') by simp,
      strToRat_mk_cons, if_pos rfl, hparse]
    simp [abs_of_neg hneg]
  · simp only [if_neg hneg]
    rw [hb,
      show (c :: rest) ++ List.replicate (d - fracLen (c :: rest)) '0'
        = c :: (rest ++ List.replicate (d - fracLen (c :: rest)) '0') by simp,
      strToRat_mk_cons, if_neg h1, if_neg h2,
      show c :: (rest ++ List.replicate (d - fracLen (c :: rest)) '0')
        = (c :: rest) ++ List.replicate (d - fracLen (c :: rest)) '0' by simp,
      ← hb, hparse, abs_of_nonneg (not_lt.1 hneg)]

theorem formatFixedChars_pos (q : ℚ) (d : ℕ) (hd : d ≠ 0) :
    formatFixedChars q d =
      (if q < 0 then '-' :: fixedChars (q.num.natAbs * (10 ^ d / q.den)) d
       else fixedChars (q.num.natAbs * (10 ^ d / q.den)) d) := by
  simp only [formatFixedChars, if_neg hd]

theorem reprPlainChars_eq (q : ℚ) (e : ℕ) (hsome : decScale q.den = some e) :
    reprPlainChars q =
      (if q < 0 then
        '-' :: (if e = 0
          then natDigits (q.num.natAbs * (10 ^ e / q.den)) ++ ['.', '0']
          else fixedChars (q.num.natAbs * (10 ^ e / q.den)) e)
       else (if e = 0
          then natDigits (q.num.natAbs * (10 ^ e / q.den)) ++ ['.', '0']
          else fixedChars (q.num.natAbs * (10 ^ e / q.den)) e)) := by
  simp only [reprPlainChars, hsome, Option.getD_some]

theorem strToRat_roundAndPad (q : ℚ) (d : ℕ) (h : decimalAtB d q = true) :
    strToRat (roundAndPad q d) = some q := by
  by_cases hd0 : d = 0
  · subst hd0
    rw [roundAndPad, if_pos rfl]
    have hden : q.den = 1 := by
      unfold decimalAtB at h
      rw [decide_eq_true_iff] at h
      simpa using h
    have hq : q = ((q.num : ℤ) : ℚ) := rat_eq_num_of_den_one q hden
    rw [show roundHalfEven q = q.num by
      conv_lhs => rw [hq]
      exact roundHalfEven_intCast q.num]
    rw [strToRat_intRepr, ← hq]
  · have hrw : roundAndPad q d = String.mk
        ((if reprHasE q then formatFixedChars q d else reprPlainChars q) ++
         List.replicate (d - fracLen
           (if reprHasE q then formatFixedChars q d
            else reprPlainChars q)) '0') := by
      rw [roundAndPad, if_neg hd0, roundDec_id q d h]
    have hden : q.den ∣ 10 ^ d := by
      have hx := roundDec_den_dvd q d
      rw [roundDec_id q d h] at hx
      exact hx
    rw [hrw]
    by_cases hE : reprHasE q = true
    · rw [if_pos hE, formatFixedChars_pos q d hd0]
      exact strToRat_padded_signed q d _
        (fixedChars_head _ _)
        (by
          rw [fracLen_fixedChars, parseDec_fixedChars_pad, m_div_eq q d hden])
    · rw [if_neg hE]
      obtain ⟨e, hsome, he_le, hdvd_e⟩ :=
        decScale_spec q.den d q.den_pos hden
      rw [reprPlainChars_eq q e hsome]
      by_cases he0 : e = 0
      · subst he0
        simp only [reduceIte]
        have hm : ((q.num.natAbs * (10 ^ 0 / q.den) : ℕ) : ℚ) = |q| := by
          have := m_div_eq q 0 hdvd_e
          simpa using this
        refine strToRat_padded_signed q d _ ?_ ?_
        · cases hnd : natDigits (q.num.natAbs * (10 ^ 0 / q.den)) with
          | nil => exact absurd hnd (natDigits_ne_nil _)
          | cons c rest =>
            exact ⟨c, rest ++ ['.', '0'], by simp,
              natDigits_all_digit _ c (by rw [hnd]; simp)⟩
        · have hfl : fracLen
              (natDigits (q.num.natAbs * (10 ^ 0 / q.den)) ++ ['.', '0']) = 1 := by
            rw [show (['.', '0'] : List Char) = '.' :: ['0'] from rfl,
              fracLen_concat _ _ (fun c hc => by
                intro hdot
                have := natDigits_all_digit _ c hc
                rw [hdot] at this
                exact absurd this (by decide))]
            rfl
          rw [hfl]
          have hd1 : 1 ≤ d := by omega
          rw [show (natDigits (q.num.natAbs * (10 ^ 0 / q.den)) ++ ['.', '0'])
                ++ List.replicate (d - 1) '0'
              = natDigits (q.num.natAbs * (10 ^ 0 / q.den))
                ++ '.' :: ('0' :: List.replicate (d - 1) '0') by simp]
          rw [parseDec_point _ _ (natDigits_all_digit _)
            (by
              intro c hc
              rcases List.mem_cons.1 hc with h1 | h1
              · rw [h1]; rfl
              · rw [List.eq_of_mem_replicate h1]; rfl)
            (Or.inl (natDigits_ne_nil _))]
          rw [digitsVal_natDigits,
            show ('0' :: List.replicate (d - 1) '0')
              = List.replicate d '0' by
                rw [show d = (d - 1) + 1 by omega, List.replicate_succ]
                simp,
            digitsVal_replicate_zero]
          simp only [pow_zero] at hm
          push_cast at hm ⊢
          simpa using hm
      · simp only [if_neg he0]
        refine strToRat_padded_signed q d _ (fixedChars_head _ _) ?_
        rw [fracLen_fixedChars, parseDec_fixedChars_pad, m_div_eq q e hdvd_e]

theorem isNumCh_of_digit (c : Char) (h : c.isDigit = true) :
    isNumCh c = true := by
  unfold isNumCh
  rw [h]
  rfl

theorem numShape_mk_cons (c : Char) (rest : List Char) :
    numShape (String.mk (c :: rest)) =
      if c = '-' then !rest.isEmpty && rest.all isNumCh
      else isNumCh c && rest.all isNumCh := rfl

theorem numShape_mk (L : List Char)
    (h : (L ≠ [] ∧ ∀ c ∈ L, isNumCh c = true) ∨
      (∃ b, L = '-' :: b ∧ b ≠ [] ∧ ∀ c ∈ b, isNumCh c = true)) :
    numShape (String.mk L) = true := by
  rcases h with ⟨hne, hall⟩ | ⟨b, hb, hne, hall⟩
  · cases L with
    | nil => exact absurd rfl hne
    | cons c rest =>
      have hc : isNumCh c = true := hall c (by simp)
      have hcm : c ≠ '-' := by
        intro he
        rw [he] at hc
        exact absurd hc (by decide)
      rw [numShape_mk_cons, if_neg hcm, hc]
      simp only [Bool.true_and, List.all_eq_true]
      intro c2 hc2
      exact hall c2 (by simp [hc2])
  · subst hb
    rw [numShape_mk_cons, if_pos rfl]
    rw [Bool.and_eq_true]
    constructor
    · cases b with
      | nil => exact absurd rfl hne
      | cons x xs => rfl
    · rw [List.all_eq_true]
      exact hall

theorem fixedChars_all_numCh (m e : ℕ) :
    ∀ c ∈ fixedChars m e, isNumCh c = true := by
  obtain ⟨ip, fp, heq, hip_ne, hfp_len, hip_dig, hfp_dig, hval⟩ :=
    fixedChars_eq m e
  rw [heq]
  intro c hc
  rcases List.mem_append.1 hc with h1 | h1
  · exact isNumCh_of_digit c (hip_dig c h1)
  · rcases List.mem_cons.1 h1 with h2 | h2
    · rw [h2]; rfl
    · exact isNumCh_of_digit c (hfp_dig c h2)

theorem fixedChars_ne_nil (m e : ℕ) : fixedChars m e ≠ [] := by
  obtain ⟨ip, fp, heq, hip_ne, -, -, -, -⟩ := fixedChars_eq m e
  rw [heq]
  cases ip with
  | nil => exact absurd rfl hip_ne
  | cons x xs => simp

theorem numShape_roundAndPad (q : ℚ) (d : ℕ) :
    numShape (roundAndPad q d) = true := by
  by_cases hd0 : d = 0
  · subst hd0
    rw [roundAndPad, if_pos rfl]
    unfold intRepr
    apply numShape_mk
    split
    · right
      exact ⟨natDigits _, rfl, natDigits_ne_nil _,
        fun c hc => isNumCh_of_digit c (natDigits_all_digit _ c hc)⟩
    · left
      exact ⟨natDigits_ne_nil _,
        fun c hc => isNumCh_of_digit c (natDigits_all_digit _ c hc)⟩
  · set r := roundDec q d with hr
    have hrw : roundAndPad q d = String.mk
        ((if reprHasE r then formatFixedChars r d else reprPlainChars r) ++
         List.replicate (d - fracLen
           (if reprHasE r then formatFixedChars r d
            else reprPlainChars r)) '0') := by
      rw [roundAndPad, if_neg hd0]
    rw [hrw]
    have hden : r.den ∣ 10 ^ d := roundDec_den_dvd q d
    have hzeros : ∀ z, ∀ c ∈ List.replicate z '0', isNumCh c = true := by
      intro z c hc
      rw [List.eq_of_mem_replicate hc]
      rfl
    have hbody : ∀ body : List Char, body ≠ [] →
        (∀ c ∈ body, isNumCh c = true) →
        numShape (String.mk ((if r < 0 then '-' :: body else body) ++
          List.replicate
            (d - fracLen (if r < 0 then '-' :: body else body)) '0'))
          = true := by
      intro body hne hall
      apply numShape_mk
      split
      · right
        refine ⟨body ++ List.replicate
            (d - fracLen ('-' :: body)) '0', by simp, by simp [hne], ?_⟩
        intro c hc
        rcases List.mem_append.1 hc with h1 | h1
        · exact hall c h1
        · exact hzeros _ c h1
      · left
        refine ⟨by simp [hne], ?_⟩
        intro c hc
        rcases List.mem_append.1 hc with h1 | h1
        · exact hall c h1
        · exact hzeros _ c h1
    by_cases hE : reprHasE r = true
    · rw [if_pos hE, formatFixedChars_pos r d hd0]
      exact hbody _ (fixedChars_ne_nil _ _) (fixedChars_all_numCh _ _)
    · rw [if_neg hE]
      obtain ⟨e, hsome, -, -⟩ := decScale_spec r.den d r.den_pos hden
      rw [reprPlainChars_eq r e hsome]
      by_cases he0 : e = 0
      · subst he0
        simp only [reduceIte]
        apply hbody
        · simp [natDigits_ne_nil]
        · intro c hc
          rcases List.mem_append.1 hc with h1 | h1
          · exact isNumCh_of_digit c (natDigits_all_digit _ c h1)
          · rcases List.mem_cons.1 h1 with h2 | h2
            · rw [h2]; rfl
            · simp at h2
              rw [h2]; rfl
      · simp only [if_neg he0]
        exact hbody _ (fixedChars_ne_nil _ _) (fixedChars_all_numCh _ _)

/-! ## Lexer lemmas -/

theorem numCh_not_wsp (c : Char) (h : isNumCh c = true) : isWsp c = false := by
  by_contra hw
  simp only [Bool.not_eq_false] at hw
  unfold isWsp at hw
  have hor : c = ' ' ∨ c = '\t' ∨ c = '\n' ∨ c = '\x0d' := by
    rcases Bool.or_eq_true_iff.1 hw with h1 | h1
    · rcases Bool.or_eq_true_iff.1 h1 with h2 | h2
      · rcases Bool.or_eq_true_iff.1 h2 with h3 | h3
        · exact Or.inl (of_decide_eq_true h3)
        · exact Or.inr (Or.inl (of_decide_eq_true h3))
      · exact Or.inr (Or.inr (Or.inl (of_decide_eq_true h2)))
    · exact Or.inr (Or.inr (Or.inr (of_decide_eq_true h1)))
  rcases hor with h1 | h1 | h1 | h1 <;> rw [h1] at h <;>
    exact absurd h (by decide)

theorem string_mk_data (t : String) : String.mk t.data = t := rfl

theorem numBody_mk_cons (c : Char) (rest : List Char) :
    numBody (String.mk (c :: rest)) = if c = '-' then rest else c :: rest := rfl

theorem rawPre_mk_cons (c : Char) (rest : List Char) :
    rawPre (String.mk (c :: rest)) = if c = '-' then ["-"] else [] := rfl

theorem numShape_spec (t : String) (h : numShape t = true) :
    (numBody t ≠ [] ∧ ∀ c ∈ numBody t, isNumCh c = true) ∧
      ((t.data = numBody t ∧ rawPre t = []) ∨
        (t.data = '-' :: numBody t ∧ rawPre t = ["-"])) := by
  cases t with
  | mk L =>
    cases L with
    | nil => exact absurd h (by decide)
    | cons c rest =>
      by_cases hc : c = '-'
      · subst hc
        rw [numShape_mk_cons, if_pos rfl, Bool.and_eq_true,
          List.all_eq_true] at h
        refine ⟨⟨?_, ?_⟩, Or.inr ⟨?_, ?_⟩⟩
        · rw [numBody_mk_cons, if_pos rfl]
          intro he
          rw [he] at h
          exact absurd h.1 (by decide)
        · rw [numBody_mk_cons, if_pos rfl]
          exact h.2
        · rw [numBody_mk_cons, if_pos rfl]
        · rw [rawPre_mk_cons, if_pos rfl]
      · rw [numShape_mk_cons, if_neg hc, Bool.and_eq_true,
          List.all_eq_true] at h
        refine ⟨⟨?_, ?_⟩, Or.inl ⟨?_, ?_⟩⟩
        · rw [numBody_mk_cons, if_neg hc]
          simp
        · rw [numBody_mk_cons, if_neg hc]
          intro x hx
          rcases List.mem_cons.1 hx with h1 | h1
          · rw [h1]; exact h.1
          · exact h.2 x h1
        · rw [numBody_mk_cons, if_neg hc]
        · rw [rawPre_mk_cons, if_neg hc]

theorem numShape_ne (t : String) (h : numShape t = true) :
    t ≠ "(" ∧ t ≠ ")" ∧ t ≠ "," ∧ t ≠ "EMPTY" ∧ t ≠ "-" ∧ t ≠ "" := by
  refine ⟨?_, ?_, ?_, ?_, ?_, ?_⟩ <;>
    intro he <;> rw [he] at h <;> exact absurd h (by decide)

theorem genBal_numShape (t : String) (h : numShape t = true) : genBal t = 0 := by
  obtain ⟨-, h2, -, -, -, -⟩ := numShape_ne t h
  unfold genBal
  rw [if_neg, if_neg]
  · intro hor
    rcases hor with h1 | h1
    · rw [h1] at h; exact absurd h (by decide)
    · rw [h1] at h; exact absurd h (by decide)
  · intro hor
    rcases hor with h1 | h1
    · rw [h1] at h; exact absurd h (by decide)
    · rw [h1] at h; exact absurd h (by decide)

theorem lexAux_append (a : List Char) :
    ∀ (b : List Char) (st : LexSt) (d : ℤ),
    lexAux (a ++ b) st d =
      ((lexAux a st d).1 ++
        (lexAux b (lexAux a st d).2.1 (lexAux a st d).2.2).1,
       (lexAux b (lexAux a st d).2.1 (lexAux a st d).2.2).2) := by
  induction a with
  | nil => intro b st d; simp [lexAux]
  | cons c cs ih =>
    intro b st d
    rw [List.cons_append]
    by_cases h1 : isWsp c
    · simp only [lexAux, if_pos h1, ih]
      simp [List.append_assoc]
    · by_cases h2 : isNumCh c
      · cases st with
        | num acc =>
          simp only [lexAux, if_neg h1, if_pos h2, ih]
        | ident acc =>
          by_cases h3 : c.isDigit
          · simp only [lexAux, if_neg h1, if_pos h2, if_pos h3, ih]
          · simp only [lexAux, if_neg h1, if_pos h2, if_neg h3, ih]
            simp [List.append_assoc]
        | idle =>
          simp only [lexAux, if_neg h1, if_pos h2, ih]
      · by_cases h3 : isIdentCh c
        · cases st with
          | ident acc =>
            simp only [lexAux, if_neg h1, if_neg h2, if_pos h3, ih]
          | num acc =>
            simp only [lexAux, if_neg h1, if_neg h2, if_pos h3, ih]
            simp [List.append_assoc]
          | idle =>
            simp only [lexAux, if_neg h1, if_neg h2, if_pos h3, ih]
            simp [List.append_assoc]
        · simp only [lexAux, if_neg h1, if_neg h2, if_neg h3, ih]
          simp [List.append_assoc]

theorem lexAux_num_absorb (b : List Char)
    (hall : ∀ c ∈ b, isNumCh c = true) :
    ∀ (rest acc : List Char) (d : ℤ),
    lexAux (b ++ rest) (.num acc) d = lexAux rest (.num (acc ++ b)) d := by
  induction b with
  | nil => intro rest acc d; simp
  | cons c cs ih =>
    intro rest acc d
    have hc : isNumCh c = true := hall c (by simp)
    have hw : isWsp c = false := numCh_not_wsp c hc
    rw [List.cons_append]
    simp only [lexAux, hw, Bool.false_eq_true, if_false, if_pos hc]
    rw [ih (fun x hx => hall x (by simp [hx])) rest (acc ++ [c]) d]
    simp

theorem lexAux_num_start (b : List Char) (hne : b ≠ [])
    (hall : ∀ c ∈ b, isNumCh c = true) (rest : List Char) (d : ℤ) :
    lexAux (b ++ rest) .idle d = lexAux rest (.num b) d := by
  cases b with
  | nil => exact absurd rfl hne
  | cons c cs =>
    have hc : isNumCh c = true := hall c (by simp)
    have hw : isWsp c = false := numCh_not_wsp c hc
    rw [List.cons_append]
    simp only [lexAux, hw, Bool.false_eq_true, if_false, if_pos hc]
    rw [lexAux_num_absorb cs (fun x hx => hall x (by simp [hx])) rest [c] d]
    simp

theorem lexAux_space (rest : List Char) (st : LexSt) (d : ℤ) :
    lexAux (' ' :: rest) st d =
      (flushSt st ++ (lexAux rest .idle d).1, (lexAux rest .idle d).2) := rfl

theorem lexAux_comma (rest : List Char) (st : LexSt) (d : ℤ) :
    lexAux (',' :: rest) st d =
      (flushSt st ++ "," :: (lexAux rest .idle d).1,
        (lexAux rest .idle d).2) := by
  cases st <;> rfl

theorem lexAux_open (rest : List Char) (st : LexSt) (d : ℤ) :
    lexAux ('(' :: rest) st d =
      (flushSt st ++ "(" :: (lexAux rest .idle (d + 1)).1,
        (lexAux rest .idle (d + 1)).2) := by
  cases st <;> rfl

theorem lexAux_close (rest : List Char) (st : LexSt) (d : ℤ) :
    lexAux (')' :: rest) st d =
      (flushSt st ++ ")" :: (lexAux rest .idle (d - 1)).1,
        (lexAux rest .idle (d - 1)).2) := by
  cases st <;> rfl

theorem lexAux_minus (rest : List Char) (st : LexSt) (d : ℤ) :
    lexAux ('-' :: rest) st d =
      (flushSt st ++ "-" :: (lexAux rest .idle d).1,
        (lexAux rest .idle d).2) := by
  cases st <;> rfl

theorem lexAux_nil (st : LexSt) (d : ℤ) : lexAux [] st d = ([], st, d) := rfl

/-- Lexing a signed numeral from the idle state: the sign (if any) is an
operator token, the magnitude accumulates into the numeral state. -/
theorem lexAux_numTok (t : String) (h : numShape t = true)
    (rest : List Char) (d : ℤ) :
    lexAux (t.data ++ rest) .idle d =
      (rawPre t ++ (lexAux rest (.num (numBody t)) d).1,
       (lexAux rest (.num (numBody t)) d).2) := by
  obtain ⟨⟨hne, hall⟩, hcase⟩ := numShape_spec t h
  rcases hcase with ⟨hdata, hpre⟩ | ⟨hdata, hpre⟩
  · rw [hdata, hpre, lexAux_num_start (numBody t) hne hall rest d]
    simp
  · rw [hdata, hpre, List.cons_append, lexAux_minus]
    rw [lexAux_num_start (numBody t) hne hall rest d]
    simp [flushSt]

/-! ## Stitching lemmas -/

theorem stitch_append (A : List String) :
    ∀ (B : List String) (neg : Bool),
    stitch neg (A ++ B) = stitch neg A ++ stitch (stitchEnd neg A) B := by
  induction A with
  | nil => intro B neg; simp [stitch, stitchEnd]
  | cons t ts ih =>
    intro B neg
    rw [List.cons_append]
    by_cases h1 : t = "-"
    · simp only [stitch, stitchEnd, if_pos h1, ih]
    · by_cases h2 : t = ""
      · simp only [stitch, stitchEnd, if_neg h1, if_pos h2, ih]
      · simp only [stitch, stitchEnd, if_neg h1, if_neg h2, ih]
        simp

theorem stitch_rawOf (t : String) (h : numShape t = true)
    (R : List String) :
    stitch false (rawOf t ++ R) = t :: stitch false R := by
  obtain ⟨⟨hne, hall⟩, hcase⟩ := numShape_spec t h
  obtain ⟨-, -, -, -, hm, he⟩ := numShape_ne t h
  have hbne : String.mk (numBody t) ≠ "-" := by
    intro hcon
    have : '-' ∈ numBody t := by
      have : numBody t = ['-'] := congrArg String.data hcon
      rw [this]; simp
    have := hall _ this
    exact absurd this (by decide)
  have hbe : String.mk (numBody t) ≠ "" := by
    intro hcon
    have : numBody t = [] := congrArg String.data hcon
    exact hne this
  rcases hcase with ⟨hdata, hpre⟩ | ⟨hdata, hpre⟩
  · unfold rawOf
    rw [hpre, List.nil_append, List.cons_append, List.nil_append]
    have hmk : String.mk (numBody t) = t := by
      rw [← hdata]
    rw [hmk]
    simp [stitch, hm, he]
  · unfold rawOf
    rw [hpre]
    rw [show (["-"] ++ [String.mk (numBody t)]) ++ R
        = "-" :: (String.mk (numBody t) :: R) by simp]
    rw [stitch, if_pos rfl]
    rw [stitch, if_neg hbne, if_neg hbe]
    congr 1
    have hmk2 : ("-" ++ String.mk (numBody t))
        = String.mk ('-' :: numBody t) := rfl
    rw [hmk2, ← hdata]
    simp [string_mk_data]

/-! ## Lexing the serializer output -/

theorem string_data_append (s t : String) : (s ++ t).data = s.data ++ t.data := rfl

theorem joinSep_cons2 (sep x y : String) (ys : List String) :
    joinSep sep (x :: y :: ys) = x ++ sep ++ joinSep sep (y :: ys) := rfl

theorem stitch_cons_plain (t : String) (h1 : t ≠ "-") (h2 : t ≠ "")
    (R : List String) : stitch false (t :: R) = t :: stitch false R := by
  simp [stitch, h1, h2]

theorem stitch_rawPt (d : ℕ) (pt : List ℚ) :
    ∀ R, stitch false (rawPtToks d pt ++ R)
      = stPtToks d pt ++ stitch false R := by
  induction pt with
  | nil => intro R; simp [rawPtToks, stPtToks]
  | cons q qs ih =>
    intro R
    have h1 : rawPtToks d (q :: qs)
        = rawOf (roundAndPad q d) ++ rawPtToks d qs := by
      simp [rawPtToks]
    have h2 : stPtToks d (q :: qs)
        = roundAndPad q d :: stPtToks d qs := by
      simp [stPtToks]
    rw [h1, h2, List.append_assoc,
      stitch_rawOf _ (numShape_roundAndPad q d), ih]
    simp

theorem intercalate_comma_cc (x y : List String) (ys : List (List String)) :
    List.intercalate [","] (x :: y :: ys)
      = x ++ "," :: List.intercalate [","] (y :: ys) := by
  simp [List.intercalate, List.intersperse]

theorem stitch_rawPts (d : ℕ) (pts : List (List ℚ)) :
    ∀ R, stitch false (rawPtsToks d pts ++ R)
      = stPtsToks d pts ++ stitch false R := by
  induction pts with
  | nil => intro R; simp [rawPtsToks, stPtsToks, List.intercalate]
  | cons pt pts ih =>
    intro R
    cases pts with
    | nil =>
      have h1 : rawPtsToks d [pt] = rawPtToks d pt := by
        simp [rawPtsToks, List.intercalate]
      have h2 : stPtsToks d [pt] = stPtToks d pt := by
        simp [stPtsToks, List.intercalate]
      rw [h1, h2, stitch_rawPt]
    | cons pt2 pts2 =>
      have h1 : rawPtsToks d (pt :: pt2 :: pts2)
          = rawPtToks d pt ++ "," :: rawPtsToks d (pt2 :: pts2) := by
        simp only [rawPtsToks, List.map_cons]
        exact intercalate_comma_cc _ _ _
      have h2 : stPtsToks d (pt :: pt2 :: pts2)
          = stPtToks d pt ++ "," :: stPtsToks d (pt2 :: pts2) := by
        simp only [stPtsToks, List.map_cons]
        exact intercalate_comma_cc _ _ _
      have hComma := fun R => stitch_cons_plain "," (by decide) (by decide) R
      rw [h1, h2, List.append_assoc, stitch_rawPt, List.cons_append, hComma,
        ih]
      simp

theorem stitch_level2 {α : Type} (rawF : α → List String)
    (stF : α → List String)
    (hF : ∀ r R, stitch false (rawF r ++ R) = stF r ++ stitch false R)
    (rs : List α) :
    ∀ R, stitch false
        (List.intercalate [","] (rs.map fun r => "(" :: rawF r ++ [")"]) ++ R)
      = List.intercalate [","] (rs.map fun r => "(" :: stF r ++ [")"])
        ++ stitch false R := by
  have hOpen := fun R => stitch_cons_plain "(" (by decide) (by decide) R
  have hClose := fun R => stitch_cons_plain ")" (by decide) (by decide) R
  have hComma := fun R => stitch_cons_plain "," (by decide) (by decide) R
  induction rs with
  | nil => intro R; simp [List.intercalate]
  | cons r rs ih =>
    intro R
    cases rs with
    | nil =>
      have h1 : List.intercalate [","]
          (([r].map fun x => "(" :: rawF x ++ [")"]))
          = "(" :: rawF r ++ [")"] := by
        simp [List.intercalate]
      have h2 : List.intercalate [","]
          (([r].map fun x => "(" :: stF x ++ [")"]))
          = "(" :: stF r ++ [")"] := by
        simp [List.intercalate]
      rw [h1, h2]
      simp only [List.cons_append, List.append_assoc, List.singleton_append,
        List.nil_append]
      rw [hOpen, hF, hClose]
    | cons r2 rs2 =>
      have h1 := intercalate_comma_cc ("(" :: rawF r ++ [")"])
        ("(" :: rawF r2 ++ [")"]) ((rs2.map fun x => "(" :: rawF x ++ [")"]))
      have h2 := intercalate_comma_cc ("(" :: stF r ++ [")"])
        ("(" :: stF r2 ++ [")"]) ((rs2.map fun x => "(" :: stF x ++ [")"]))
      simp only [List.map_cons]
      rw [h1, h2]
      simp only [List.map_cons, List.cons_append, List.append_assoc,
        List.singleton_append, List.nil_append] at ih ⊢
      rw [hOpen, hF, hClose, hComma, ih]

theorem stitch_rawRings (d : ℕ) (rs : List (List (List ℚ))) (R : List String) :
    stitch false (rawRingsToks d rs ++ R)
      = stRingsToks d rs ++ stitch false R :=
  stitch_level2 (rawPtsToks d) (stPtsToks d) (stitch_rawPts d) rs R

theorem stitch_rawMp (d : ℕ) (pts : List (List ℚ)) (R : List String) :
    stitch false (rawMpToks d pts ++ R) = stMpToks d pts ++ stitch false R :=
  stitch_level2 (rawPtToks d) (stPtToks d) (stitch_rawPt d) pts R

theorem stitch_rawPolys (d : ℕ) (ps : List (List (List (List ℚ))))
    (R : List String) :
    stitch false (rawPolysToks d ps ++ R)
      = stPolysToks d ps ++ stitch false R :=
  stitch_level2 (rawRingsToks d) (stRingsToks d) (stitch_rawRings d) ps R

/-! ## Lexing the serializer bodies -/

@[simp] theorem string_singleton_close : String.singleton ')' = ")" := rfl

@[simp] theorem string_singleton_comma : String.singleton ',' = "," := rfl

theorem lexAux_op (c : Char) (hc : c = ')' ∨ c = ',') (rest : List Char)
    (st : LexSt) (d : ℤ) :
    lexAux (c :: rest) st d =
      (flushSt st ++ String.singleton c :: (lexAux rest .idle (opDep c d)).1,
        (lexAux rest .idle (opDep c d)).2) := by
  rcases hc with h | h
  · subst h
    rw [lexAux_close rest st d]
    simp only [opDep]
    rw [show String.singleton ')' = ")" from rfl]
    simp
  · subst h
    rw [lexAux_comma rest st d]
    simp only [opDep]
    rw [show String.singleton ',' = "," from rfl]
    simp

theorem lex_tuple (ts : List String) (h : ∀ t ∈ ts, numShape t = true)
    (c : Char) (hc : c = ')' ∨ c = ',') :
    ∀ (rest : List Char) (dep : ℤ),
    lexAux ((joinSep " " ts).data ++ c :: rest) .idle dep
      = ((ts.map rawOf).flatten
            ++ String.singleton c :: (lexAux rest .idle (opDep c dep)).1,
         (lexAux rest .idle (opDep c dep)).2) := by
  induction ts with
  | nil =>
    intro rest dep
    rw [show (joinSep " " []).data = [] from rfl, List.nil_append,
      lexAux_op c hc]
    simp [flushSt]
  | cons t ts ih =>
    intro rest dep
    cases ts with
    | nil =>
      rw [show joinSep " " [t] = t from rfl,
        lexAux_numTok t (h t (by simp)) (c :: rest) dep,
        lexAux_op c hc]
      simp [rawOf, flushSt]
    | cons t2 ts2 =>
      have hts : (joinSep " " (t :: t2 :: ts2)).data
          = t.data ++ ' ' :: (joinSep " " (t2 :: ts2)).data := by
        rw [joinSep_cons2, string_data_append, string_data_append]
        simp
      rw [hts, List.append_assoc, List.cons_append,
        lexAux_numTok t (h t (by simp)), lexAux_space,
        ih (fun x hx => h x (by simp [hx]))]
      simp [rawOf, flushSt]

theorem lex_dumpPt (d : ℕ) (pt : List ℚ) (c : Char) (hc : c = ')' ∨ c = ',')
    (rest : List Char) (dep : ℤ) :
    lexAux ((dumpPt pt d).data ++ c :: rest) .idle dep
      = (rawPtToks d pt
            ++ String.singleton c :: (lexAux rest .idle (opDep c dep)).1,
         (lexAux rest .idle (opDep c dep)).2) := by
  have hn : ∀ t ∈ stPtToks d pt, numShape t = true := by
    intro t ht
    simp only [stPtToks, List.mem_map] at ht
    obtain ⟨q, _, rfl⟩ := ht
    exact numShape_roundAndPad q d
  have h1 : dumpPt pt d = joinSep " " (stPtToks d pt) := rfl
  have h2 : rawPtToks d pt = ((stPtToks d pt).map rawOf).flatten := by
    simp only [rawPtToks, stPtToks, List.map_map]
    rfl
  rw [h1, h2, lex_tuple (stPtToks d pt) hn c hc]

theorem lex_tuples (tss : List (List String))
    (h : ∀ ts ∈ tss, ∀ t ∈ ts, numShape t = true)
    (c : Char) (hc : c = ')' ∨ c = ',') :
    ∀ (rest : List Char) (dep : ℤ),
    lexAux ((joinSep ", " (tss.map (joinSep " "))).data ++ c :: rest)
        .idle dep
      = (List.intercalate [","] (tss.map fun ts => (ts.map rawOf).flatten)
            ++ String.singleton c :: (lexAux rest .idle (opDep c dep)).1,
         (lexAux rest .idle (opDep c dep)).2) := by
  induction tss with
  | nil =>
    intro rest dep
    rw [show (joinSep ", " (([] : List (List String)).map (joinSep " "))).data
        = [] from rfl, List.nil_append, lexAux_op c hc]
    simp [flushSt, List.intercalate]
  | cons ts tss ih =>
    intro rest dep
    cases tss with
    | nil =>
      rw [show (([ts] : List (List String)).map (joinSep " "))
          = [joinSep " " ts] from rfl,
        show joinSep ", " [joinSep " " ts] = joinSep " " ts from rfl,
        lex_tuple ts (h ts (by simp)) c hc]
      simp [List.intercalate]
    | cons ts2 tss2 =>
      have hts : (joinSep ", " ((ts :: ts2 :: tss2).map (joinSep " "))).data
          = (joinSep " " ts).data
            ++ ',' :: ' ' ::
              (joinSep ", " ((ts2 :: tss2).map (joinSep " "))).data := by
        simp only [List.map_cons]
        rw [joinSep_cons2, string_data_append, string_data_append]
        simp
      rw [hts]
      simp only [List.append_assoc, List.cons_append]
      rw [lex_tuple ts (h ts (by simp)) ',' (Or.inr rfl)]
      have hod : opDep ',' dep = dep := by simp [opDep]
      rw [hod, lexAux_space, ih (fun x hx t ht => h x (by simp [hx]) t ht)]
      simp [intercalate_comma_cc, flushSt]

theorem lex_dumpPtList (d : ℕ) (pts : List (List ℚ)) (c : Char)
    (hc : c = ')' ∨ c = ',') (rest : List Char) (dep : ℤ) :
    lexAux ((dumpPtList pts d).data ++ c :: rest) .idle dep
      = (rawPtsToks d pts
            ++ String.singleton c :: (lexAux rest .idle (opDep c dep)).1,
         (lexAux rest .idle (opDep c dep)).2) := by
  have hn : ∀ ts ∈ pts.map (stPtToks d), ∀ t ∈ ts, numShape t = true := by
    intro ts hts t ht
    simp only [List.mem_map] at hts
    obtain ⟨pt, _, rfl⟩ := hts
    simp only [stPtToks, List.mem_map] at ht
    obtain ⟨q, _, rfl⟩ := ht
    exact numShape_roundAndPad q d
  have h1 : dumpPtList pts d
      = joinSep ", " ((pts.map (stPtToks d)).map (joinSep " ")) := by
    simp only [dumpPtList, List.map_map]
    rfl
  have h2 : rawPtsToks d pts
      = List.intercalate [","]
          ((pts.map (stPtToks d)).map fun ts => (ts.map rawOf).flatten) := by
    simp only [rawPtsToks, List.map_map]
    congr 1
    apply List.map_congr_left
    intro pt _
    simp only [Function.comp, rawPtToks, stPtToks, List.map_map]
    rfl
  rw [h1, h2, lex_tuples (pts.map (stPtToks d)) hn c hc]

theorem lex_level2 {α : Type} (strF : α → String) (rawF : α → List String)
    (hF : ∀ (r : α) (c : Char), (c = ')' ∨ c = ',') →
      ∀ (rest : List Char) (dep : ℤ),
      lexAux ((strF r).data ++ c :: rest) .idle dep
        = (rawF r ++ String.singleton c :: (lexAux rest .idle (opDep c dep)).1,
           (lexAux rest .idle (opDep c dep)).2))
    (sep : String) (hsep : sep = "," ∨ sep = ", ")
    (rs : List α) (c : Char) (hc : c = ')' ∨ c = ',') :
    ∀ (rest : List Char) (dep : ℤ),
    lexAux ((joinSep sep (rs.map fun r => "(" ++ strF r ++ ")")).data
        ++ c :: rest) .idle dep
      = (List.intercalate [","] (rs.map fun r => "(" :: rawF r ++ [")"])
            ++ String.singleton c :: (lexAux rest .idle (opDep c dep)).1,
         (lexAux rest .idle (opDep c dep)).2) := by
  induction rs with
  | nil =>
    intro rest dep
    rw [show (joinSep sep (([] : List α).map fun r => "(" ++ strF r ++ ")")).data
        = [] from rfl, List.nil_append, lexAux_op c hc]
    simp [flushSt, List.intercalate]
  | cons r rs ih =>
    intro rest dep
    cases rs with
    | nil =>
      have hdata : (joinSep sep (([r] : List α).map
            fun x => "(" ++ strF x ++ ")")).data
          = '(' :: ((strF r).data ++ ')' :: []) := by
        rw [show (([r] : List α).map fun x => "(" ++ strF x ++ ")")
            = ["(" ++ strF r ++ ")"] from rfl,
          show joinSep sep ["(" ++ strF r ++ ")"]
            = "(" ++ strF r ++ ")" from rfl,
          string_data_append, string_data_append]
        simp
      rw [hdata]
      simp only [List.append_assoc, List.cons_append, List.nil_append]
      rw [lexAux_open, hF r ')' (Or.inl rfl), lexAux_op c hc]
      have hdep : opDep ')' (dep + 1) = dep := by simp [opDep]
      rw [hdep]
      simp [flushSt, List.intercalate]
    | cons r2 rs2 =>
      have hdata : (joinSep sep ((r :: r2 :: rs2).map
            fun x => "(" ++ strF x ++ ")")).data
          = '(' :: ((strF r).data
              ++ ')' :: (sep.data
                ++ (joinSep sep ((r2 :: rs2).map
                    fun x => "(" ++ strF x ++ ")")).data)) := by
        simp only [List.map_cons]
        rw [joinSep_cons2, string_data_append, string_data_append,
          string_data_append, string_data_append]
        simp
      rw [hdata]
      simp only [List.append_assoc, List.cons_append]
      rw [lexAux_open, hF r ')' (Or.inl rfl)]
      have hdep : opDep ')' (dep + 1) = dep := by simp [opDep]
      rw [hdep]
      have hsepstep : ∀ (X : List Char),
          lexAux (sep.data ++ X) .idle dep
            = ("," :: (lexAux X .idle dep).1, (lexAux X .idle dep).2) := by
        intro X
        rcases hsep with h | h
        · subst h
          rw [show (("," : String).data ++ X) = ',' :: X from rfl,
            lexAux_comma]
          simp [flushSt]
        · subst h
          rw [show ((", " : String).data ++ X) = ',' :: ' ' :: X from rfl,
            lexAux_comma, lexAux_space]
          simp [flushSt]
      rw [hsepstep, ih]
      simp [intercalate_comma_cc, flushSt]

theorem lex_dumpRings (d : ℕ) (rings : List (List (List ℚ))) (c : Char)
    (hc : c = ')' ∨ c = ',') (rest : List Char) (dep : ℤ) :
    lexAux ((dumpRings rings d).data ++ c :: rest) .idle dep
      = (rawRingsToks d rings
            ++ String.singleton c :: (lexAux rest .idle (opDep c dep)).1,
         (lexAux rest .idle (opDep c dep)).2) := by
  have h1 : dumpRings rings d
      = joinSep ", " (rings.map fun r => "(" ++ dumpPtList r d ++ ")") := rfl
  rw [h1,
    lex_level2 (fun r => dumpPtList r d) (rawPtsToks d)
      (fun r c hc rest dep => lex_dumpPtList d r c hc rest dep)
      ", " (Or.inr rfl) rings c hc]
  rfl

theorem lex_dumpMpBody (d : ℕ) (pts : List (List ℚ)) (c : Char)
    (hc : c = ')' ∨ c = ',') (rest : List Char) (dep : ℤ) :
    lexAux ((joinSep ", " (pts.map fun pt => "(" ++ dumpPt pt d ++ ")")).data
        ++ c :: rest) .idle dep
      = (rawMpToks d pts
            ++ String.singleton c :: (lexAux rest .idle (opDep c dep)).1,
         (lexAux rest .idle (opDep c dep)).2) := by
  rw [lex_level2 (fun pt => dumpPt pt d) (rawPtToks d)
      (fun r c hc rest dep => lex_dumpPt d r c hc rest dep)
      ", " (Or.inr rfl) pts c hc]
  rfl

theorem lex_dumpPolys (d : ℕ) (ps : List (List (List (List ℚ)))) (c : Char)
    (hc : c = ')' ∨ c = ',') (rest : List Char) (dep : ℤ) :
    lexAux ((joinSep ", " (ps.map fun p => "(" ++ dumpRings p d ++ ")")).data
        ++ c :: rest) .idle dep
      = (rawPolysToks d ps
            ++ String.singleton c :: (lexAux rest .idle (opDep c dep)).1,
         (lexAux rest .idle (opDep c dep)).2) := by
  rw [lex_level2 (fun p => dumpRings p d) (rawRingsToks d)
      (fun r c hc rest dep => lex_dumpRings d r c hc rest dep)
      ", " (Or.inr rfl) ps c hc]
  rfl

/-! ## Tokenizing whole serializer outputs -/

theorem tokenizeWkt_assemble (s pre body : String) (kw : String)
    (rawB stB : List String)
    (hs : s = pre ++ body ++ ")")
    (hpre : lexAux pre.data .idle 0 = ([kw, "("], LexSt.idle, 1))
    (hbody : lexAux (body.data ++ ')' :: []) .idle 1
      = (rawB ++ [")"], LexSt.idle, 0))
    (hkw1 : kw ≠ "-") (hkw2 : kw ≠ "")
    (hstitch : stitch false (rawB ++ [")"]) = stB ++ [")"]) :
    tokenizeWkt s = (kw :: "(" :: stB ++ [")"], false) := by
  have hdata : s.data = pre.data ++ (body.data ++ ')' :: []) := by
    rw [hs, string_data_append, string_data_append]
    simp
  have hlex : lexAux s.data .idle 0
      = (kw :: "(" :: (rawB ++ [")"]), LexSt.idle, 0) := by
    rw [hdata, lexAux_append, hpre]
    simp [hbody]
  have hpy : pyTokenize s = (kw :: "(" :: (rawB ++ [")"]), false) := by
    simp [pyTokenize, hlex, flushSt]
  have ht : tokenizeWkt s
      = (stitch false (kw :: "(" :: (rawB ++ [")"])), false) := by
    simp [tokenizeWkt, hpy]
  rw [ht, stitch_cons_plain kw hkw1 hkw2,
    stitch_cons_plain "(" (by decide) (by decide), hstitch]
  simp

theorem tok_dumpPoint (d : ℕ) (pt : List ℚ) (h : pt ≠ []) :
    tokenizeWkt (dumpPoint pt d)
      = ("POINT" :: "(" :: stPtToks d pt ++ [")"], false) := by
  apply tokenizeWkt_assemble (dumpPoint pt d) "POINT (" (dumpPt pt d) "POINT"
    (rawPtToks d pt) (stPtToks d pt)
  · rw [dumpPoint, if_neg h]
  · decide
  · have := lex_dumpPt d pt ')' (Or.inl rfl) [] 1
    simpa [opDep, lexAux_nil] using this
  · decide
  · decide
  · rw [stitch_rawPt d pt [")"], show stitch false [")"] = [")"] by decide]

theorem tok_dumpLinestring (d : ℕ) (pts : List (List ℚ)) (h : pts ≠ []) :
    tokenizeWkt (dumpLinestring pts d)
      = ("LINESTRING" :: "(" :: stPtsToks d pts ++ [")"], false) := by
  apply tokenizeWkt_assemble (dumpLinestring pts d) "LINESTRING ("
    (dumpPtList pts d) "LINESTRING" (rawPtsToks d pts) (stPtsToks d pts)
  · rw [dumpLinestring, if_neg h]
  · decide
  · have := lex_dumpPtList d pts ')' (Or.inl rfl) [] 1
    simpa [opDep, lexAux_nil] using this
  · decide
  · decide
  · rw [stitch_rawPts d pts [")"], show stitch false [")"] = [")"] by decide]

theorem tok_dumpPolygon (d : ℕ) (rs : List (List (List ℚ))) (h : rs ≠ []) :
    tokenizeWkt (dumpPolygon rs d)
      = ("POLYGON" :: "(" :: stRingsToks d rs ++ [")"], false) := by
  apply tokenizeWkt_assemble (dumpPolygon rs d) "POLYGON ("
    (dumpRings rs d) "POLYGON" (rawRingsToks d rs) (stRingsToks d rs)
  · rw [dumpPolygon, if_neg h]
  · decide
  · have := lex_dumpRings d rs ')' (Or.inl rfl) [] 1
    simpa [opDep, lexAux_nil] using this
  · decide
  · decide
  · rw [stitch_rawRings d rs [")"], show stitch false [")"] = [")"] by decide]

theorem tok_dumpMultipoint (d : ℕ) (pts : List (List ℚ)) (h : pts ≠ []) :
    tokenizeWkt (dumpMultipoint pts d)
      = ("MULTIPOINT" :: "(" :: stMpToks d pts ++ [")"], false) := by
  apply tokenizeWkt_assemble (dumpMultipoint pts d) "MULTIPOINT ("
    (joinSep ", " (pts.map fun pt => "(" ++ dumpPt pt d ++ ")")) "MULTIPOINT"
    (rawMpToks d pts) (stMpToks d pts)
  · rw [dumpMultipoint, if_neg h]
  · decide
  · have := lex_dumpMpBody d pts ')' (Or.inl rfl) [] 1
    simpa [opDep, lexAux_nil] using this
  · decide
  · decide
  · rw [stitch_rawMp d pts [")"], show stitch false [")"] = [")"] by decide]

theorem tok_dumpMultilinestring (d : ℕ) (rs : List (List (List ℚ)))
    (h : rs ≠ []) :
    tokenizeWkt (dumpMultilinestring rs d)
      = ("MULTILINESTRING" :: "(" :: stRingsToks d rs ++ [")"], false) := by
  apply tokenizeWkt_assemble (dumpMultilinestring rs d) "MULTILINESTRING ("
    (dumpRings rs d) "MULTILINESTRING" (rawRingsToks d rs) (stRingsToks d rs)
  · rw [dumpMultilinestring, if_neg h]
  · decide
  · have := lex_dumpRings d rs ')' (Or.inl rfl) [] 1
    simpa [opDep, lexAux_nil] using this
  · decide
  · decide
  · rw [stitch_rawRings d rs [")"], show stitch false [")"] = [")"] by decide]

theorem tok_dumpMultipolygon (d : ℕ) (ps : List (List (List (List ℚ))))
    (h : ps ≠ []) :
    tokenizeWkt (dumpMultipolygon ps d)
      = ("MULTIPOLYGON" :: "(" :: stPolysToks d ps ++ [")"], false) := by
  apply tokenizeWkt_assemble (dumpMultipolygon ps d) "MULTIPOLYGON ("
    (joinSep ", " (ps.map fun poly => "(" ++ dumpRings poly d ++ ")"))
    "MULTIPOLYGON" (rawPolysToks d ps) (stPolysToks d ps)
  · rw [dumpMultipolygon, if_neg h]
  · decide
  · have := lex_dumpPolys d ps ')' (Or.inl rfl) [] 1
    simpa [opDep, lexAux_nil] using this
  · decide
  · decide
  · rw [stitch_rawPolys d ps [")"], show stitch false [")"] = [")"] by decide]

/-! ## Parsing stitched serializer bodies -/

theorem intercalate_comma_flatten (x : List String)
    (xs : List (List String)) :
    List.intercalate [","] (x :: xs)
      = x ++ (xs.map fun y => "," :: y).flatten := by
  induction xs generalizing x with
  | nil => simp [List.intercalate]
  | cons y ys ih =>
    rw [intercalate_comma_cc, ih y]
    simp

theorem pointLoop_run (s : String) (d : ℕ) (pt : List ℚ)
    (hpt : ∀ q ∈ pt, decimalAtB d q = true) :
    ∀ (R : List String) (err : Bool) (acc : List ℚ),
    pointLoop s (stPtToks d pt ++ ")" :: R) err acc
      = .ok (.point (acc ++ pt), ⟨R, err⟩) := by
  induction pt with
  | nil =>
    intro R err acc
    simp [stPtToks, pointLoop]
  | cons q qs ih =>
    intro R err acc
    have hq := hpt q (by simp)
    obtain ⟨-, hcl, -, -, -, -⟩ := numShape_ne _ (numShape_roundAndPad q d)
    rw [show stPtToks d (q :: qs) = roundAndPad q d :: stPtToks d qs from rfl,
      List.cons_append]
    simp only [pointLoop]
    rw [if_neg hcl, strToRat_roundAndPad q d hq]
    simp [ih (fun x hx => hpt x (by simp [hx]))]

theorem loadPoint_run (s : String) (d : ℕ) (pt : List ℚ)
    (hpt : ∀ q ∈ pt, decimalAtB d q = true) (R : List String) (err : Bool) :
    loadPoint ⟨"(" :: (stPtToks d pt ++ ")" :: R), err⟩ s
      = .ok (.point pt, ⟨R, err⟩) := by
  simp only [loadPoint, TokStream.next]
  rw [if_neg (by decide : ¬("(" : String) = "EMPTY"),
    if_neg (by simp : ¬("(" : String) ≠ "(")]
  rw [pointLoop_run s d pt hpt R err []]
  simp

theorem lineLoop_tuple (s : String) (d : ℕ) (pt : List ℚ)
    (hpt : ∀ q ∈ pt, decimalAtB d q = true) :
    ∀ (ts : List String) (err : Bool) (pt0 : List ℚ)
      (acc : List (List ℚ)),
    lineLoop s (stPtToks d pt ++ ts) err pt0 acc
      = lineLoop s ts err (pt0 ++ pt) acc := by
  induction pt with
  | nil => intro ts err pt0 acc; simp [stPtToks]
  | cons q qs ih =>
    intro ts err pt0 acc
    have hq := hpt q (by simp)
    obtain ⟨-, hcl, hcm, -, -, -⟩ := numShape_ne _ (numShape_roundAndPad q d)
    rw [show stPtToks d (q :: qs) = roundAndPad q d :: stPtToks d qs from rfl,
      List.cons_append]
    simp only [lineLoop]
    rw [if_neg hcl, if_neg hcm, strToRat_roundAndPad q d hq]
    simp [ih (fun x hx => hpt x (by simp [hx]))]

theorem lineLoop_run (s : String) (d : ℕ) (pt : List ℚ)
    (pts : List (List ℚ))
    (hpts : ∀ x ∈ pt :: pts, ∀ q ∈ x, decimalAtB d q = true) :
    ∀ (R : List String) (err : Bool) (acc : List (List ℚ)),
    lineLoop s (stPtsToks d (pt :: pts) ++ ")" :: R) err [] acc
      = .ok (.lineString (acc ++ pt :: pts), ⟨R, err⟩) := by
  induction pts generalizing pt with
  | nil =>
    intro R err acc
    rw [show stPtsToks d [pt] = stPtToks d pt from by
        simp [stPtsToks, List.intercalate],
      lineLoop_tuple s d pt (hpts pt (by simp))]
    simp [lineLoop]
  | cons pt2 pts2 ih =>
    intro R err acc
    have h1 : stPtsToks d (pt :: pt2 :: pts2)
        = stPtToks d pt ++ "," :: stPtsToks d (pt2 :: pts2) := by
      simp only [stPtsToks, List.map_cons]
      exact intercalate_comma_cc _ _ _
    rw [h1, show (stPtToks d pt ++ "," :: stPtsToks d (pt2 :: pts2)) ++ ")" :: R
        = stPtToks d pt ++ ("," :: (stPtsToks d (pt2 :: pts2) ++ ")" :: R))
        from by simp,
      lineLoop_tuple s d pt (hpts pt (by simp))]
    simp only [lineLoop, reduceIte, List.nil_append]
    rw [ih pt2 (fun x hx => hpts x (by simp [hx])) R err (acc ++ [pt])]
    simp

theorem loadLinestring_run (s : String) (d : ℕ) (pt : List ℚ)
    (pts : List (List ℚ))
    (hpts : ∀ x ∈ pt :: pts, ∀ q ∈ x, decimalAtB d q = true)
    (R : List String) (err : Bool) :
    loadLinestring ⟨"(" :: (stPtsToks d (pt :: pts) ++ ")" :: R), err⟩ s
      = .ok (.lineString (pt :: pts), ⟨R, err⟩) := by
  simp only [loadLinestring, TokStream.next]
  rw [if_neg (by decide : ¬("(" : String) = "EMPTY"),
    if_neg (by simp : ¬("(" : String) ≠ "(")]
  rw [lineLoop_run s d pt pts hpts R err []]
  simp

theorem polyLoop_tuple (s : String) (d : ℕ) (pt : List ℚ)
    (hpt : ∀ q ∈ pt, decimalAtB d q = true) :
    ∀ (ts : List String) (err : Bool) (coords : List (List (List ℚ)))
      (ring : List (List ℚ)) (pt0 : List ℚ),
    polyLoop s (stPtToks d pt ++ ts) err coords ring pt0 true
      = polyLoop s ts err coords ring (pt0 ++ pt) true := by
  induction pt with
  | nil => intro ts err coords ring pt0; simp [stPtToks]
  | cons q qs ih =>
    intro ts err coords ring pt0
    have hq := hpt q (by simp)
    obtain ⟨hop, hcl, hcm, -, -, -⟩ := numShape_ne _ (numShape_roundAndPad q d)
    rw [show stPtToks d (q :: qs) = roundAndPad q d :: stPtToks d qs from rfl,
      List.cons_append]
    simp only [polyLoop]
    rw [if_neg hcl, if_neg hop, if_neg hcm, strToRat_roundAndPad q d hq]
    simp [ih (fun x hx => hpt x (by simp [hx]))]

theorem polyLoop_ring (s : String) (d : ℕ) (pt : List ℚ)
    (pts : List (List ℚ))
    (hpts : ∀ x ∈ pt :: pts, ∀ q ∈ x, decimalAtB d q = true) :
    ∀ (ts : List String) (err : Bool) (coords : List (List (List ℚ)))
      (ring0 : List (List ℚ)),
    ∃ ptF,
    polyLoop s (stPtsToks d (pt :: pts) ++ ")" :: ts) err coords ring0 [] true
      = polyLoop s ts err (coords ++ [ring0 ++ pt :: pts])
          (ring0 ++ pt :: pts) ptF false := by
  induction pts generalizing pt with
  | nil =>
    intro ts err coords ring0
    refine ⟨pt, ?_⟩
    rw [show stPtsToks d [pt] = stPtToks d pt from by
        simp [stPtsToks, List.intercalate],
      polyLoop_tuple s d pt (hpts pt (by simp))]
    simp only [polyLoop, reduceIte, List.nil_append]
  | cons pt2 pts2 ih =>
    intro ts err coords ring0
    obtain ⟨ptF, hF⟩ := ih pt2 (fun x hx => hpts x (by simp [hx])) ts err
      coords (ring0 ++ [pt])
    refine ⟨ptF, ?_⟩
    have h1 : stPtsToks d (pt :: pt2 :: pts2)
        = stPtToks d pt ++ "," :: stPtsToks d (pt2 :: pts2) := by
      simp only [stPtsToks, List.map_cons]
      exact intercalate_comma_cc _ _ _
    rw [h1, show (stPtToks d pt ++ "," :: stPtsToks d (pt2 :: pts2)) ++ ")" :: ts
        = stPtToks d pt
            ++ ("," :: (stPtsToks d (pt2 :: pts2) ++ ")" :: ts))
        from by simp,
      polyLoop_tuple s d pt (hpts pt (by simp))]
    simp only [polyLoop, reduceIte, List.nil_append]
    rw [hF]
    simp

theorem polyLoop_rings (s : String) (d : ℕ) (r : List (List ℚ))
    (rs : List (List (List ℚ)))
    (hne : ∀ x ∈ r :: rs, x ≠ [])
    (hsafe : ∀ x ∈ r :: rs, ∀ p ∈ x, ∀ q ∈ p, decimalAtB d q = true) :
    ∀ (R : List String) (err : Bool) (coords : List (List (List ℚ)))
      (ring0 : List (List ℚ)),
    polyLoop s
        (stPtsToks d r ++ ")" ::
          ((rs.map fun ri => "," :: "(" :: (stPtsToks d ri ++ [")"])).flatten
            ++ ")" :: R)) err coords ring0 [] true
      = .ok (.polygon (coords ++ (ring0 ++ r) :: rs), ⟨R, err⟩) := by
  induction rs generalizing r with
  | nil =>
    intro R err coords ring0
    obtain ⟨p, ps, rfl⟩ := List.exists_cons_of_ne_nil (hne r (by simp))
    obtain ⟨ptF, hF⟩ := polyLoop_ring s d p ps
      (hsafe (p :: ps) (by simp)) (")" :: R) err coords ring0
    rw [show ((([] : List (List (List ℚ))).map
          fun ri => "," :: "(" :: (stPtsToks d ri ++ [")"])).flatten
          ++ ")" :: R) = ")" :: R from by simp]
    rw [hF]
    simp only [polyLoop, reduceIte]
    simp
  | cons r2 rs2 ih =>
    intro R err coords ring0
    obtain ⟨p, ps, rfl⟩ := List.exists_cons_of_ne_nil (hne r (by simp))
    have hflat : (((r2 :: rs2).map
          fun ri => "," :: "(" :: (stPtsToks d ri ++ [")"])).flatten
          ++ ")" :: R)
        = "," :: "(" ::
            (stPtsToks d r2 ++ ")" ::
              ((rs2.map fun ri => "," :: "(" :: (stPtsToks d ri ++ [")"])).flatten
                ++ ")" :: R)) := by
      simp
    rw [hflat]
    obtain ⟨ptF, hF⟩ := polyLoop_ring s d p ps
      (hsafe (p :: ps) (by simp))
      ("," :: "(" ::
        (stPtsToks d r2 ++ ")" ::
          ((rs2.map fun ri => "," :: "(" :: (stPtsToks d ri ++ [")"])).flatten
            ++ ")" :: R))) err coords ring0
    rw [hF]
    simp only [polyLoop, reduceIte]
    rw [ih r2 (fun x hx => hne x (by simp [hx]))
      (fun x hx => hsafe x (by simp [hx])) R err
      (coords ++ [ring0 ++ p :: ps]) []]
    simp

theorem loadPolygon_run (s : String) (d : ℕ) (rs : List (List (List ℚ)))
    (hrs : rs ≠ []) (hne : ∀ x ∈ rs, x ≠ [])
    (hsafe : ∀ x ∈ rs, ∀ p ∈ x, ∀ q ∈ p, decimalAtB d q = true)
    (R : List String) (err : Bool) :
    loadPolygon ⟨"(" :: (stRingsToks d rs ++ ")" :: R), err⟩ s
      = .ok (.polygon rs, ⟨R, err⟩) := by
  obtain ⟨r, rs2, rfl⟩ := List.exists_cons_of_ne_nil hrs
  have hshape : stRingsToks d (r :: rs2) ++ ")" :: R
      = "(" :: (stPtsToks d r ++ ")" ::
          ((rs2.map fun ri => "," :: "(" :: (stPtsToks d ri ++ [")"])).flatten
            ++ ")" :: R)) := by
    rw [show stRingsToks d (r :: rs2)
        = List.intercalate [","]
            (((r :: rs2).map fun x => "(" :: stPtsToks d x ++ [")"]))
        from rfl]
    simp only [List.map_cons]
    rw [intercalate_comma_flatten]
    simp [List.map_map, Function.comp_def]
  rw [hshape]
  simp only [loadPolygon, TokStream.next, reduceIte]
  rw [polyLoop_rings s d r rs2 hne hsafe R err [] []]
  simp

theorem mpLoop_open (s : String) (ts : List String) (err : Bool) (dp : ℤ)
    (pt : List ℚ) (acc : List (List ℚ)) :
    mpLoop s ("(" :: ts) err dp pt acc = mpLoop s ts err (dp + 1) pt acc := by
  simp [mpLoop]

theorem mpLoop_close_exit (s : String) (ts : List String) (err : Bool)
    (dp : ℤ) (h : dp - 1 = 0) (pt : List ℚ) (acc : List (List ℚ)) :
    mpLoop s (")" :: ts) err dp pt acc
      = .ok (.multiPoint (if 0 < pt.length then acc ++ [pt] else acc),
          ⟨ts, err⟩) := by
  simp [mpLoop, h]

theorem mpLoop_close_cont (s : String) (ts : List String) (err : Bool)
    (dp : ℤ) (h : ¬dp - 1 = 0) (pt : List ℚ) (acc : List (List ℚ)) :
    mpLoop s (")" :: ts) err dp pt acc = mpLoop s ts err (dp - 1) pt acc := by
  simp [mpLoop, h]

theorem mpLoop_comma (s : String) (ts : List String) (err : Bool) (dp : ℤ)
    (pt : List ℚ) (acc : List (List ℚ)) :
    mpLoop s ("," :: ts) err dp pt acc
      = mpLoop s ts err dp [] (acc ++ [pt]) := by
  simp [mpLoop]

theorem mpLoop_tuple (s : String) (d : ℕ) (pt : List ℚ)
    (hpt : ∀ q ∈ pt, decimalAtB d q = true) :
    ∀ (ts : List String) (err : Bool) (dp : ℤ) (pt0 : List ℚ)
      (acc : List (List ℚ)),
    mpLoop s (stPtToks d pt ++ ts) err dp pt0 acc
      = mpLoop s ts err dp (pt0 ++ pt) acc := by
  induction pt with
  | nil => intro ts err dp pt0 acc; simp [stPtToks]
  | cons q qs ih =>
    intro ts err dp pt0 acc
    have hq := hpt q (by simp)
    obtain ⟨hop, hcl, hcm, -, -, -⟩ := numShape_ne _ (numShape_roundAndPad q d)
    rw [show stPtToks d (q :: qs) = roundAndPad q d :: stPtToks d qs from rfl,
      List.cons_append]
    simp only [mpLoop]
    rw [if_neg hop, if_neg hcl, if_neg hcm, strToRat_roundAndPad q d hq]
    simp [ih (fun x hx => hpt x (by simp [hx]))]

theorem mpLoop_paren_run (s : String) (d : ℕ) (pt : List ℚ)
    (pts : List (List ℚ))
    (hne : ∀ x ∈ pt :: pts, x ≠ [])
    (hsafe : ∀ x ∈ pt :: pts, ∀ q ∈ x, decimalAtB d q = true) :
    ∀ (R : List String) (err : Bool) (acc : List (List ℚ)),
    mpLoop s
        ("(" :: (stPtToks d pt ++ ")" ::
          ((pts.map fun p => "," :: "(" :: (stPtToks d p ++ [")"])).flatten
            ++ ")" :: R))) err 1 [] acc
      = .ok (.multiPoint (acc ++ pt :: pts), ⟨R, err⟩) := by
  induction pts generalizing pt with
  | nil =>
    intro R err acc
    have hlen : 0 < pt.length :=
      List.length_pos.mpr (hne pt (by simp))
    rw [mpLoop_open, mpLoop_tuple s d pt (hsafe pt (by simp))]
    rw [show ((([] : List (List ℚ)).map
          fun p => "," :: "(" :: (stPtToks d p ++ [")"])).flatten
          ++ ")" :: R) = ")" :: R from by simp]
    rw [mpLoop_close_cont s _ err (1 + 1) (by norm_num)]
    rw [mpLoop_close_exit s _ err (1 + 1 - 1) (by norm_num)]
    simp [hlen]
  | cons p2 ps2 ih =>
    intro R err acc
    have hflat : (((p2 :: ps2).map
          fun p => "," :: "(" :: (stPtToks d p ++ [")"])).flatten
          ++ ")" :: R)
        = "," :: "(" ::
            (stPtToks d p2 ++ ")" ::
              ((ps2.map fun p => "," :: "(" :: (stPtToks d p ++ [")"])).flatten
                ++ ")" :: R)) := by
      simp
    rw [hflat, mpLoop_open, mpLoop_tuple s d pt (hsafe pt (by simp))]
    rw [mpLoop_close_cont s _ err (1 + 1) (by norm_num)]
    rw [mpLoop_comma]
    rw [show (1 : ℤ) + 1 - 1 = 1 from by norm_num]
    rw [ih p2 (fun x hx => hne x (by simp [hx]))
      (fun x hx => hsafe x (by simp [hx])) R err (acc ++ [[] ++ pt])]
    simp

theorem mpLoop_bare_run (s : String) (d : ℕ) (pt : List ℚ)
    (pts : List (List ℚ))
    (hne : ∀ x ∈ pt :: pts, x ≠ [])
    (hsafe : ∀ x ∈ pt :: pts, ∀ q ∈ x, decimalAtB d q = true) :
    ∀ (R : List String) (err : Bool) (acc : List (List ℚ)),
    mpLoop s (stPtsToks d (pt :: pts) ++ ")" :: R) err 1 [] acc
      = .ok (.multiPoint (acc ++ pt :: pts), ⟨R, err⟩) := by
  induction pts generalizing pt with
  | nil =>
    intro R err acc
    have hlen : 0 < pt.length :=
      List.length_pos.mpr (hne pt (by simp))
    rw [show stPtsToks d [pt] = stPtToks d pt from by
        simp [stPtsToks, List.intercalate],
      mpLoop_tuple s d pt (hsafe pt (by simp))]
    rw [mpLoop_close_exit s _ err 1 (by norm_num)]
    simp [hlen]
  | cons p2 ps2 ih =>
    intro R err acc
    have h1 : stPtsToks d (pt :: p2 :: ps2)
        = stPtToks d pt ++ "," :: stPtsToks d (p2 :: ps2) := by
      simp only [stPtsToks, List.map_cons]
      exact intercalate_comma_cc _ _ _
    rw [h1, show (stPtToks d pt ++ "," :: stPtsToks d (p2 :: ps2)) ++ ")" :: R
        = stPtToks d pt ++ ("," :: (stPtsToks d (p2 :: ps2) ++ ")" :: R))
        from by simp,
      mpLoop_tuple s d pt (hsafe pt (by simp)), mpLoop_comma]
    rw [ih p2 (fun x hx => hne x (by simp [hx]))
      (fun x hx => hsafe x (by simp [hx])) R err (acc ++ [[] ++ pt])]
    simp

theorem loadMultipoint_paren_run (s : String) (d : ℕ) (pt : List ℚ)
    (pts : List (List ℚ))
    (hne : ∀ x ∈ pt :: pts, x ≠ [])
    (hsafe : ∀ x ∈ pt :: pts, ∀ q ∈ x, decimalAtB d q = true)
    (R : List String) (err : Bool) :
    loadMultipoint ⟨"(" :: (stMpToks d (pt :: pts) ++ ")" :: R), err⟩ s
      = .ok (.multiPoint (pt :: pts), ⟨R, err⟩) := by
  have hshape : stMpToks d (pt :: pts) ++ ")" :: R
      = "(" :: (stPtToks d pt ++ ")" ::
          ((pts.map fun p => "," :: "(" :: (stPtToks d p ++ [")"])).flatten
            ++ ")" :: R)) := by
    rw [show stMpToks d (pt :: pts)
        = List.intercalate [","]
            (((pt :: pts).map fun x => "(" :: stPtToks d x ++ [")"]))
        from rfl]
    simp only [List.map_cons]
    rw [intercalate_comma_flatten]
    simp [List.map_map, Function.comp_def]
  rw [hshape]
  simp only [loadMultipoint, TokStream.next, reduceIte]
  rw [mpLoop_paren_run s d pt pts hne hsafe R err []]
  simp

theorem loadMultipoint_bare_run (s : String) (d : ℕ) (pt : List ℚ)
    (pts : List (List ℚ))
    (hne : ∀ x ∈ pt :: pts, x ≠ [])
    (hsafe : ∀ x ∈ pt :: pts, ∀ q ∈ x, decimalAtB d q = true)
    (R : List String) (err : Bool) :
    loadMultipoint ⟨"(" :: (stPtsToks d (pt :: pts) ++ ")" :: R), err⟩ s
      = .ok (.multiPoint (pt :: pts), ⟨R, err⟩) := by
  simp only [loadMultipoint, TokStream.next, reduceIte]
  rw [mpLoop_bare_run s d pt pts hne hsafe R err []]
  simp

theorem mlsLoop_step (s : String) (st : TokStream)
    (acc : List (List (List ℚ))) (g : GeomData) (t : String)
    (st1 st2 : TokStream)
    (hl : loadLinestring st s = .ok (g, st1))
    (hn : st1.next = .ok (t, st2)) :
    mlsLoop s st acc
      = if t = ")" then .ok (.multiLineString (acc ++ [lsCoords g]), st2)
        else mlsLoop s st2 (acc ++ [lsCoords g]) := by
  conv_lhs => rw [mlsLoop]
  split
  · rename_i heq; rw [hl] at heq; exact absurd heq (by simp)
  · rename_i heq; rw [hl] at heq; exact absurd heq (by simp)
  · rename_i e h1 h2 heq; rw [hl] at heq; exact absurd heq (by simp)
  · rename_i g' st1' heq
    rw [hl] at heq
    injection heq with heq2
    injection heq2 with hg hst
    subst hg
    subst hst
    split
    · rename_i heq; rw [hn] at heq; exact absurd heq (by simp)
    · rename_i heq; rw [hn] at heq; exact absurd heq (by simp)
    · rename_i e h1 h2 heq; rw [hn] at heq; exact absurd heq (by simp)
    · rename_i t' st2' heq
      rw [hn] at heq
      injection heq with heq2
      injection heq2 with ht hst2
      subst ht
      subst hst2
      rfl

theorem mlsLoop_run (s : String) (d : ℕ) (r : List (List ℚ))
    (rs : List (List (List ℚ)))
    (hne : ∀ x ∈ r :: rs, x ≠ [])
    (hsafe : ∀ x ∈ r :: rs, ∀ p ∈ x, ∀ q ∈ p, decimalAtB d q = true) :
    ∀ (R : List String) (err : Bool) (acc : List (List (List ℚ))),
    mlsLoop s ⟨"(" :: (stPtsToks d r ++ ")" ::
        ((rs.map fun ri => "," :: "(" :: (stPtsToks d ri ++ [")"])).flatten
          ++ ")" :: R)), err⟩ acc
      = .ok (.multiLineString (acc ++ r :: rs), ⟨R, err⟩) := by
  induction rs generalizing r with
  | nil =>
    intro R err acc
    obtain ⟨p, ps, rfl⟩ := List.exists_cons_of_ne_nil (hne r (by simp))
    rw [show ((([] : List (List (List ℚ))).map
          fun ri => "," :: "(" :: (stPtsToks d ri ++ [")"])).flatten
          ++ ")" :: R) = ")" :: R from by simp]
    rw [mlsLoop_step s _ acc (.lineString (p :: ps)) ")" ⟨")" :: R, err⟩
      ⟨R, err⟩ (loadLinestring_run s d p ps (hsafe _ (by simp)) (")" :: R) err)
      (by simp [TokStream.next])]
    simp [lsCoords]
  | cons r2 rs2 ih =>
    intro R err acc
    obtain ⟨p, ps, rfl⟩ := List.exists_cons_of_ne_nil (hne r (by simp))
    have hflat : (((r2 :: rs2).map
          fun ri => "," :: "(" :: (stPtsToks d ri ++ [")"])).flatten
          ++ ")" :: R)
        = "," :: "(" ::
            (stPtsToks d r2 ++ ")" ::
              ((rs2.map fun ri => "," :: "(" :: (stPtsToks d ri ++ [")"])).flatten
                ++ ")" :: R)) := by
      simp
    rw [hflat]
    rw [mlsLoop_step s _ acc (.lineString (p :: ps)) ","
      ⟨"," :: "(" ::
        (stPtsToks d r2 ++ ")" ::
          ((rs2.map fun ri => "," :: "(" :: (stPtsToks d ri ++ [")"])).flatten
            ++ ")" :: R)), err⟩
      ⟨"(" ::
        (stPtsToks d r2 ++ ")" ::
          ((rs2.map fun ri => "," :: "(" :: (stPtsToks d ri ++ [")"])).flatten
            ++ ")" :: R)), err⟩
      (loadLinestring_run s d p ps (hsafe _ (by simp)) _ err)
      (by simp [TokStream.next])]
    rw [if_neg (by decide : ¬("," : String) = ")")]
    rw [ih r2 (fun x hx => hne x (by simp [hx]))
      (fun x hx => hsafe x (by simp [hx])) R err (acc ++ [lsCoords (.lineString (p :: ps))])]
    simp [lsCoords]

theorem loadMultilinestring_run (s : String) (d : ℕ)
    (rs : List (List (List ℚ))) (hrs : rs ≠ [])
    (hne : ∀ x ∈ rs, x ≠ [])
    (hsafe : ∀ x ∈ rs, ∀ p ∈ x, ∀ q ∈ p, decimalAtB d q = true)
    (R : List String) (err : Bool) :
    loadMultilinestring ⟨"(" :: (stRingsToks d rs ++ ")" :: R), err⟩ s
      = .ok (.multiLineString rs, ⟨R, err⟩) := by
  obtain ⟨r, rs2, rfl⟩ := List.exists_cons_of_ne_nil hrs
  have hshape : stRingsToks d (r :: rs2) ++ ")" :: R
      = "(" :: (stPtsToks d r ++ ")" ::
          ((rs2.map fun ri => "," :: "(" :: (stPtsToks d ri ++ [")"])).flatten
            ++ ")" :: R)) := by
    rw [show stRingsToks d (r :: rs2)
        = List.intercalate [","]
            (((r :: rs2).map fun x => "(" :: stPtsToks d x ++ [")"]))
        from rfl]
    simp only [List.map_cons]
    rw [intercalate_comma_flatten]
    simp [List.map_map, Function.comp_def]
  rw [hshape]
  simp only [loadMultilinestring, TokStream.next, reduceIte]
  rw [mlsLoop_run s d r rs2 hne hsafe R err []]
  simp

theorem mpolyLoop_step (s : String) (st : TokStream)
    (acc : List (List (List (List ℚ)))) (g : GeomData) (t : String)
    (st1 st2 : TokStream)
    (hl : loadPolygon st s = .ok (g, st1))
    (hn : st1.next = .ok (t, st2)) :
    mpolyLoop s st acc
      = if t = ")" then .ok (.multiPolygon (acc ++ [polyCoords g]), st2)
        else mpolyLoop s st2 (acc ++ [polyCoords g]) := by
  conv_lhs => rw [mpolyLoop]
  split
  · rename_i heq; rw [hl] at heq; exact absurd heq (by simp)
  · rename_i heq; rw [hl] at heq; exact absurd heq (by simp)
  · rename_i e h1 h2 heq; rw [hl] at heq; exact absurd heq (by simp)
  · rename_i g' st1' heq
    rw [hl] at heq
    injection heq with heq2
    injection heq2 with hg hst
    subst hg
    subst hst
    split
    · rename_i heq; rw [hn] at heq; exact absurd heq (by simp)
    · rename_i heq; rw [hn] at heq; exact absurd heq (by simp)
    · rename_i e h1 h2 heq; rw [hn] at heq; exact absurd heq (by simp)
    · rename_i t' st2' heq
      rw [hn] at heq
      injection heq with heq2
      injection heq2 with ht hst2
      subst ht
      subst hst2
      rfl

theorem mpolyLoop_run (s : String) (d : ℕ) (p : List (List (List ℚ)))
    (ps : List (List (List (List ℚ))))
    (hpne : ∀ x ∈ p :: ps, x ≠ [])
    (hne : ∀ x ∈ p :: ps, ∀ y ∈ x, y ≠ [])
    (hsafe : ∀ x ∈ p :: ps, ∀ y ∈ x, ∀ z ∈ y, ∀ q ∈ z, decimalAtB d q = true) :
    ∀ (R : List String) (err : Bool) (acc : List (List (List (List ℚ)))),
    mpolyLoop s ⟨"(" :: (stRingsToks d p ++ ")" ::
        ((ps.map fun pi => "," :: "(" :: (stRingsToks d pi ++ [")"])).flatten
          ++ ")" :: R)), err⟩ acc
      = .ok (.multiPolygon (acc ++ p :: ps), ⟨R, err⟩) := by
  induction ps generalizing p with
  | nil =>
    intro R err acc
    rw [show ((([] : List (List (List (List ℚ)))).map
          fun pi => "," :: "(" :: (stRingsToks d pi ++ [")"])).flatten
          ++ ")" :: R) = ")" :: R from by simp]
    rw [mpolyLoop_step s _ acc (.polygon p) ")" ⟨")" :: R, err⟩
      ⟨R, err⟩ (loadPolygon_run s d p (hpne p (by simp)) (hne p (by simp))
        (hsafe p (by simp)) (")" :: R) err)
      (by simp [TokStream.next])]
    simp [polyCoords]
  | cons p2 ps2 ih =>
    intro R err acc
    have hflat : (((p2 :: ps2).map
          fun pi => "," :: "(" :: (stRingsToks d pi ++ [")"])).flatten
          ++ ")" :: R)
        = "," :: "(" ::
            (stRingsToks d p2 ++ ")" ::
              ((ps2.map fun pi => "," :: "(" :: (stRingsToks d pi ++ [")"])).flatten
                ++ ")" :: R)) := by
      simp
    rw [hflat]
    rw [mpolyLoop_step s _ acc (.polygon p) ","
      ⟨"," :: "(" ::
        (stRingsToks d p2 ++ ")" ::
          ((ps2.map fun pi => "," :: "(" :: (stRingsToks d pi ++ [")"])).flatten
            ++ ")" :: R)), err⟩
      ⟨"(" ::
        (stRingsToks d p2 ++ ")" ::
          ((ps2.map fun pi => "," :: "(" :: (stRingsToks d pi ++ [")"])).flatten
            ++ ")" :: R)), err⟩
      (loadPolygon_run s d p (hpne p (by simp)) (hne p (by simp))
        (hsafe p (by simp)) _ err)
      (by simp [TokStream.next])]
    rw [if_neg (by decide : ¬("," : String) = ")")]
    rw [ih p2 (fun x hx => hpne x (by simp [hx]))
      (fun x hx => hne x (by simp [hx]))
      (fun x hx => hsafe x (by simp [hx])) R err
      (acc ++ [polyCoords (.polygon p)])]
    simp [polyCoords]

theorem loadMultipolygon_run (s : String) (d : ℕ)
    (ps : List (List (List (List ℚ)))) (hps : ps ≠ [])
    (hpne : ∀ x ∈ ps, x ≠ [])
    (hne : ∀ x ∈ ps, ∀ y ∈ x, y ≠ [])
    (hsafe : ∀ x ∈ ps, ∀ y ∈ x, ∀ z ∈ y, ∀ q ∈ z, decimalAtB d q = true)
    (R : List String) (err : Bool) :
    loadMultipolygon ⟨"(" :: (stPolysToks d ps ++ ")" :: R), err⟩ s
      = .ok (.multiPolygon ps, ⟨R, err⟩) := by
  obtain ⟨p, ps2, rfl⟩ := List.exists_cons_of_ne_nil hps
  have hshape : stPolysToks d (p :: ps2) ++ ")" :: R
      = "(" :: (stRingsToks d p ++ ")" ::
          ((ps2.map fun pi => "," :: "(" :: (stRingsToks d pi ++ [")"])).flatten
            ++ ")" :: R)) := by
    rw [show stPolysToks d (p :: ps2)
        = List.intercalate [","]
            (((p :: ps2).map fun x => "(" :: stRingsToks d x ++ [")"]))
        from rfl]
    simp only [List.map_cons]
    rw [intercalate_comma_flatten]
    simp [List.map_map, Function.comp_def]
  rw [hshape]
  simp only [loadMultipolygon, TokStream.next, reduceIte]
  rw [mpolyLoop_run s d p ps2 hpne hne hsafe R err []]
  simp

/-! ## Running `loads` on serializer output -/

theorem loadsT_run (s : String) (ty : String) (body : List String)
    (imp : TokStream → String → Except PyErr (GeomData × TokStream))
    (hty : ty ≠ "SRID") (hreg : loadsRegistry ty = some imp)
    (hpeek : body ≠ []) (hpk : body.head? = some "(")
    (g : GeomData) (stF : TokStream)
    (himp : imp ⟨body, false⟩ s = .ok (g, stF)) :
    loadsT ⟨ty :: body, false⟩ s = .ok ⟨g, none, none⟩ := by
  obtain ⟨b0, bs, rfl⟩ := List.exists_cons_of_ne_nil hpeek
  simp only [List.head?] at hpk
  injection hpk with hpk
  subst hpk
  simp only [loadsT, TokStream.next]
  rw [if_neg hty]
  simp only [hreg]
  rw [if_neg (by decide : ¬("(" : String) = "EMPTY"), himp]

theorem tupleSafe_spec (d : ℕ) (pt : List ℚ) (h : tupleSafe d pt = true) :
    pt ≠ [] ∧ ∀ q ∈ pt, decimalAtB d q = true := by
  simp only [tupleSafe, Bool.and_eq_true, List.all_eq_true,
    Bool.not_eq_true'] at h
  refine ⟨?_, h.2⟩
  intro hc
  rw [hc] at h
  simp at h

theorem dumps_noMeta (g : GeomData) (d : ℕ) (h : dumpsBody g) :
    dumps ⟨g, none, none⟩ d = .ok (dumpGeom g d) := by
  have htail : dumpsTail ⟨g, none, none⟩ d = .ok (dumpGeom g d) := by
    simp [dumpsTail]
  cases g with
  | geometryCollection gs =>
    simp only [dumps]
    rw [if_neg (by simpa [List.isEmpty_iff] using h)]
    exact htail
  | point c =>
    simp only [dumps]
    rw [if_neg h]
    exact htail
  | lineString c =>
    simp only [dumps]
    rw [if_neg h]
    exact htail
  | polygon c =>
    simp only [dumps]
    rw [if_neg h]
    exact htail
  | multiPoint c =>
    simp only [dumps]
    rw [if_neg h]
    exact htail
  | multiLineString c =>
    simp only [dumps]
    rw [if_neg h]
    exact htail
  | multiPolygon c =>
    simp only [dumps]
    rw [if_neg h]
    exact htail

theorem loads_dumpGeom (d : ℕ) (g : GeomData)
    (h : roundTripSafe d g = true) :
    loads (dumpGeom g d) = .ok ⟨g, none, none⟩ := by
  cases g with
  | point pt =>
    obtain ⟨hne, hsafe⟩ := tupleSafe_spec d pt h
    have htok := tok_dumpPoint d pt hne
    show loads (dumpPoint pt d) = _
    simp only [loads, htok]
    exact loadsT_run _ "POINT" _ loadPoint (by decide)
      (by simp [loadsRegistry]) (by simp) (by simp)
      (.point pt) ⟨[], false⟩ (loadPoint_run _ d pt hsafe [] false)
  | lineString pts =>
    simp only [roundTripSafe, Bool.and_eq_true, List.all_eq_true,
      Bool.not_eq_true'] at h
    have hne : pts ≠ [] := by
      intro hc; rw [hc] at h; simp at h
    obtain ⟨p, ps, rfl⟩ := List.exists_cons_of_ne_nil hne
    have hsafe : ∀ x ∈ p :: ps, ∀ q ∈ x, decimalAtB d q = true :=
      fun x hx => (tupleSafe_spec d x (h.2 x hx)).2
    have htok := tok_dumpLinestring d (p :: ps) hne
    show loads (dumpLinestring (p :: ps) d) = _
    simp only [loads, htok]
    exact loadsT_run _ "LINESTRING" _ loadLinestring (by decide)
      (by simp [loadsRegistry]) (by simp) (by simp)
      (.lineString (p :: ps)) ⟨[], false⟩
      (loadLinestring_run _ d p ps hsafe [] false)
  | polygon rs =>
    simp only [roundTripSafe, Bool.and_eq_true, List.all_eq_true,
      Bool.not_eq_true'] at h
    have hne : rs ≠ [] := by
      intro hc; rw [hc] at h; simp at h
    have hrne : ∀ x ∈ rs, x ≠ [] := by
      intro x hx hc
      have := (h.2 x hx).1
      rw [hc] at this
      simp at this
    have hsafe : ∀ x ∈ rs, ∀ p ∈ x, ∀ q ∈ p, decimalAtB d q = true :=
      fun x hx p hp => (tupleSafe_spec d p ((h.2 x hx).2 p hp)).2
    have htok := tok_dumpPolygon d rs hne
    show loads (dumpPolygon rs d) = _
    simp only [loads, htok]
    exact loadsT_run _ "POLYGON" _ loadPolygon (by decide)
      (by simp [loadsRegistry]) (by simp) (by simp)
      (.polygon rs) ⟨[], false⟩
      (loadPolygon_run _ d rs hne hrne hsafe [] false)
  | multiPoint pts =>
    simp only [roundTripSafe, Bool.and_eq_true, List.all_eq_true,
      Bool.not_eq_true'] at h
    have hne : pts ≠ [] := by
      intro hc; rw [hc] at h; simp at h
    obtain ⟨p, ps, rfl⟩ := List.exists_cons_of_ne_nil hne
    have hpne : ∀ x ∈ p :: ps, x ≠ [] :=
      fun x hx => (tupleSafe_spec d x (h.2 x hx)).1
    have hsafe : ∀ x ∈ p :: ps, ∀ q ∈ x, decimalAtB d q = true :=
      fun x hx => (tupleSafe_spec d x (h.2 x hx)).2
    have htok := tok_dumpMultipoint d (p :: ps) hne
    show loads (dumpMultipoint (p :: ps) d) = _
    simp only [loads, htok]
    exact loadsT_run _ "MULTIPOINT" _ loadMultipoint (by decide)
      (by simp [loadsRegistry]) (by simp) (by simp)
      (.multiPoint (p :: ps)) ⟨[], false⟩
      (loadMultipoint_paren_run _ d p ps hpne hsafe [] false)
  | multiLineString rs =>
    simp only [roundTripSafe, Bool.and_eq_true, List.all_eq_true,
      Bool.not_eq_true'] at h
    have hne : rs ≠ [] := by
      intro hc; rw [hc] at h; simp at h
    have hrne : ∀ x ∈ rs, x ≠ [] := by
      intro x hx hc
      have := (h.2 x hx).1
      rw [hc] at this
      simp at this
    have hsafe : ∀ x ∈ rs, ∀ p ∈ x, ∀ q ∈ p, decimalAtB d q = true :=
      fun x hx p hp => (tupleSafe_spec d p ((h.2 x hx).2 p hp)).2
    have htok := tok_dumpMultilinestring d rs hne
    show loads (dumpMultilinestring rs d) = _
    simp only [loads, htok]
    exact loadsT_run _ "MULTILINESTRING" _ loadMultilinestring (by decide)
      (by simp [loadsRegistry]) (by simp) (by simp)
      (.multiLineString rs) ⟨[], false⟩
      (loadMultilinestring_run _ d rs hne hrne hsafe [] false)
  | multiPolygon ps =>
    simp only [roundTripSafe, Bool.and_eq_true, List.all_eq_true,
      Bool.not_eq_true'] at h
    have hne : ps ≠ [] := by
      intro hc; rw [hc] at h; simp at h
    have hpne : ∀ x ∈ ps, x ≠ [] := by
      intro x hx hc
      have := (h.2 x hx).1
      rw [hc] at this
      simp at this
    have hrne : ∀ x ∈ ps, ∀ y ∈ x, y ≠ [] := by
      intro x hx y hy hc
      have := ((h.2 x hx).2 y hy).1
      rw [hc] at this
      simp at this
    have hsafe : ∀ x ∈ ps, ∀ y ∈ x, ∀ z ∈ y, ∀ q ∈ z,
        decimalAtB d q = true :=
      fun x hx y hy z hz => (tupleSafe_spec d z (((h.2 x hx).2 y hy).2 z hz)).2
    have htok := tok_dumpMultipolygon d ps hne
    show loads (dumpMultipolygon ps d) = _
    simp only [loads, htok]
    exact loadsT_run _ "MULTIPOLYGON" _ loadMultipolygon (by decide)
      (by simp [loadsRegistry]) (by simp) (by simp)
      (.multiPolygon ps) ⟨[], false⟩
      (loadMultipolygon_run _ d ps hne hpne hrne hsafe [] false)
  | geometryCollection gs =>
    simp [roundTripSafe] at h

/-! ## `dumps` tail and `_round_and_pad` facts -/

theorem dumps_eq_tail (obj : GeoObj) (d : ℕ) (h : dumpsBody obj.data) :
    dumps obj d = dumpsTail obj d := by
  obtain ⟨g, ms, cn⟩ := obj
  cases g with
  | geometryCollection gs =>
    simp only [dumps]
    rw [if_neg (by simpa [List.isEmpty_iff] using h)]
  | point c => simp only [dumps]; rw [if_neg h]
  | lineString c => simp only [dumps]; rw [if_neg h]
  | polygon c => simp only [dumps]; rw [if_neg h]
  | multiPoint c => simp only [dumps]; rw [if_neg h]
  | multiLineString c => simp only [dumps]; rw [if_neg h]
  | multiPolygon c => simp only [dumps]; rw [if_neg h]

theorem flatten_cons_ne {α : Type} (p : List α) (ps : List (List α))
    (h : p ≠ []) : (p :: ps).flatten ≠ [] := by
  intro hc
  rw [List.flatten_cons] at hc
  exact h (List.append_eq_nil.mp hc).1

theorem roundTripSafe_dumpsBody (d : ℕ) (g : GeomData)
    (h : roundTripSafe d g = true) : dumpsBody g := by
  cases g with
  | point pt =>
    exact (tupleSafe_spec d pt h).1
  | lineString pts =>
    simp only [roundTripSafe, Bool.and_eq_true, List.all_eq_true,
      Bool.not_eq_true'] at h
    show pts.flatten ≠ []
    obtain ⟨p, ps, rfl⟩ :=
      List.exists_cons_of_ne_nil (show pts ≠ [] by
        intro hc; rw [hc] at h; simp at h)
    exact flatten_cons_ne p ps (tupleSafe_spec d p (h.2 p (by simp))).1
  | multiPoint pts =>
    simp only [roundTripSafe, Bool.and_eq_true, List.all_eq_true,
      Bool.not_eq_true'] at h
    show pts.flatten ≠ []
    obtain ⟨p, ps, rfl⟩ :=
      List.exists_cons_of_ne_nil (show pts ≠ [] by
        intro hc; rw [hc] at h; simp at h)
    exact flatten_cons_ne p ps (tupleSafe_spec d p (h.2 p (by simp))).1
  | polygon rs =>
    simp only [roundTripSafe, Bool.and_eq_true, List.all_eq_true,
      Bool.not_eq_true'] at h
    show rs.flatten.flatten ≠ []
    obtain ⟨r, rs2, rfl⟩ :=
      List.exists_cons_of_ne_nil (show rs ≠ [] by
        intro hc; rw [hc] at h; simp at h)
    have hr := h.2 r (by simp)
    obtain ⟨p, ps, hre⟩ :=
      List.exists_cons_of_ne_nil (show r ≠ [] by
        intro hc; rw [hc] at hr; simp at hr)
    have hp : p ≠ [] := by
      refine (tupleSafe_spec d p (hr.2 p ?_)).1
      rw [hre]; simp
    rw [List.flatten_cons, hre, List.cons_append]
    exact flatten_cons_ne p _ hp
  | multiLineString rs =>
    simp only [roundTripSafe, Bool.and_eq_true, List.all_eq_true,
      Bool.not_eq_true'] at h
    show rs.flatten.flatten ≠ []
    obtain ⟨r, rs2, rfl⟩ :=
      List.exists_cons_of_ne_nil (show rs ≠ [] by
        intro hc; rw [hc] at h; simp at h)
    have hr := h.2 r (by simp)
    obtain ⟨p, ps, hre⟩ :=
      List.exists_cons_of_ne_nil (show r ≠ [] by
        intro hc; rw [hc] at hr; simp at hr)
    have hp : p ≠ [] := by
      refine (tupleSafe_spec d p (hr.2 p ?_)).1
      rw [hre]; simp
    rw [List.flatten_cons, hre, List.cons_append]
    exact flatten_cons_ne p _ hp
  | multiPolygon ps =>
    simp only [roundTripSafe, Bool.and_eq_true, List.all_eq_true,
      Bool.not_eq_true'] at h
    show ps.flatten.flatten.flatten ≠ []
    obtain ⟨x, xs, rfl⟩ :=
      List.exists_cons_of_ne_nil (show ps ≠ [] by
        intro hc; rw [hc] at h; simp at h)
    have hx := h.2 x (by simp)
    obtain ⟨r, rs, hxe⟩ :=
      List.exists_cons_of_ne_nil (show x ≠ [] by
        intro hc; rw [hc] at hx; simp at hx)
    have hr : tupleSafe d = tupleSafe d := rfl
    have hrr := hx.2 r (by rw [hxe]; simp)
    obtain ⟨p, pps, hpe⟩ :=
      List.exists_cons_of_ne_nil (show r ≠ [] by
        intro hc; rw [hc] at hrr; simp at hrr)
    have hp : p ≠ [] := by
      refine (tupleSafe_spec d p (hrr.2 p ?_)).1
      rw [hpe]; simp
    rw [List.flatten_cons, hxe, List.cons_append, List.flatten_cons, hpe,
      List.cons_append]
    exact flatten_cons_ne p _ hp
  | geometryCollection gs =>
    simp [roundTripSafe] at h

theorem decimalAtB_of_dvd (x : ℚ) (d : ℕ) (h : x.den ∣ 10 ^ d) :
    decimalAtB d x = true := by
  have hden : ((x.den : ℚ)) ≠ 0 := by
    exact_mod_cast x.den_pos.ne'
  have hcast : ((10 ^ d / x.den : ℕ) : ℚ) = (10 : ℚ) ^ d / (x.den : ℚ) := by
    rw [Nat.cast_div h (by positivity)]
    push_cast
    ring
  have hx : x * 10 ^ d = ((x.num * (10 ^ d / x.den : ℕ) : ℤ) : ℚ) := by
    rw [Int.cast_mul, Int.cast_natCast, hcast]
    conv_lhs => rw [← Rat.num_div_den x]
    field_simp
  have hone : (x * 10 ^ d).den = 1 := by
    rw [hx]
    exact Rat.den_intCast _
  simp [decimalAtB, hone]

theorem roundAndPad_roundDec (q : ℚ) (d : ℕ) (hd : d ≠ 0) :
    roundAndPad q d = roundAndPad (roundDec q d) d := by
  rw [roundAndPad, roundAndPad, if_neg hd, if_neg hd,
    roundDec_id (roundDec q d) d (decimalAtB_of_dvd _ _ (roundDec_den_dvd q d))]

theorem strToRat_roundAndPad_all (q : ℚ) (d : ℕ) (hd : d ≠ 0) :
    strToRat (roundAndPad q d) = some (roundDec q d) := by
  rw [roundAndPad_roundDec q d hd]
  exact strToRat_roundAndPad (roundDec q d) d
    (decimalAtB_of_dvd _ _ (roundDec_den_dvd q d))

theorem roundAndPad_no_e (q : ℚ) (d : ℕ) :
    ∀ c ∈ (roundAndPad q d).data, c ≠ 'e' := by
  obtain ⟨⟨hne, hall⟩, hcase⟩ := numShape_spec _ (numShape_roundAndPad q d)
  rcases hcase with ⟨hdata, -⟩ | ⟨hdata, -⟩
  · rw [hdata]
    intro c hc hce
    have := hall c hc
    rw [hce] at this
    exact absurd this (by decide)
  · rw [hdata]
    intro c hc hce
    rcases List.mem_cons.1 hc with h1 | h1
    · rw [hce] at h1
      exact absurd h1 (by decide)
    · have := hall c h1
      rw [hce] at this
      exact absurd this (by decide)

theorem digit_ne_dot (c : Char) (h : c.isDigit = true) : c ≠ '.' := by
  intro hc
  rw [hc] at h
  exact absurd h (by decide)

theorem fracLen_pad (pre fp Z : List Char) (hpre : ∀ c ∈ pre, c ≠ '.') :
    fracLen ((pre ++ '.' :: fp) ++ Z) = fp.length + Z.length := by
  rw [List.append_assoc, show ('.' :: fp) ++ Z = '.' :: (fp ++ Z) from rfl,
    fracLen_concat pre _ hpre]
  simp

theorem fracLen_roundAndPad (q : ℚ) (d : ℕ) (hd : d ≠ 0) :
    fracLen (roundAndPad q d).data = d := by
  have hrw : roundAndPad q d = String.mk
      ((if reprHasE (roundDec q d) then formatFixedChars (roundDec q d) d
        else reprPlainChars (roundDec q d)) ++
       List.replicate (d - fracLen
         (if reprHasE (roundDec q d) then formatFixedChars (roundDec q d) d
          else reprPlainChars (roundDec q d))) '0') := by
    rw [roundAndPad, if_neg hd]
  have hdvd := roundDec_den_dvd q d
  -- decompose the unpadded rendering around its decimal point
  have hsplit : ∃ pre fp : List Char,
      (if reprHasE (roundDec q d) then formatFixedChars (roundDec q d) d
       else reprPlainChars (roundDec q d)) = pre ++ '.' :: fp ∧
      (∀ c ∈ pre, c ≠ '.') ∧ fp.length ≤ d := by
    by_cases hE : reprHasE (roundDec q d) = true
    · rw [if_pos hE, formatFixedChars_pos _ d hd]
      obtain ⟨ip, fp, heq, hip_ne, hfp_len, hip_dig, hfp_dig, hval⟩ :=
        fixedChars_eq ((roundDec q d).num.natAbs * (10 ^ d / (roundDec q d).den)) d
      by_cases hneg : roundDec q d < 0
      · refine ⟨'-' :: ip, fp, ?_, ?_, by omega⟩
        · rw [if_pos hneg, heq]
          simp
        · intro c hc
          rcases List.mem_cons.1 hc with h1 | h1
          · rw [h1]; decide
          · exact digit_ne_dot c (hip_dig c h1)
      · exact ⟨ip, fp, by rw [if_neg hneg, heq], fun c hc =>
          digit_ne_dot c (hip_dig c hc), by omega⟩
    · rw [if_neg hE]
      obtain ⟨e, hsome, he_le, hdvd_e⟩ :=
        decScale_spec (roundDec q d).den d (roundDec q d).den_pos hdvd
      rw [reprPlainChars_eq _ e hsome]
      by_cases he0 : e = 0
      · subst he0
        simp only [reduceIte]
        by_cases hneg : roundDec q d < 0
        · refine ⟨'-' :: natDigits ((roundDec q d).num.natAbs *
              (10 ^ 0 / (roundDec q d).den)), ['0'], ?_, ?_,
              by simpa using Nat.one_le_iff_ne_zero.mpr hd⟩
          · rw [if_pos hneg]
            simp
          · intro c hc
            rcases List.mem_cons.1 hc with h1 | h1
            · rw [h1]; decide
            · exact digit_ne_dot c (natDigits_all_digit _ c h1)
        · refine ⟨natDigits ((roundDec q d).num.natAbs *
              (10 ^ 0 / (roundDec q d).den)), ['0'], ?_, ?_,
              by simpa using Nat.one_le_iff_ne_zero.mpr hd⟩
          · rw [if_neg hneg]
          · exact fun c hc => digit_ne_dot c (natDigits_all_digit _ c hc)
      · simp only [if_neg he0]
        obtain ⟨ip, fp, heq, hip_ne, hfp_len, hip_dig, hfp_dig, hval⟩ :=
          fixedChars_eq ((roundDec q d).num.natAbs *
            (10 ^ e / (roundDec q d).den)) e
        by_cases hneg : roundDec q d < 0
        · refine ⟨'-' :: ip, fp, ?_, ?_, by omega⟩
          · rw [if_pos hneg, heq]
            simp
          · intro c hc
            rcases List.mem_cons.1 hc with h1 | h1
            · rw [h1]; decide
            · exact digit_ne_dot c (hip_dig c h1)
        · exact ⟨ip, fp, by rw [if_neg hneg, heq], fun c hc =>
            digit_ne_dot c (hip_dig c hc), by omega⟩
  obtain ⟨pre, fp, heq, hpre, hle⟩ := hsplit
  rw [hrw, show ∀ L : List Char, (String.mk L).data = L from fun _ => rfl]
  rw [heq, fracLen_pad pre fp _ hpre]
  rw [show fracLen (pre ++ '.' :: fp) = fp.length from fracLen_concat pre fp hpre]
  rw [List.length_replicate]
  omega

theorem reprHasE_natCast (n : ℕ) (hn : (n : ℚ) < 10 ^ 16) :
    reprHasE (n : ℚ) = false := by
  simp only [reprHasE, decide_eq_false_iff_not]
  push_neg
  constructor
  · intro hne
    rw [abs_of_nonneg (by positivity)]
    have h1 : (1 : ℚ) ≤ (n : ℚ) := by
      have : 1 ≤ n := Nat.one_le_iff_ne_zero.mpr (by exact_mod_cast hne)
      exact_mod_cast this
    linarith
  · rw [abs_of_nonneg (by positivity)]
    linarith

theorem maxPowDvd_one (p : ℕ) : maxPowDvd p 1 = 0 := by
  rw [maxPowDvd]
  by_cases hp : 2 ≤ p
  · rw [if_neg]
    rintro ⟨-, -, hdvd⟩
    have := Nat.le_of_dvd (by omega) hdvd
    omega
  · rw [if_neg]
    rintro ⟨h2, -, -⟩
    omega

theorem decScale_one : decScale 1 = some 0 := by
  rw [decScale]
  simp [maxPowDvd_one]

theorem roundAndPad_natCast (n : ℕ) (d : ℕ) (hd : d ≠ 0)
    (hn : (n : ℚ) < 10 ^ 16) :
    roundAndPad (n : ℚ) d
      = String.mk (natDigits n ++ '.' :: List.replicate d '0') := by
  have hdec : decimalAtB d (n : ℚ) = true := by
    apply decimalAtB_of_dvd
    rw [Rat.den_natCast]
    exact one_dvd _
  have hE : reprHasE (n : ℚ) = false := reprHasE_natCast n hn
  have hscale : decScale ((n : ℚ)).den = some 0 := by
    rw [Rat.den_natCast]
    exact decScale_one
  rw [roundAndPad, if_neg hd, roundDec_id _ _ hdec]
  simp only [hE, Bool.false_eq_true, if_false]
  rw [reprPlainChars_eq _ 0 hscale]
  rw [if_neg (not_lt.mpr (by positivity) : ¬((n : ℚ) < 0))]
  simp only [reduceIte]
  have hm : ((n : ℚ)).num.natAbs * (10 ^ 0 / ((n : ℚ)).den) = n := by
    rw [Rat.num_natCast, Rat.den_natCast]
    simp
  rw [hm]
  have hfl : fracLen (natDigits n ++ ['.', '0']) = 1 := by
    rw [show (['.', '0'] : List Char) = '.' :: ['0'] from rfl,
      fracLen_concat _ _ (fun c hc =>
        digit_ne_dot c (natDigits_all_digit _ c hc))]
    rfl
  rw [hfl]
  congr 1
  rw [show natDigits n ++ ['.', '0'] = natDigits n ++ '.' :: ['0'] from rfl,
    List.append_assoc]
  congr 1
  rw [show ('.' :: ['0'] : List Char) ++ List.replicate (d - 1) '0'
      = '.' :: ('0' :: List.replicate (d - 1) '0') from rfl]
  congr 1
  rw [show d = (d - 1) + 1 from by omega, List.replicate_succ]
  simp

theorem natDigits_one : natDigits 1 = ['1'] := by
  rw [natDigits]
  simp
  decide

theorem natDigits_two : natDigits 2 = ['2'] := by
  rw [natDigits]
  simp
  decide

theorem rap_1_1 : roundAndPad 1 1 = "1.0" := by
  have := roundAndPad_natCast 1 1 (by omega) (by norm_num)
  rw [show ((1 : ℕ) : ℚ) = 1 from by norm_num] at this
  rw [this, natDigits_one]
  rfl

theorem rap_2_1 : roundAndPad 2 1 = "2.0" := by
  have := roundAndPad_natCast 2 1 (by omega) (by norm_num)
  rw [show ((2 : ℕ) : ℚ) = 2 from by norm_num] at this
  rw [this, natDigits_two]
  rfl

theorem rap_1_2 : roundAndPad 1 2 = "1.00" := by
  have := roundAndPad_natCast 1 2 (by omega) (by norm_num)
  rw [show ((1 : ℕ) : ℚ) = 1 from by norm_num] at this
  rw [this, natDigits_one]
  rfl

theorem rap_2_2 : roundAndPad 2 2 = "2.00" := by
  have := roundAndPad_natCast 2 2 (by omega) (by norm_num)
  rw [show ((2 : ℕ) : ℚ) = 2 from by norm_num] at this
  rw [this, natDigits_two]
  rfl

/-! ## The two MULTIPOINT forms -/

theorem lex_mpParenBody (d : ℕ) (pts : List (List ℚ)) (c : Char)
    (hc : c = ')' ∨ c = ',') (rest : List Char) (dep : ℤ) :
    lexAux ((joinSep "," (pts.map fun pt => "(" ++ dumpPt pt d ++ ")")).data
        ++ c :: rest) .idle dep
      = (rawMpToks d pts
            ++ String.singleton c :: (lexAux rest .idle (opDep c dep)).1,
         (lexAux rest .idle (opDep c dep)).2) := by
  rw [lex_level2 (fun pt => dumpPt pt d) (rawPtToks d)
      (fun r c hc rest dep => lex_dumpPt d r c hc rest dep)
      "," (Or.inl rfl) pts c hc]
  rfl

theorem tok_mpParen (d : ℕ) (pts : List (List ℚ)) :
    tokenizeWkt (mpParenForm (pts.map (stPtToks d)))
      = ("MULTIPOINT" :: "(" :: stMpToks d pts ++ [")"], false) := by
  apply tokenizeWkt_assemble _ "MULTIPOINT("
    (joinSep "," (pts.map fun pt => "(" ++ dumpPt pt d ++ ")")) "MULTIPOINT"
    (rawMpToks d pts) (stMpToks d pts)
  · rw [mpParenForm,
      show (pts.map (stPtToks d)).map (fun pt => "(" ++ joinSep " " pt ++ ")")
        = pts.map (fun pt => "(" ++ dumpPt pt d ++ ")") from by
          simp only [List.map_map]; rfl]
  · decide
  · have := lex_mpParenBody d pts ')' (Or.inl rfl) [] 1
    simpa [opDep, lexAux_nil] using this
  · decide
  · decide
  · rw [stitch_rawMp d pts [")"], show stitch false [")"] = [")"] by decide]

theorem tok_mpBare (d : ℕ) (pts : List (List ℚ)) :
    tokenizeWkt (mpBareForm (pts.map (stPtToks d)))
      = ("MULTIPOINT" :: "(" :: stPtsToks d pts ++ [")"], false) := by
  apply tokenizeWkt_assemble _ "MULTIPOINT(" (dumpPtList pts d) "MULTIPOINT"
    (rawPtsToks d pts) (stPtsToks d pts)
  · rw [mpBareForm,
      show (pts.map (stPtToks d)).map (fun pt => joinSep " " pt)
        = pts.map (fun pt => dumpPt pt d) from by
          simp only [List.map_map]; rfl]
    rfl
  · decide
  · have := lex_dumpPtList d pts ')' (Or.inl rfl) [] 1
    simpa [opDep, lexAux_nil] using this
  · decide
  · decide
  · rw [stitch_rawPts d pts [")"], show stitch false [")"] = [")"] by decide]

/-! ## Premature stream end in `_load_point` -/

theorem pointLoop_exhaust_err (s : String) :
    ∀ (nums : List String) (acc : List ℚ),
    (∀ t ∈ nums, (strToRat t).isSome = true) →
    pointLoop s nums true acc = .error (.valueError (invalidWkt s)) := by
  intro nums
  induction nums with
  | nil => intro acc h; simp [pointLoop]
  | cons t ts ih =>
    intro acc h
    have ht := h t (by simp)
    have htne : t ≠ ")" := by
      intro hc
      rw [hc] at ht
      exact absurd ht (by decide)
    obtain ⟨q, hq⟩ := Option.isSome_iff_exists.mp ht
    simp only [pointLoop]
    rw [if_neg htne, hq]
    exact ih (acc ++ [q]) (fun x hx => h x (by simp [hx]))

/-! ## The stitcher never emits `-` or the empty token -/

theorem string_eq_of_data (t : String) (h : t.data = []) : t = "" := by
  have := string_mk_data t
  rw [h] at this
  exact this.symm.trans rfl

theorem minus_append_ne_minus (t : String) (h : t ≠ "") : "-" ++ t ≠ "-" := by
  intro hc
  have hd := congrArg String.data hc
  rw [string_data_append] at hd
  simp at hd
  exact h (string_eq_of_data t hd)

theorem minus_append_ne_empty (t : String) : "-" ++ t ≠ "" := by
  intro hc
  have hd := congrArg String.data hc
  rw [string_data_append] at hd
  simp at hd

theorem stitch_no_minus_empty :
    ∀ (ts : List String) (neg : Bool),
    "-" ∉ stitch neg ts ∧ "" ∉ stitch neg ts := by
  intro ts
  induction ts with
  | nil => intro neg; simp [stitch]
  | cons t ts ih =>
    intro neg
    by_cases h1 : t = "-"
    · simp only [stitch, if_pos h1]
      exact ih true
    · by_cases h2 : t = ""
      · simp only [stitch, if_neg h1, if_pos h2]
        exact ih neg
      · simp only [stitch, if_neg h1, if_neg h2]
        constructor
        · intro hc
          rcases List.mem_cons.1 hc with hc | hc
          · cases neg with
            | false => simp at hc; exact h1 hc.symm
            | true =>
              simp at hc
              exact minus_append_ne_minus t h2 hc.symm
          · exact (ih false).1 hc
        · intro hc
          rcases List.mem_cons.1 hc with hc | hc
          · cases neg with
            | false => simp at hc; exact h2 hc.symm
            | true =>
              simp at hc
              exact minus_append_ne_empty t hc.symm
          · exact (ih false).2 hc

/-! ## Parenthesis-balance bookkeeping -/

theorem genBalL_nil : genBalL [] = 0 := rfl

theorem genBalL_cons (t : String) (ts : List String) :
    genBalL (t :: ts) = genBal t + genBalL ts := by
  simp [genBalL]

theorem genBalL_append (A B : List String) :
    genBalL (A ++ B) = genBalL A + genBalL B := by
  simp [genBalL]

theorem genBal_of_chars (t : String)
    (h : ∀ c ∈ t.data, isNumCh c = true ∨ isIdentCh c = true) :
    genBal t = 0 := by
  have h1 : ¬(t = "(" ∨ t = "-(") := by
    rintro (rfl | rfl)
    · rcases h '(' (by decide) with hc | hc <;> exact absurd hc (by decide)
    · rcases h '(' (by decide) with hc | hc <;> exact absurd hc (by decide)
  have h2 : ¬(t = ")" ∨ t = "-)") := by
    rintro (rfl | rfl)
    · rcases h ')' (by decide) with hc | hc <;> exact absurd hc (by decide)
    · rcases h ')' (by decide) with hc | hc <;> exact absurd hc (by decide)
  unfold genBal
  rw [if_neg h1, if_neg h2]

theorem rawTokOk_of_chars (t : String)
    (h : ∀ c ∈ t.data, isNumCh c = true ∨ isIdentCh c = true) :
    rawTokOk t = true := by
  have : t.data.all (fun c => !(c = '(') && !(c = ')')) = true := by
    rw [List.all_eq_true]
    intro c hc
    rcases h c hc with h1 | h1 <;>
      (simp only [Bool.and_eq_true, Bool.not_eq_true', decide_eq_false_iff_not]
       constructor <;> intro hcc <;> rw [hcc] at h1 <;>
         exact absurd h1 (by decide))
  simp [rawTokOk, this]

theorem flush_ok (st : LexSt) (h : stOkP st) :
    ∀ t ∈ flushSt st, genBal t = 0 ∧ rawTokOk t = true := by
  cases st with
  | idle => intro t ht; exact absurd ht (by simp [flushSt])
  | ident acc =>
    intro t ht
    simp only [flushSt, List.mem_singleton] at ht
    subst ht
    exact ⟨genBal_of_chars _ h, rawTokOk_of_chars _ h⟩
  | num acc =>
    intro t ht
    simp only [flushSt, List.mem_singleton] at ht
    subst ht
    exact ⟨genBal_of_chars _ h, rawTokOk_of_chars _ h⟩

theorem genBalL_flush (st : LexSt) (h : stOkP st) :
    genBalL (flushSt st) = 0 := by
  cases st with
  | idle => rfl
  | ident acc =>
    rw [show flushSt (.ident acc) = [String.mk acc] from rfl, genBalL_cons,
      genBal_of_chars _ h, genBalL_nil]
    ring
  | num acc =>
    rw [show flushSt (.num acc) = [String.mk acc] from rfl, genBalL_cons,
      genBal_of_chars _ h, genBalL_nil]
    ring

theorem singleton_data (c : Char) : (String.singleton c).data = [c] := rfl

theorem genBal_singleton (c : Char) :
    genBal (String.singleton c)
      = (if c = '(' then 1 else if c = ')' then -1 else 0) := by
  by_cases h1 : c = '('
  · subst h1; rw [if_pos rfl]; decide
  · by_cases h2 : c = ')'
    · subst h2; rw [if_neg h1, if_pos rfl]; decide
    · rw [if_neg h1, if_neg h2]
      have hA : ¬(String.singleton c = "(" ∨ String.singleton c = "-(") := by
        rintro (hc | hc)
        · have hd := congrArg String.data hc
          rw [singleton_data, show ("(" : String).data = ['('] from rfl] at hd
          simp at hd
          exact h1 hd
        · have hd := congrArg String.data hc
          rw [singleton_data,
            show ("-(" : String).data = ['-', '('] from rfl] at hd
          simp at hd
      have hB : ¬(String.singleton c = ")" ∨ String.singleton c = "-)") := by
        rintro (hc | hc)
        · have hd := congrArg String.data hc
          rw [singleton_data, show (")" : String).data = [')'] from rfl] at hd
          simp at hd
          exact h2 hd
        · have hd := congrArg String.data hc
          rw [singleton_data,
            show ("-)" : String).data = ['-', ')'] from rfl] at hd
          simp at hd
      unfold genBal
      rw [if_neg hA, if_neg hB]

theorem rawTokOk_singleton (c : Char) :
    rawTokOk (String.singleton c) = true := by
  by_cases h1 : c = '('
  · subst h1; decide
  · by_cases h2 : c = ')'
    · subst h2; decide
    · simp only [rawTokOk, Bool.or_eq_true, List.all_eq_true]
      right
      intro x hx
      rw [singleton_data] at hx
      simp only [List.mem_singleton] at hx
      subst hx
      simp [h1, h2]

theorem lexAux_inv (cs : List Char) :
    ∀ (st : LexSt) (d : ℤ), stOkP st →
      (∀ t ∈ (lexAux cs st d).1, rawTokOk t = true) ∧
      stOkP (lexAux cs st d).2.1 ∧
      (lexAux cs st d).2.2 = d + genBalL (lexAux cs st d).1 := by
  induction cs with
  | nil =>
    intro st d hst
    rw [lexAux_nil]
    exact ⟨by simp, hst, by rw [genBalL_nil]; ring⟩
  | cons c cs ih =>
    intro st d hst
    by_cases h1 : isWsp c
    · have heq : lexAux (c :: cs) st d
          = (flushSt st ++ (lexAux cs .idle d).1, (lexAux cs .idle d).2) := by
        simp only [lexAux, if_pos h1]
      obtain ⟨ihok, ihst, ihd⟩ := ih .idle d trivial
      rw [heq]
      refine ⟨?_, ihst, ?_⟩
      · intro t ht
        rcases List.mem_append.1 ht with ht | ht
        · exact (flush_ok st hst t ht).2
        · exact ihok t ht
      · show (lexAux cs .idle d).2.2 = d + genBalL (flushSt st ++ _)
        rw [genBalL_append, genBalL_flush st hst, ihd]
        ring
    · by_cases h2 : isNumCh c
      · have hc : isNumCh c = true ∨ isIdentCh c = true := Or.inl h2
        cases st with
        | num acc =>
          have heq : lexAux (c :: cs) (.num acc) d
              = lexAux cs (.num (acc ++ [c])) d := by
            simp only [lexAux, if_neg h1, if_pos h2]
          rw [heq]
          exact ih (.num (acc ++ [c])) d (by
            intro x hx
            rcases List.mem_append.1 hx with hx | hx
            · exact hst x hx
            · rw [List.mem_singleton.1 hx]; exact hc)
        | ident acc =>
          by_cases h3 : c.isDigit
          · have heq : lexAux (c :: cs) (.ident acc) d
                = lexAux cs (.ident (acc ++ [c])) d := by
              simp only [lexAux, if_neg h1, if_pos h2, if_pos h3]
            rw [heq]
            exact ih (.ident (acc ++ [c])) d (by
              intro x hx
              rcases List.mem_append.1 hx with hx | hx
              · exact hst x hx
              · rw [List.mem_singleton.1 hx]; exact hc)
          · have heq : lexAux (c :: cs) (.ident acc) d
                = (flushSt (.ident acc) ++ (lexAux cs (.num [c]) d).1,
                   (lexAux cs (.num [c]) d).2) := by
              simp only [lexAux, if_neg h1, if_pos h2, if_neg h3]
            obtain ⟨ihok, ihst, ihd⟩ := ih (.num [c]) d (by
              intro x hx
              rw [List.mem_singleton.1 hx]; exact hc)
            rw [heq]
            refine ⟨?_, ihst, ?_⟩
            · intro t ht
              rcases List.mem_append.1 ht with ht | ht
              · exact (flush_ok _ hst t ht).2
              · exact ihok t ht
            · show (lexAux cs (.num [c]) d).2.2
                = d + genBalL (flushSt (.ident acc) ++ _)
              rw [genBalL_append, genBalL_flush _ hst, ihd]
              ring
        | idle =>
          have heq : lexAux (c :: cs) .idle d = lexAux cs (.num [c]) d := by
            simp only [lexAux, if_neg h1, if_pos h2]
          rw [heq]
          exact ih (.num [c]) d (by
            intro x hx
            rw [List.mem_singleton.1 hx]; exact hc)
      · by_cases h3 : isIdentCh c
        · have hc : isNumCh c = true ∨ isIdentCh c = true := Or.inr h3
          cases st with
          | ident acc =>
            have heq : lexAux (c :: cs) (.ident acc) d
                = lexAux cs (.ident (acc ++ [c])) d := by
              simp only [lexAux, if_neg h1, if_neg h2, if_pos h3]
            rw [heq]
            exact ih (.ident (acc ++ [c])) d (by
              intro x hx
              rcases List.mem_append.1 hx with hx | hx
              · exact hst x hx
              · rw [List.mem_singleton.1 hx]; exact hc)
          | num acc =>
            have heq : lexAux (c :: cs) (.num acc) d
                = (flushSt (.num acc) ++ (lexAux cs (.ident [c]) d).1,
                   (lexAux cs (.ident [c]) d).2) := by
              simp only [lexAux, if_neg h1, if_neg h2, if_pos h3]
            obtain ⟨ihok, ihst, ihd⟩ := ih (.ident [c]) d (by
              intro x hx
              rw [List.mem_singleton.1 hx]; exact hc)
            rw [heq]
            refine ⟨?_, ihst, ?_⟩
            · intro t ht
              rcases List.mem_append.1 ht with ht | ht
              · exact (flush_ok _ hst t ht).2
              · exact ihok t ht
            · show (lexAux cs (.ident [c]) d).2.2
                = d + genBalL (flushSt (.num acc) ++ _)
              rw [genBalL_append, genBalL_flush _ hst, ihd]
              ring
          | idle =>
            have heq : lexAux (c :: cs) .idle d
                = (flushSt .idle ++ (lexAux cs (.ident [c]) d).1,
                   (lexAux cs (.ident [c]) d).2) := by
              simp only [lexAux, if_neg h1, if_neg h2, if_pos h3]
            obtain ⟨ihok, ihst, ihd⟩ := ih (.ident [c]) d (by
              intro x hx
              rw [List.mem_singleton.1 hx]; exact hc)
            rw [heq]
            refine ⟨?_, ihst, ?_⟩
            · intro t ht
              rcases List.mem_append.1 ht with ht | ht
              · exact absurd ht (by simp [flushSt])
              · exact ihok t ht
            · show (lexAux cs (.ident [c]) d).2.2
                = d + genBalL (flushSt .idle ++ _)
              rw [genBalL_append, genBalL_flush .idle trivial, ihd]
              ring
        · have heq : lexAux (c :: cs) st d
              = (flushSt st ++ [String.singleton c] ++
                  (lexAux cs .idle
                    (if c = '(' then d + 1
                     else if c = ')' then d - 1 else d)).1,
                 (lexAux cs .idle
                    (if c = '(' then d + 1
                     else if c = ')' then d - 1 else d)).2) := by
            simp only [lexAux, if_neg h1, if_neg h2, if_neg h3]
          obtain ⟨ihok, ihst, ihd⟩ :=
            ih .idle (if c = '(' then d + 1 else if c = ')' then d - 1 else d)
              trivial
          rw [heq]
          refine ⟨?_, ihst, ?_⟩
          · intro t ht
            rcases List.mem_append.1 ht with ht | ht
            · rcases List.mem_append.1 ht with ht | ht
              · exact (flush_ok st hst t ht).2
              · rw [List.mem_singleton.1 ht]
                exact rawTokOk_singleton c
            · exact ihok t ht
          · show (lexAux cs .idle _).2.2
              = d + genBalL (flushSt st ++ [String.singleton c] ++ _)
            rw [genBalL_append, genBalL_append, genBalL_flush st hst, ihd,
              genBalL_cons, genBalL_nil, genBal_singleton]
            by_cases hc1 : c = '('
            · rw [if_pos hc1, if_pos hc1]
              ring
            · by_cases hc2 : c = ')'
              · rw [if_neg hc1, if_neg hc1, if_pos hc2, if_pos hc2]
                ring
              · rw [if_neg hc1, if_neg hc1, if_neg hc2, if_neg hc2]
                ring

theorem pyTokenize_spec (s : String) :
    (∀ t ∈ (pyTokenize s).1, rawTokOk t = true) ∧
    (pyTokenize s).2 = decide (0 < genBalL (pyTokenize s).1) := by
  obtain ⟨hok, hst, hd⟩ := lexAux_inv s.data .idle 0 trivial
  constructor
  · intro t ht
    simp only [pyTokenize] at ht
    rcases List.mem_append.1 ht with ht | ht
    · exact hok t ht
    · exact (flush_ok _ hst t ht).2
  · simp only [pyTokenize, decide_eq_decide]
    rw [genBalL_append, genBalL_flush _ hst, hd]
    omega

theorem stitch_genBal : ∀ (ts : List String) (neg : Bool),
    (∀ t ∈ ts, rawTokOk t = true) →
    genBalL (stitch neg ts) = genBalL ts := by
  intro ts
  induction ts with
  | nil => intro neg h; simp [stitch]
  | cons t ts ih =>
    intro neg h
    by_cases h1 : t = "-"
    · rw [show stitch neg (t :: ts) = stitch true ts from by
        simp only [stitch, if_pos h1],
        ih true (fun x hx => h x (by simp [hx])), genBalL_cons, h1]
      rw [show genBal "-" = 0 from by decide]
      ring
    · by_cases h2 : t = ""
      · rw [show stitch neg (t :: ts) = stitch neg ts from by
          simp only [stitch, if_neg h1, if_pos h2],
          ih neg (fun x hx => h x (by simp [hx])), genBalL_cons, h2]
        rw [show genBal "" = 0 from by decide]
        ring
      · have htok : genBal (if neg then "-" ++ t else t) = genBal t := by
          cases neg with
          | false => rfl
          | true =>
            show genBal ("-" ++ t) = genBal t
            have hraw := h t (by simp)
            simp only [rawTokOk, Bool.or_eq_true, decide_eq_true_eq,
              List.all_eq_true] at hraw
            rcases hraw with (rfl | rfl) | hfree
            · decide
            · decide
            · have hparen : ∀ u : String,
                  (∀ c ∈ u.data, ¬(c = '(') ∧ ¬(c = ')')) → genBal u = 0 := by
                intro u hu
                have hA : ¬(u = "(" ∨ u = "-(") := by
                  rintro (rfl | rfl)
                  · exact (hu '(' (by decide)).1 rfl
                  · exact (hu '(' (by decide)).1 rfl
                have hB : ¬(u = ")" ∨ u = "-)") := by
                  rintro (rfl | rfl)
                  · exact (hu ')' (by decide)).2 rfl
                  · exact (hu ')' (by decide)).2 rfl
                unfold genBal
                rw [if_neg hA, if_neg hB]
              have hfree2 : ∀ c ∈ t.data, ¬(c = '(') ∧ ¬(c = ')') := by
                intro c hc
                have := hfree c hc
                simp only [Bool.and_eq_true, decide_eq_true_eq] at this
                exact this
              rw [hparen t hfree2, hparen ("-" ++ t) (by
                intro c hc
                rw [string_data_append] at hc
                rcases List.mem_append.1 hc with hc | hc
                · rw [show ("-" : String).data = ['-'] from rfl] at hc
                  rw [List.mem_singleton.1 hc]
                  exact ⟨by decide, by decide⟩
                · exact hfree2 c hc)]
        rw [show stitch neg (t :: ts)
            = (if neg then "-" ++ t else t) :: stitch false ts from by
          simp only [stitch, if_neg h1, if_neg h2],
          genBalL_cons, genBalL_cons, htok,
          ih false (fun x hx => h x (by simp [hx]))]

theorem tokenizeWkt_spec (s : String) :
    (tokenizeWkt s).2 = decide (0 < genBalL (tokenizeWkt s).1) := by
  obtain ⟨hok, he⟩ := pyTokenize_spec s
  simp only [tokenizeWkt]
  rw [he]
  simp only [decide_eq_decide]
  rw [stitch_genBal _ false hok]

theorem strToRat_genBal (t : String) (q : ℚ) (h : strToRat t = some q) :
    genBal t = 0 := by
  have hA : ¬(t = "(" ∨ t = "-(") := by
    rintro (rfl | rfl)
    · rw [show strToRat "(" = none from rfl] at h
      exact absurd h (by simp)
    · rw [show strToRat "-(" = none from rfl] at h
      exact absurd h (by simp)
  have hB : ¬(t = ")" ∨ t = "-)") := by
    rintro (rfl | rfl)
    · rw [show strToRat ")" = none from rfl] at h
      exact absurd h (by simp)
    · rw [show strToRat "-)" = none from rfl] at h
      exact absurd h (by simp)
  unfold genBal
  rw [if_neg hA, if_neg hB]

theorem parsePyInt_genBal (t : String) (n : ℤ) (h : parsePyInt t = some n) :
    genBal t = 0 := by
  have hA : ¬(t = "(" ∨ t = "-(") := by
    rintro (rfl | rfl)
    · rw [show parsePyInt "(" = none from rfl] at h
      exact absurd h (by simp)
    · rw [show parsePyInt "-(" = none from rfl] at h
      exact absurd h (by simp)
  have hB : ¬(t = ")" ∨ t = "-)") := by
    rintro (rfl | rfl)
    · rw [show parsePyInt ")" = none from rfl] at h
      exact absurd h (by simp)
    · rw [show parsePyInt "-)" = none from rfl] at h
      exact absurd h (by simp)
  unfold genBal
  rw [if_neg hA, if_neg hB]

theorem loadsRegistry_genBal (t : String)
    (imp : TokStream → String → Except PyErr (GeomData × TokStream))
    (h : loadsRegistry t = some imp) : genBal t = 0 := by
  unfold loadsRegistry at h
  by_cases h1 : t = "POINT"
  · subst h1; decide
  rw [if_neg h1] at h
  by_cases h2 : t = "LINESTRING"
  · subst h2; decide
  rw [if_neg h2] at h
  by_cases h3 : t = "POLYGON"
  · subst h3; decide
  rw [if_neg h3] at h
  by_cases h4 : t = "MULTIPOINT"
  · subst h4; decide
  rw [if_neg h4] at h
  by_cases h5 : t = "MULTILINESTRING"
  · subst h5; decide
  rw [if_neg h5] at h
  by_cases h6 : t = "MULTIPOLYGON"
  · subst h6; decide
  rw [if_neg h6] at h
  by_cases h7 : t = "GEOMETRYCOLLECTION"
  · subst h7; decide
  rw [if_neg h7] at h
  exact absurd h (by simp)

/-! ## Extension stability of the parsing loops

A loop run that succeeded either never saw the end of the stream (so
appending tokens cannot change it), or consumed the whole stream cleanly
— which forces a non-negative parenthesis balance of the consumed
tokens. -/

theorem pointLoop_ext (s : String) :
    ∀ (ts : List String) (e : Bool) (acc : List ℚ) (g : GeomData)
      (st1 : TokStream),
    pointLoop s ts e acc = .ok (g, st1) →
    st1.err = e ∧
      ((∀ (X : List String) (e2 : Bool) (s2 : String),
          pointLoop s2 (ts ++ X) e2 acc = .ok (g, ⟨st1.toks ++ X, e2⟩)) ∨
        (st1.toks = [] ∧ e = false ∧ 0 ≤ genBalL ts)) := by
  intro ts
  induction ts with
  | nil =>
    intro e acc g st1 h
    simp only [pointLoop] at h
    cases e with
    | true => rw [if_pos rfl] at h; exact absurd h (by simp)
    | false =>
      rw [if_neg (by simp)] at h
      simp only [Except.ok.injEq, Prod.mk.injEq] at h
      obtain ⟨hg, hst⟩ := h
      subst hg
      subst hst
      exact ⟨rfl, Or.inr ⟨rfl, rfl, by rw [genBalL_nil]⟩⟩
  | cons t ts ih =>
    intro e acc g st1 h
    simp only [pointLoop] at h
    by_cases ht : t = ")"
    · rw [if_pos ht] at h
      simp only [Except.ok.injEq, Prod.mk.injEq] at h
      obtain ⟨hg, hst⟩ := h
      subst hg
      subst hst
      refine ⟨rfl, Or.inl ?_⟩
      intro X e2 s2
      rw [List.cons_append]
      simp only [pointLoop]
      rw [if_pos ht]
    · rw [if_neg ht] at h
      cases hq : strToRat t with
      | none => rw [hq] at h; exact absurd h (by simp)
      | some q =>
        rw [hq] at h
        obtain ⟨herr, hLR⟩ := ih e (acc ++ [q]) g st1 h
        refine ⟨herr, ?_⟩
        rcases hLR with hL | hR
        · left
          intro X e2 s2
          rw [List.cons_append]
          simp only [pointLoop]
          rw [if_neg ht, hq]
          exact hL X e2 s2
        · right
          refine ⟨hR.1, hR.2.1, ?_⟩
          rw [genBalL_cons, strToRat_genBal t q hq]
          have := hR.2.2
          omega

theorem lineLoop_ext (s : String) :
    ∀ (ts : List String) (e : Bool) (pt : List ℚ) (acc : List (List ℚ))
      (g : GeomData) (st1 : TokStream),
    lineLoop s ts e pt acc = .ok (g, st1) →
    st1.err = e ∧
      ((∀ (X : List String) (e2 : Bool) (s2 : String),
          lineLoop s2 (ts ++ X) e2 pt acc = .ok (g, ⟨st1.toks ++ X, e2⟩)) ∨
        (st1.toks = [] ∧ e = false ∧ 0 ≤ genBalL ts)) := by
  intro ts
  induction ts with
  | nil =>
    intro e pt acc g st1 h
    simp only [lineLoop] at h
    cases e with
    | true => rw [if_pos rfl] at h; exact absurd h (by simp)
    | false =>
      rw [if_neg (by simp)] at h
      simp only [Except.ok.injEq, Prod.mk.injEq] at h
      obtain ⟨hg, hst⟩ := h
      subst hg
      subst hst
      exact ⟨rfl, Or.inr ⟨rfl, rfl, by rw [genBalL_nil]⟩⟩
  | cons t ts ih =>
    intro e pt acc g st1 h
    simp only [lineLoop] at h
    by_cases ht : t = ")"
    · rw [if_pos ht] at h
      simp only [Except.ok.injEq, Prod.mk.injEq] at h
      obtain ⟨hg, hst⟩ := h
      subst hg
      subst hst
      refine ⟨rfl, Or.inl ?_⟩
      intro X e2 s2
      rw [List.cons_append]
      simp only [lineLoop]
      rw [if_pos ht]
    · rw [if_neg ht] at h
      by_cases hc : t = ","
      · rw [if_pos hc] at h
        obtain ⟨herr, hLR⟩ := ih e [] (acc ++ [pt]) g st1 h
        refine ⟨herr, ?_⟩
        rcases hLR with hL | hR
        · left
          intro X e2 s2
          rw [List.cons_append]
          simp only [lineLoop]
          rw [if_neg ht, if_pos hc]
          exact hL X e2 s2
        · right
          refine ⟨hR.1, hR.2.1, ?_⟩
          rw [genBalL_cons, hc, show genBal "," = 0 from by decide]
          have := hR.2.2
          omega
      · rw [if_neg hc] at h
        cases hq : strToRat t with
        | none => rw [hq] at h; exact absurd h (by simp)
        | some q =>
          rw [hq] at h
          obtain ⟨herr, hLR⟩ := ih e (pt ++ [q]) acc g st1 h
          refine ⟨herr, ?_⟩
          rcases hLR with hL | hR
          · left
            intro X e2 s2
            rw [List.cons_append]
            simp only [lineLoop]
            rw [if_neg ht, if_neg hc, hq]
            exact hL X e2 s2
          · right
            refine ⟨hR.1, hR.2.1, ?_⟩
            rw [genBalL_cons, strToRat_genBal t q hq]
            have := hR.2.2
            omega

theorem polyLoop_ext (s : String) :
    ∀ (ts : List String) (e : Bool) (coords : List (List (List ℚ)))
      (ring : List (List ℚ)) (pt : List ℚ) (onRing : Bool) (g : GeomData)
      (st1 : TokStream),
    polyLoop s ts e coords ring pt onRing = .ok (g, st1) →
    st1.err = e ∧
      ((∀ (X : List String) (e2 : Bool) (s2 : String),
          polyLoop s2 (ts ++ X) e2 coords ring pt onRing
            = .ok (g, ⟨st1.toks ++ X, e2⟩)) ∨
        (st1.toks = [] ∧ e = false ∧
          (if onRing then (-1 : ℤ) else 0) ≤ genBalL ts)) := by
  intro ts
  induction ts with
  | nil =>
    intro e coords ring pt onRing g st1 h
    simp only [polyLoop] at h
    cases e with
    | true => rw [if_pos rfl] at h; exact absurd h (by simp)
    | false =>
      rw [if_neg (by simp)] at h
      simp only [Except.ok.injEq, Prod.mk.injEq] at h
      obtain ⟨hg, hst⟩ := h
      subst hg
      subst hst
      refine ⟨rfl, Or.inr ⟨rfl, rfl, ?_⟩⟩
      rw [genBalL_nil]
      cases onRing <;> simp
  | cons t ts ih =>
    intro e coords ring pt onRing g st1 h
    simp only [polyLoop] at h
    by_cases ht : t = ")"
    · rw [if_pos ht] at h
      cases onRing with
      | true =>
        rw [if_pos rfl] at h
        obtain ⟨herr, hLR⟩ := ih e (coords ++ [ring ++ [pt]]) (ring ++ [pt])
          pt false g st1 h
        refine ⟨herr, ?_⟩
        rcases hLR with hL | hR
        · left
          intro X e2 s2
          rw [List.cons_append]
          simp only [polyLoop]
          rw [if_pos ht]
          simpa using hL X e2 s2
        · right
          refine ⟨hR.1, hR.2.1, ?_⟩
          rw [genBalL_cons, ht, show genBal ")" = -1 from by decide]
          have hb := hR.2.2
          simp at hb ⊢
          omega
      | false =>
        rw [if_neg (by simp)] at h
        simp only [Except.ok.injEq, Prod.mk.injEq] at h
        obtain ⟨hg, hst⟩ := h
        subst hg
        subst hst
        refine ⟨rfl, Or.inl ?_⟩
        intro X e2 s2
        rw [List.cons_append]
        simp only [polyLoop]
        rw [if_pos ht]
        simp
    · rw [if_neg ht] at h
      by_cases hop : t = "("
      · rw [if_pos hop] at h
        obtain ⟨herr, hLR⟩ := ih e coords [] [] true g st1 h
        refine ⟨herr, ?_⟩
        rcases hLR with hL | hR
        · left
          intro X e2 s2
          rw [List.cons_append]
          simp only [polyLoop]
          rw [if_neg ht, if_pos hop]
          exact hL X e2 s2
        · right
          refine ⟨hR.1, hR.2.1, ?_⟩
          rw [genBalL_cons, hop, show genBal "(" = 1 from by decide]
          have hb := hR.2.2
          simp at hb
          cases onRing <;> simp <;> omega
      · rw [if_neg hop] at h
        by_cases hc : t = ","
        · rw [if_pos hc] at h
          cases onRing with
          | true =>
            rw [if_pos rfl] at h
            obtain ⟨herr, hLR⟩ := ih e coords (ring ++ [pt]) [] true g st1 h
            refine ⟨herr, ?_⟩
            rcases hLR with hL | hR
            · left
              intro X e2 s2
              rw [List.cons_append]
              simp only [polyLoop]
              rw [if_neg ht, if_neg hop, if_pos hc]
              simpa using hL X e2 s2
            · right
              refine ⟨hR.1, hR.2.1, ?_⟩
              rw [genBalL_cons, hc, show genBal "," = 0 from by decide]
              have hb := hR.2.2
              simp at hb ⊢
              omega
          | false =>
            rw [if_neg (by simp)] at h
            obtain ⟨herr, hLR⟩ := ih e coords ring pt false g st1 h
            refine ⟨herr, ?_⟩
            rcases hLR with hL | hR
            · left
              intro X e2 s2
              rw [List.cons_append]
              simp only [polyLoop]
              rw [if_neg ht, if_neg hop, if_pos hc]
              simpa using hL X e2 s2
            · right
              refine ⟨hR.1, hR.2.1, ?_⟩
              rw [genBalL_cons, hc, show genBal "," = 0 from by decide]
              have hb := hR.2.2
              simp at hb ⊢
              omega
        · rw [if_neg hc] at h
          cases hq : strToRat t with
          | none => rw [hq] at h; exact absurd h (by simp)
          | some q =>
            rw [hq] at h
            cases onRing with
            | true =>
              obtain ⟨herr, hLR⟩ := ih e coords ring (pt ++ [q]) true g st1 h
              refine ⟨herr, ?_⟩
              rcases hLR with hL | hR
              · left
                intro X e2 s2
                rw [List.cons_append]
                simp only [polyLoop]
                rw [if_neg ht, if_neg hop, if_neg hc, hq]
                simpa using hL X e2 s2
              · right
                refine ⟨hR.1, hR.2.1, ?_⟩
                rw [genBalL_cons, strToRat_genBal t q hq]
                have hb := hR.2.2
                simp at hb ⊢
                omega
            | false =>
              obtain ⟨herr, hLR⟩ := ih e
                (updateLast (updateLast (· ++ [q])) coords)
                (updateLast (· ++ [q]) ring) (pt ++ [q]) false g st1 h
              refine ⟨herr, ?_⟩
              rcases hLR with hL | hR
              · left
                intro X e2 s2
                rw [List.cons_append]
                simp only [polyLoop]
                rw [if_neg ht, if_neg hop, if_neg hc, hq]
                simpa using hL X e2 s2
              · right
                refine ⟨hR.1, hR.2.1, ?_⟩
                rw [genBalL_cons, strToRat_genBal t q hq]
                have hb := hR.2.2
                simp at hb ⊢
                omega

theorem mpLoop_ext (s : String) :
    ∀ (ts : List String) (e : Bool) (dp : ℤ) (pt : List ℚ)
      (acc : List (List ℚ)) (g : GeomData) (st1 : TokStream),
    1 ≤ dp →
    mpLoop s ts e dp pt acc = .ok (g, st1) →
    st1.err = e ∧
      ((∀ (X : List String) (e2 : Bool) (s2 : String),
          mpLoop s2 (ts ++ X) e2 dp pt acc = .ok (g, ⟨st1.toks ++ X, e2⟩)) ∨
        (st1.toks = [] ∧ e = false ∧ 1 - dp ≤ genBalL ts)) := by
  intro ts
  induction ts with
  | nil =>
    intro e dp pt acc g st1 hdp h
    simp only [mpLoop] at h
    cases e with
    | true => rw [if_pos rfl] at h; exact absurd h (by simp)
    | false =>
      rw [if_neg (by simp)] at h
      simp only [Except.ok.injEq, Prod.mk.injEq] at h
      obtain ⟨hg, hst⟩ := h
      subst hg
      subst hst
      refine ⟨rfl, Or.inr ⟨rfl, rfl, ?_⟩⟩
      rw [genBalL_nil]
      omega
  | cons t ts ih =>
    intro e dp pt acc g st1 hdp h
    simp only [mpLoop] at h
    by_cases hop : t = "("
    · rw [if_pos hop] at h
      obtain ⟨herr, hLR⟩ := ih e (dp + 1) pt acc g st1 (by omega) h
      refine ⟨herr, ?_⟩
      rcases hLR with hL | hR
      · left
        intro X e2 s2
        rw [List.cons_append]
        simp only [mpLoop]
        rw [if_pos hop]
        exact hL X e2 s2
      · right
        refine ⟨hR.1, hR.2.1, ?_⟩
        rw [genBalL_cons, hop, show genBal "(" = 1 from by decide]
        have := hR.2.2
        omega
    · rw [if_neg hop] at h
      by_cases ht : t = ")"
      · rw [if_pos ht] at h
        by_cases hz : dp - 1 = 0
        · rw [if_pos hz] at h
          simp only [Except.ok.injEq, Prod.mk.injEq] at h
          obtain ⟨hg, hst⟩ := h
          subst hg
          subst hst
          refine ⟨rfl, Or.inl ?_⟩
          intro X e2 s2
          rw [List.cons_append]
          simp only [mpLoop]
          rw [if_neg hop, if_pos ht, if_pos hz]
        · rw [if_neg hz] at h
          obtain ⟨herr, hLR⟩ := ih e (dp - 1) pt acc g st1 (by omega) h
          refine ⟨herr, ?_⟩
          rcases hLR with hL | hR
          · left
            intro X e2 s2
            rw [List.cons_append]
            simp only [mpLoop]
            rw [if_neg hop, if_pos ht, if_neg hz]
            exact hL X e2 s2
          · right
            refine ⟨hR.1, hR.2.1, ?_⟩
            rw [genBalL_cons, ht, show genBal ")" = -1 from by decide]
            have := hR.2.2
            omega
      · rw [if_neg ht] at h
        by_cases hc : t = ","
        · rw [if_pos hc] at h
          obtain ⟨herr, hLR⟩ := ih e dp [] (acc ++ [pt]) g st1 hdp h
          refine ⟨herr, ?_⟩
          rcases hLR with hL | hR
          · left
            intro X e2 s2
            rw [List.cons_append]
            simp only [mpLoop]
            rw [if_neg hop, if_neg ht, if_pos hc]
            exact hL X e2 s2
          · right
            refine ⟨hR.1, hR.2.1, ?_⟩
            rw [genBalL_cons, hc, show genBal "," = 0 from by decide]
            have := hR.2.2
            omega
        · rw [if_neg hc] at h
          cases hq : strToRat t with
          | none => rw [hq] at h; exact absurd h (by simp)
          | some q =>
            rw [hq] at h
            obtain ⟨herr, hLR⟩ := ih e dp (pt ++ [q]) acc g st1 hdp h
            refine ⟨herr, ?_⟩
            rcases hLR with hL | hR
            · left
              intro X e2 s2
              rw [List.cons_append]
              simp only [mpLoop]
              rw [if_neg hop, if_neg ht, if_neg hc, hq]
              exact hL X e2 s2
            · right
              refine ⟨hR.1, hR.2.1, ?_⟩
              rw [genBalL_cons, strToRat_genBal t q hq]
              have := hR.2.2
              omega

theorem loadPoint_ext (s : String) (ts : List String) (e : Bool)
    (g : GeomData) (st1 : TokStream)
    (h : loadPoint ⟨ts, e⟩ s = .ok (g, st1)) :
    st1.err = e ∧
      ((∀ (X : List String) (e2 : Bool) (s2 : String),
          loadPoint ⟨ts ++ X, e2⟩ s2 = .ok (g, ⟨st1.toks ++ X, e2⟩)) ∨
        (st1.toks = [] ∧ e = false ∧ 1 ≤ genBalL ts)) := by
  cases ts with
  | nil => simp [loadPoint, TokStream.next] at h
  | cons t ts' =>
    simp only [loadPoint, TokStream.next] at h
    by_cases hE : t = "EMPTY"
    · rw [if_pos hE] at h
      simp only [Except.ok.injEq, Prod.mk.injEq] at h
      obtain ⟨hg, hst⟩ := h
      subst hg
      subst hst
      refine ⟨rfl, Or.inl ?_⟩
      intro X e2 s2
      rw [List.cons_append]
      simp only [loadPoint, TokStream.next]
      rw [if_pos hE]
    · rw [if_neg hE] at h
      by_cases hP : t = "("
      · rw [if_neg (show ¬t ≠ "(" from by simp [hP])] at h
        obtain ⟨herr, hLR⟩ := pointLoop_ext s ts' e [] g st1 h
        refine ⟨herr, ?_⟩
        rcases hLR with hL | hR
        · left
          intro X e2 s2
          rw [List.cons_append]
          simp only [loadPoint, TokStream.next]
          rw [if_neg hE, if_neg (show ¬t ≠ "(" from by simp [hP])]
          exact hL X e2 s2
        · right
          refine ⟨hR.1, hR.2.1, ?_⟩
          rw [genBalL_cons, hP, show genBal "(" = 1 from by decide]
          have := hR.2.2
          omega
      · rw [if_pos hP] at h
        exact absurd h (by simp)

theorem loadLinestring_ext (s : String) (ts : List String) (e : Bool)
    (g : GeomData) (st1 : TokStream)
    (h : loadLinestring ⟨ts, e⟩ s = .ok (g, st1)) :
    st1.err = e ∧
      ((∀ (X : List String) (e2 : Bool) (s2 : String),
          loadLinestring ⟨ts ++ X, e2⟩ s2 = .ok (g, ⟨st1.toks ++ X, e2⟩)) ∨
        (st1.toks = [] ∧ e = false ∧ 1 ≤ genBalL ts)) := by
  cases ts with
  | nil => simp [loadLinestring, TokStream.next] at h
  | cons t ts' =>
    simp only [loadLinestring, TokStream.next] at h
    by_cases hE : t = "EMPTY"
    · rw [if_pos hE] at h
      simp only [Except.ok.injEq, Prod.mk.injEq] at h
      obtain ⟨hg, hst⟩ := h
      subst hg
      subst hst
      refine ⟨rfl, Or.inl ?_⟩
      intro X e2 s2
      rw [List.cons_append]
      simp only [loadLinestring, TokStream.next]
      rw [if_pos hE]
    · rw [if_neg hE] at h
      by_cases hP : t = "("
      · rw [if_neg (show ¬t ≠ "(" from by simp [hP])] at h
        obtain ⟨herr, hLR⟩ := lineLoop_ext s ts' e [] [] g st1 h
        refine ⟨herr, ?_⟩
        rcases hLR with hL | hR
        · left
          intro X e2 s2
          rw [List.cons_append]
          simp only [loadLinestring, TokStream.next]
          rw [if_neg hE, if_neg (show ¬t ≠ "(" from by simp [hP])]
          exact hL X e2 s2
        · right
          refine ⟨hR.1, hR.2.1, ?_⟩
          rw [genBalL_cons, hP, show genBal "(" = 1 from by decide]
          have := hR.2.2
          omega
      · rw [if_pos hP] at h
        exact absurd h (by simp)

theorem loadPolygon_ext (s : String) (ts : List String) (e : Bool)
    (g : GeomData) (st1 : TokStream)
    (h : loadPolygon ⟨ts, e⟩ s = .ok (g, st1)) :
    st1.err = e ∧
      ((∀ (X : List String) (e2 : Bool) (s2 : String),
          loadPolygon ⟨ts ++ X, e2⟩ s2 = .ok (g, ⟨st1.toks ++ X, e2⟩)) ∨
        (st1.toks = [] ∧ e = false ∧ 1 ≤ genBalL ts)) := by
  cases ts with
  | nil => simp [loadPolygon, TokStream.next] at h
  | cons t ts' =>
    simp only [loadPolygon, TokStream.next] at h
    by_cases hE : t = "EMPTY"
    · rw [if_pos hE] at h
      simp only [Except.ok.injEq, Prod.mk.injEq] at h
      obtain ⟨hg, hst⟩ := h
      subst hg
      subst hst
      refine ⟨rfl, Or.inl ?_⟩
      intro X e2 s2
      rw [List.cons_append]
      simp only [loadPolygon, TokStream.next]
      rw [if_pos hE]
    · rw [if_neg hE] at h
      cases ts' with
      | nil => simp at h
      | cons t2 ts2 =>
        simp only [] at h
        by_cases hP : t2 = "(" ∧ t = "("
        · rw [if_neg (show ¬¬(t2 = "(" ∧ t = "(") from not_not.mpr hP)] at h
          obtain ⟨herr, hLR⟩ := polyLoop_ext s ts2 e [] [] [] true g st1 h
          refine ⟨herr, ?_⟩
          rcases hLR with hL | hR
          · left
            intro X e2 s2
            rw [List.cons_append, List.cons_append]
            simp only [loadPolygon, TokStream.next]
            rw [if_neg hE,
              if_neg (show ¬¬(t2 = "(" ∧ t = "(") from not_not.mpr hP)]
            exact hL X e2 s2
          · right
            refine ⟨hR.1, hR.2.1, ?_⟩
            rw [genBalL_cons, genBalL_cons, hP.1, hP.2,
              show genBal "(" = 1 from by decide]
            have := hR.2.2
            simp only [reduceIte] at this
            omega
        · rw [if_pos hP] at h
          exact absurd h (by simp)

theorem loadMultipoint_ext (s : String) (ts : List String) (e : Bool)
    (g : GeomData) (st1 : TokStream)
    (h : loadMultipoint ⟨ts, e⟩ s = .ok (g, st1)) :
    st1.err = e ∧
      ((∀ (X : List String) (e2 : Bool) (s2 : String),
          loadMultipoint ⟨ts ++ X, e2⟩ s2 = .ok (g, ⟨st1.toks ++ X, e2⟩)) ∨
        (st1.toks = [] ∧ e = false ∧ 1 ≤ genBalL ts)) := by
  cases ts with
  | nil => simp [loadMultipoint, TokStream.next] at h
  | cons t ts' =>
    simp only [loadMultipoint, TokStream.next] at h
    by_cases hE : t = "EMPTY"
    · rw [if_pos hE] at h
      simp only [Except.ok.injEq, Prod.mk.injEq] at h
      obtain ⟨hg, hst⟩ := h
      subst hg
      subst hst
      refine ⟨rfl, Or.inl ?_⟩
      intro X e2 s2
      rw [List.cons_append]
      simp only [loadMultipoint, TokStream.next]
      rw [if_pos hE]
    · rw [if_neg hE] at h
      by_cases hP : t = "("
      · rw [if_neg (show ¬t ≠ "(" from by simp [hP])] at h
        obtain ⟨herr, hLR⟩ := mpLoop_ext s ts' e 1 [] [] g st1 (by norm_num) h
        refine ⟨herr, ?_⟩
        rcases hLR with hL | hR
        · left
          intro X e2 s2
          rw [List.cons_append]
          simp only [loadMultipoint, TokStream.next]
          rw [if_neg hE, if_neg (show ¬t ≠ "(" from by simp [hP])]
          exact hL X e2 s2
        · right
          refine ⟨hR.1, hR.2.1, ?_⟩
          rw [genBalL_cons, hP, show genBal "(" = 1 from by decide]
          have := hR.2.2
          omega
      · rw [if_pos hP] at h
        exact absurd h (by simp)

theorem next_ok_spec (st : TokStream) (t : String) (st2 : TokStream)
    (h : st.next = .ok (t, st2)) :
    st.toks = t :: st2.toks ∧ st2.err = st.err := by
  unfold TokStream.next at h
  cases htoks : st.toks with
  | nil => rw [htoks] at h; simp at h
  | cons a as =>
    rw [htoks] at h
    simp only [Except.ok.injEq, Prod.mk.injEq] at h
    obtain ⟨h1, h2⟩ := h
    subst h1
    rw [← h2]
    exact ⟨rfl, rfl⟩

theorem mlsLoop_not_ok_of_err (s : String) (st : TokStream)
    (acc : List (List (List ℚ))) (err : PyErr)
    (hl : loadLinestring st s = .error err) (g : GeomData)
    (st1 : TokStream) : mlsLoop s st acc ≠ .ok (g, st1) := by
  intro h
  rw [mlsLoop] at h
  split at h
  · simp at h
  · simp at h
  · simp at h
  · rename_i g1 st1' heq
    rw [hl] at heq
    simp at heq

theorem mlsLoop_not_ok_of_next_err (s : String) (st : TokStream)
    (acc : List (List (List ℚ))) (g1 : GeomData) (st1' : TokStream)
    (err : PyErr) (hl : loadLinestring st s = .ok (g1, st1'))
    (hn : st1'.next = .error err) (g : GeomData) (st1 : TokStream) :
    mlsLoop s st acc ≠ .ok (g, st1) := by
  intro h
  rw [mlsLoop] at h
  split at h
  · simp at h
  · simp at h
  · simp at h
  · rename_i g2 st2' heq
    rw [hl] at heq
    simp only [Except.ok.injEq, Prod.mk.injEq] at heq
    obtain ⟨h1, h2⟩ := heq
    subst h1
    subst h2
    split at h
    · simp at h
    · simp at h
    · simp at h
    · rename_i t' st2'' heq2
      rw [hn] at heq2
      simp at heq2

theorem mlsLoop_ext (s : String) :
    ∀ (n : ℕ) (ts : List String) (e : Bool) (acc : List (List (List ℚ)))
      (g : GeomData) (st1 : TokStream),
    ts.length ≤ n →
    mlsLoop s ⟨ts, e⟩ acc = .ok (g, st1) →
    st1.err = e ∧
      ∀ (X : List String) (e2 : Bool) (s2 : String),
        mlsLoop s2 ⟨ts ++ X, e2⟩ acc = .ok (g, ⟨st1.toks ++ X, e2⟩) := by
  intro n
  induction n with
  | zero =>
    intro ts e acc g st1 hlen h
    cases hl : loadLinestring ⟨ts, e⟩ s with
    | error err => exact absurd h (mlsLoop_not_ok_of_err s _ acc err hl g st1)
    | ok r =>
      obtain ⟨g1, st1'⟩ := r
      have := loadLinestring_consumes ⟨ts, e⟩ s g1 st1' hl
      simp only [] at this
      omega
  | succ n ih =>
    intro ts e acc g st1 hlen h
    cases hl : loadLinestring ⟨ts, e⟩ s with
    | error err => exact absurd h (mlsLoop_not_ok_of_err s _ acc err hl g st1)
    | ok r =>
      obtain ⟨g1, st1'⟩ := r
      cases hn : st1'.next with
      | error err =>
        exact absurd h
          (mlsLoop_not_ok_of_next_err s _ acc g1 st1' err hl hn g st1)
      | ok r2 =>
        obtain ⟨t, st2⟩ := r2
        rw [mlsLoop_step s ⟨ts, e⟩ acc g1 t st1' st2 hl hn] at h
        obtain ⟨herr1, hLR⟩ := loadLinestring_ext s ts e g1 st1' hl
        obtain ⟨htoks1, herr2⟩ := next_ok_spec st1' t st2 hn
        have hL : ∀ (X : List String) (e2 : Bool) (s2 : String),
            loadLinestring ⟨ts ++ X, e2⟩ s2
              = .ok (g1, ⟨st1'.toks ++ X, e2⟩) := by
          rcases hLR with hL | hR
          · exact hL
          · rw [hR.1] at htoks1
            simp at htoks1
        have hnext : ∀ (X : List String) (e2 : Bool),
            (⟨st1'.toks ++ X, e2⟩ : TokStream).next
              = .ok (t, ⟨st2.toks ++ X, e2⟩) := by
          intro X e2
          rw [htoks1]
          simp [TokStream.next]
        by_cases ht : t = ")"
        · rw [if_pos ht] at h
          simp only [Except.ok.injEq, Prod.mk.injEq] at h
          obtain ⟨hg, hst⟩ := h
          subst hg
          subst hst
          constructor
          · rw [herr2, herr1]
          · intro X e2 s2
            rw [mlsLoop_step s2 ⟨ts ++ X, e2⟩ acc g1 t
              ⟨st1'.toks ++ X, e2⟩ ⟨st2.toks ++ X, e2⟩ (hL X e2 s2)
              (hnext X e2)]
            rw [if_pos ht]
        · rw [if_neg ht] at h
          have hst2 : st2 = ⟨st2.toks, e⟩ := by
            have : st2.err = e := by rw [herr2, herr1]
            cases st2
            simp only [] at this ⊢
            rw [this]
          rw [hst2] at h
          have hcons := loadLinestring_consumes ⟨ts, e⟩ s g1 st1' hl
          simp only [] at hcons
          have hlen2 : st2.toks.length ≤ n := by
            have h3 : st1'.toks.length = st2.toks.length + 1 := by
              rw [htoks1]
              simp
            omega
          obtain ⟨herr3, hext⟩ := ih st2.toks e (acc ++ [lsCoords g1]) g st1
            hlen2 h
          refine ⟨herr3, ?_⟩
          intro X e2 s2
          rw [mlsLoop_step s2 ⟨ts ++ X, e2⟩ acc g1 t
            ⟨st1'.toks ++ X, e2⟩ ⟨st2.toks ++ X, e2⟩ (hL X e2 s2) (hnext X e2)]
          rw [if_neg ht]
          exact hext X e2 s2

theorem mpolyLoop_not_ok_of_err (s : String) (st : TokStream)
    (acc : List (List (List (List ℚ)))) (err : PyErr)
    (hl : loadPolygon st s = .error err) (g : GeomData)
    (st1 : TokStream) : mpolyLoop s st acc ≠ .ok (g, st1) := by
  intro h
  rw [mpolyLoop] at h
  split at h
  · simp at h
  · simp at h
  · simp at h
  · rename_i g1 st1' heq
    rw [hl] at heq
    simp at heq

theorem mpolyLoop_not_ok_of_next_err (s : String) (st : TokStream)
    (acc : List (List (List (List ℚ)))) (g1 : GeomData) (st1' : TokStream)
    (err : PyErr) (hl : loadPolygon st s = .ok (g1, st1'))
    (hn : st1'.next = .error err) (g : GeomData) (st1 : TokStream) :
    mpolyLoop s st acc ≠ .ok (g, st1) := by
  intro h
  rw [mpolyLoop] at h
  split at h
  · simp at h
  · simp at h
  · simp at h
  · rename_i g2 st2' heq
    rw [hl] at heq
    simp only [Except.ok.injEq, Prod.mk.injEq] at heq
    obtain ⟨h1, h2⟩ := heq
    subst h1
    subst h2
    split at h
    · simp at h
    · simp at h
    · simp at h
    · rename_i t' st2'' heq2
      rw [hn] at heq2
      simp at heq2

theorem mpolyLoop_ext (s : String) :
    ∀ (n : ℕ) (ts : List String) (e : Bool)
      (acc : List (List (List (List ℚ)))) (g : GeomData) (st1 : TokStream),
    ts.length ≤ n →
    mpolyLoop s ⟨ts, e⟩ acc = .ok (g, st1) →
    st1.err = e ∧
      ∀ (X : List String) (e2 : Bool) (s2 : String),
        mpolyLoop s2 ⟨ts ++ X, e2⟩ acc = .ok (g, ⟨st1.toks ++ X, e2⟩) := by
  intro n
  induction n with
  | zero =>
    intro ts e acc g st1 hlen h
    cases hl : loadPolygon ⟨ts, e⟩ s with
    | error err => exact absurd h (mpolyLoop_not_ok_of_err s _ acc err hl g st1)
    | ok r =>
      obtain ⟨g1, st1'⟩ := r
      have := loadPolygon_consumes ⟨ts, e⟩ s g1 st1' hl
      simp only [] at this
      omega
  | succ n ih =>
    intro ts e acc g st1 hlen h
    cases hl : loadPolygon ⟨ts, e⟩ s with
    | error err => exact absurd h (mpolyLoop_not_ok_of_err s _ acc err hl g st1)
    | ok r =>
      obtain ⟨g1, st1'⟩ := r
      cases hn : st1'.next with
      | error err =>
        exact absurd h
          (mpolyLoop_not_ok_of_next_err s _ acc g1 st1' err hl hn g st1)
      | ok r2 =>
        obtain ⟨t, st2⟩ := r2
        rw [mpolyLoop_step s ⟨ts, e⟩ acc g1 t st1' st2 hl hn] at h
        obtain ⟨herr1, hLR⟩ := loadPolygon_ext s ts e g1 st1' hl
        obtain ⟨htoks1, herr2⟩ := next_ok_spec st1' t st2 hn
        have hL : ∀ (X : List String) (e2 : Bool) (s2 : String),
            loadPolygon ⟨ts ++ X, e2⟩ s2
              = .ok (g1, ⟨st1'.toks ++ X, e2⟩) := by
          rcases hLR with hL | hR
          · exact hL
          · rw [hR.1] at htoks1
            simp at htoks1
        have hnext : ∀ (X : List String) (e2 : Bool),
            (⟨st1'.toks ++ X, e2⟩ : TokStream).next
              = .ok (t, ⟨st2.toks ++ X, e2⟩) := by
          intro X e2
          rw [htoks1]
          simp [TokStream.next]
        by_cases ht : t = ")"
        · rw [if_pos ht] at h
          simp only [Except.ok.injEq, Prod.mk.injEq] at h
          obtain ⟨hg, hst⟩ := h
          subst hg
          subst hst
          constructor
          · rw [herr2, herr1]
          · intro X e2 s2
            rw [mpolyLoop_step s2 ⟨ts ++ X, e2⟩ acc g1 t
              ⟨st1'.toks ++ X, e2⟩ ⟨st2.toks ++ X, e2⟩ (hL X e2 s2)
              (hnext X e2)]
            rw [if_pos ht]
        · rw [if_neg ht] at h
          have hst2 : st2 = ⟨st2.toks, e⟩ := by
            have : st2.err = e := by rw [herr2, herr1]
            cases st2
            simp only [] at this ⊢
            rw [this]
          rw [hst2] at h
          have hcons := loadPolygon_consumes ⟨ts, e⟩ s g1 st1' hl
          simp only [] at hcons
          have hlen2 : st2.toks.length ≤ n := by
            have h3 : st1'.toks.length = st2.toks.length + 1 := by
              rw [htoks1]
              simp
            omega
          obtain ⟨herr3, hext⟩ := ih st2.toks e (acc ++ [polyCoords g1]) g st1
            hlen2 h
          refine ⟨herr3, ?_⟩
          intro X e2 s2
          rw [mpolyLoop_step s2 ⟨ts ++ X, e2⟩ acc g1 t
            ⟨st1'.toks ++ X, e2⟩ ⟨st2.toks ++ X, e2⟩ (hL X e2 s2) (hnext X e2)]
          rw [if_neg ht]
          exact hext X e2 s2

theorem loadMultilinestring_ext (s : String) (ts : List String) (e : Bool)
    (g : GeomData) (st1 : TokStream)
    (h : loadMultilinestring ⟨ts, e⟩ s = .ok (g, st1)) :
    st1.err = e ∧
      ∀ (X : List String) (e2 : Bool) (s2 : String),
        loadMultilinestring ⟨ts ++ X, e2⟩ s2 = .ok (g, ⟨st1.toks ++ X, e2⟩) := by
  cases ts with
  | nil => simp [loadMultilinestring, TokStream.next] at h
  | cons t ts' =>
    simp only [loadMultilinestring, TokStream.next] at h
    by_cases hE : t = "EMPTY"
    · rw [if_pos hE] at h
      simp only [Except.ok.injEq, Prod.mk.injEq] at h
      obtain ⟨hg, hst⟩ := h
      subst hg
      subst hst
      refine ⟨rfl, ?_⟩
      intro X e2 s2
      rw [List.cons_append]
      simp only [loadMultilinestring, TokStream.next]
      rw [if_pos hE]
    · rw [if_neg hE] at h
      by_cases hP : t = "("
      · rw [if_neg (show ¬t ≠ "(" from by simp [hP])] at h
        obtain ⟨herr, hext⟩ :=
          mlsLoop_ext s ts'.length ts' e [] g st1 le_rfl h
        refine ⟨herr, ?_⟩
        intro X e2 s2
        rw [List.cons_append]
        simp only [loadMultilinestring, TokStream.next]
        rw [if_neg hE, if_neg (show ¬t ≠ "(" from by simp [hP])]
        exact hext X e2 s2
      · rw [if_pos hP] at h
        exact absurd h (by simp)

theorem loadMultipolygon_ext (s : String) (ts : List String) (e : Bool)
    (g : GeomData) (st1 : TokStream)
    (h : loadMultipolygon ⟨ts, e⟩ s = .ok (g, st1)) :
    st1.err = e ∧
      ∀ (X : List String) (e2 : Bool) (s2 : String),
        loadMultipolygon ⟨ts ++ X, e2⟩ s2 = .ok (g, ⟨st1.toks ++ X, e2⟩) := by
  cases ts with
  | nil => simp [loadMultipolygon, TokStream.next] at h
  | cons t ts' =>
    simp only [loadMultipolygon, TokStream.next] at h
    by_cases hE : t = "EMPTY"
    · rw [if_pos hE] at h
      simp only [Except.ok.injEq, Prod.mk.injEq] at h
      obtain ⟨hg, hst⟩ := h
      subst hg
      subst hst
      refine ⟨rfl, ?_⟩
      intro X e2 s2
      rw [List.cons_append]
      simp only [loadMultipolygon, TokStream.next]
      rw [if_pos hE]
    · rw [if_neg hE] at h
      by_cases hP : t = "("
      · rw [if_neg (show ¬t ≠ "(" from by simp [hP])] at h
        obtain ⟨herr, hext⟩ :=
          mpolyLoop_ext s ts'.length ts' e [] g st1 le_rfl h
        refine ⟨herr, ?_⟩
        intro X e2 s2
        rw [List.cons_append]
        simp only [loadMultipolygon, TokStream.next]
        rw [if_neg hE, if_neg (show ¬t ≠ "(" from by simp [hP])]
        exact hext X e2 s2
      · rw [if_pos hP] at h
        exact absurd h (by simp)

theorem gcLoop_empty (s : String) (e : Bool) (acc : List GeomData) :
    gcLoop ⟨[], e⟩ s acc = .error (.valueError (invalidWkt s)) := by
  rw [gcLoop]
  split
  · rfl
  · rename_i t st1 heq
    simp [TokStream.next] at heq

theorem gc_ext (s : String) :
    ∀ (n : ℕ),
      (∀ (ts : List String) (e : Bool) (g : GeomData) (st1 : TokStream),
        ts.length ≤ n →
        loadGeometrycollection ⟨ts, e⟩ s = .ok (g, st1) →
        st1.err = e ∧
          ∀ (X : List String) (e2 : Bool) (s2 : String),
            loadGeometrycollection ⟨ts ++ X, e2⟩ s2
              = .ok (g, ⟨st1.toks ++ X, e2⟩)) ∧
      (∀ (ts : List String) (e : Bool) (acc : List GeomData) (g : GeomData)
        (st1 : TokStream),
        ts.length ≤ n →
        gcLoop ⟨ts, e⟩ s acc = .ok (g, st1) →
        st1.err = e ∧
          ∀ (X : List String) (e2 : Bool) (s2 : String),
            gcLoop ⟨ts ++ X, e2⟩ s2 acc = .ok (g, ⟨st1.toks ++ X, e2⟩)) := by
  intro n
  induction n with
  | zero =>
    constructor
    · intro ts e g st1 hlen h
      have hts : ts = [] := List.length_eq_zero.mp (Nat.le_zero.mp hlen)
      subst hts
      rw [loadGeometrycollection] at h
      split at h
      · simp at h
      · rename_i t st1' heq
        simp [TokStream.next] at heq
    · intro ts e acc g st1 hlen h
      have hts : ts = [] := List.length_eq_zero.mp (Nat.le_zero.mp hlen)
      subst hts
      rw [gcLoop_empty] at h
      simp at h
  | succ n ih =>
    constructor
    · -- loadGeometrycollection
      intro ts e g st1 hlen h
      cases ts with
      | nil =>
        rw [loadGeometrycollection] at h
        split at h
        · simp at h
        · rename_i t st1' heq
          simp [TokStream.next] at heq
      | cons t ts' =>
        rw [loadGeometrycollection] at h
        split at h
        · rename_i heq
          simp [TokStream.next] at heq
        · rename_i t0 st0 heq
          simp only [TokStream.next, Except.ok.injEq, Prod.mk.injEq] at heq
          obtain ⟨rfl, rfl⟩ := heq
          by_cases hE : t = "EMPTY"
          · rw [if_pos hE] at h
            simp only [Except.ok.injEq, Prod.mk.injEq] at h
            obtain ⟨hg, hst⟩ := h
            subst hg
            subst hst
            refine ⟨rfl, ?_⟩
            intro X e2 s2
            rw [loadGeometrycollection]
            split
            · rename_i heq2
              simp [TokStream.next] at heq2
            · rename_i t1 st1x heq2
              simp only [TokStream.next, Except.ok.injEq,
                Prod.mk.injEq] at heq2
              obtain ⟨rfl, rfl⟩ := heq2
              rw [if_pos hE]
              rfl
          · rw [if_neg hE] at h
            by_cases hP : t = "("
            · rw [if_neg (show ¬t ≠ "(" from by simp [hP])] at h
              obtain ⟨herr, hext⟩ := (ih).2 ts' e [] g st1 (by
                simp at hlen
                omega) h
              refine ⟨herr, ?_⟩
              intro X e2 s2
              rw [loadGeometrycollection]
              split
              · rename_i heq2
                simp [TokStream.next] at heq2
              · rename_i t1 st1x heq2
                simp only [TokStream.next, Except.ok.injEq,
                  Prod.mk.injEq] at heq2
                obtain ⟨rfl, rfl⟩ := heq2
                rw [if_neg hE, if_neg (show ¬t ≠ "(" from by simp [hP])]
                exact hext X e2 s2
            · rw [if_pos hP] at h
              simp at h
    · -- gcLoop
      intro ts e acc g st1 hlen h
      cases ts with
      | nil =>
        rw [gcLoop_empty] at h
        simp at h
      | cons t ts' =>
        rw [gcLoop] at h
        split at h
        · simp at h
        · rename_i t0 st0 heq
          simp only [TokStream.next, Except.ok.injEq, Prod.mk.injEq] at heq
          obtain ⟨rfl, rfl⟩ := heq
          by_cases hcl : t = ")"
          · rw [if_pos hcl] at h
            simp only [Except.ok.injEq, Prod.mk.injEq] at h
            obtain ⟨hg, hst⟩ := h
            subst hg
            subst hst
            refine ⟨rfl, ?_⟩
            intro X e2 s2
            rw [gcLoop]
            split
            · rename_i heq2
              simp [TokStream.next] at heq2
            · rename_i t1 st1x heq2
              simp only [TokStream.next, Except.ok.injEq,
                Prod.mk.injEq] at heq2
              obtain ⟨rfl, rfl⟩ := heq2
              rw [if_pos hcl]
              rfl
          · rw [if_neg hcl] at h
            by_cases hcm : t = ","
            · rw [if_pos hcm] at h
              obtain ⟨herr, hext⟩ := (ih).2 ts' e acc g st1 (by
                simp at hlen
                omega) h
              refine ⟨herr, ?_⟩
              intro X e2 s2
              rw [gcLoop]
              split
              · rename_i heq2
                simp [TokStream.next] at heq2
              · rename_i t1 st1x heq2
                simp only [TokStream.next, Except.ok.injEq,
                  Prod.mk.injEq] at heq2
                obtain ⟨rfl, rfl⟩ := heq2
                rw [if_neg hcl, if_pos hcm]
                exact hext X e2 s2
            · rw [if_neg hcm] at h
              -- member dispatch
              cases hrr : (if t = "POINT" then loadPoint ⟨ts', e⟩ s
                  else if t = "LINESTRING" then loadLinestring ⟨ts', e⟩ s
                  else if t = "POLYGON" then loadPolygon ⟨ts', e⟩ s
                  else if t = "MULTIPOINT" then loadMultipoint ⟨ts', e⟩ s
                  else if t = "MULTILINESTRING" then
                    loadMultilinestring ⟨ts', e⟩ s
                  else if t = "MULTIPOLYGON" then loadMultipolygon ⟨ts', e⟩ s
                  else if t = "GEOMETRYCOLLECTION" then
                    loadGeometrycollection ⟨ts', e⟩ s
                  else .error .typeError) with
              | error err =>
                cases err <;> simp only [hrr] at h <;> simp at h
              | ok p =>
                obtain ⟨g1, st2⟩ := p
                have heqm := hrr
                simp only [hrr] at h
                have hmember : st2.err = e ∧
                    ((∀ (X : List String) (e2 : Bool) (s2 : String),
                      (if t = "POINT" then loadPoint ⟨ts' ++ X, e2⟩ s2
                       else if t = "LINESTRING" then
                        loadLinestring ⟨ts' ++ X, e2⟩ s2
                       else if t = "POLYGON" then loadPolygon ⟨ts' ++ X, e2⟩ s2
                       else if t = "MULTIPOINT" then
                        loadMultipoint ⟨ts' ++ X, e2⟩ s2
                       else if t = "MULTILINESTRING" then
                        loadMultilinestring ⟨ts' ++ X, e2⟩ s2
                       else if t = "MULTIPOLYGON" then
                        loadMultipolygon ⟨ts' ++ X, e2⟩ s2
                       else if t = "GEOMETRYCOLLECTION" then
                        loadGeometrycollection ⟨ts' ++ X, e2⟩ s2
                       else .error .typeError)
                        = .ok (g1, ⟨st2.toks ++ X, e2⟩)) ∨
                      st2.toks = []) := by
                  by_cases h1 : t = "POINT"
                  · rw [if_pos h1] at heqm
                    obtain ⟨herr, hLR⟩ := loadPoint_ext s ts' e g1 st2 heqm
                    refine ⟨herr, ?_⟩
                    rcases hLR with hL | hR
                    · left
                      intro X e2 s2
                      rw [if_pos h1]
                      exact hL X e2 s2
                    · right; exact hR.1
                  rw [if_neg h1] at heqm
                  by_cases h2 : t = "LINESTRING"
                  · rw [if_pos h2] at heqm
                    obtain ⟨herr, hLR⟩ := loadLinestring_ext s ts' e g1 st2 heqm
                    refine ⟨herr, ?_⟩
                    rcases hLR with hL | hR
                    · left
                      intro X e2 s2
                      rw [if_neg h1, if_pos h2]
                      exact hL X e2 s2
                    · right; exact hR.1
                  rw [if_neg h2] at heqm
                  by_cases h3 : t = "POLYGON"
                  · rw [if_pos h3] at heqm
                    obtain ⟨herr, hLR⟩ := loadPolygon_ext s ts' e g1 st2 heqm
                    refine ⟨herr, ?_⟩
                    rcases hLR with hL | hR
                    · left
                      intro X e2 s2
                      rw [if_neg h1, if_neg h2, if_pos h3]
                      exact hL X e2 s2
                    · right; exact hR.1
                  rw [if_neg h3] at heqm
                  by_cases h4 : t = "MULTIPOINT"
                  · rw [if_pos h4] at heqm
                    obtain ⟨herr, hLR⟩ := loadMultipoint_ext s ts' e g1 st2 heqm
                    refine ⟨herr, ?_⟩
                    rcases hLR with hL | hR
                    · left
                      intro X e2 s2
                      rw [if_neg h1, if_neg h2, if_neg h3, if_pos h4]
                      exact hL X e2 s2
                    · right; exact hR.1
                  rw [if_neg h4] at heqm
                  by_cases h5 : t = "MULTILINESTRING"
                  · rw [if_pos h5] at heqm
                    obtain ⟨herr, hext⟩ :=
                      loadMultilinestring_ext s ts' e g1 st2 heqm
                    refine ⟨herr, Or.inl ?_⟩
                    intro X e2 s2
                    rw [if_neg h1, if_neg h2, if_neg h3, if_neg h4,
                      if_pos h5]
                    exact hext X e2 s2
                  rw [if_neg h5] at heqm
                  by_cases h6 : t = "MULTIPOLYGON"
                  · rw [if_pos h6] at heqm
                    obtain ⟨herr, hext⟩ :=
                      loadMultipolygon_ext s ts' e g1 st2 heqm
                    refine ⟨herr, Or.inl ?_⟩
                    intro X e2 s2
                    rw [if_neg h1, if_neg h2, if_neg h3, if_neg h4,
                      if_neg h5, if_pos h6]
                    exact hext X e2 s2
                  rw [if_neg h6] at heqm
                  by_cases h7 : t = "GEOMETRYCOLLECTION"
                  · rw [if_pos h7] at heqm
                    obtain ⟨herr, hext⟩ := (ih).1 ts' e g1 st2 (by
                      simp at hlen
                      omega) heqm
                    refine ⟨herr, Or.inl ?_⟩
                    intro X e2 s2
                    rw [if_neg h1, if_neg h2, if_neg h3, if_neg h4,
                      if_neg h5, if_neg h6, if_pos h7]
                    exact hext X e2 s2
                  rw [if_neg h7] at heqm
                  simp at heqm
                obtain ⟨herr2, hMLR⟩ := hmember
                rcases hMLR with hML | hMR
                · split at h
                  · rename_i hguard
                    have hst2 : st2 = ⟨st2.toks, e⟩ := by
                      cases st2
                      simp only [] at herr2 ⊢
                      rw [herr2]
                    rw [hst2] at h
                    obtain ⟨herr3, hext3⟩ := (ih).2 st2.toks e (acc ++ [g1])
                      g st1 (by
                        simp only [List.length_cons] at hguard hlen ⊢
                        omega) h
                    refine ⟨herr3, ?_⟩
                    intro X e2 s2
                    rw [gcLoop]
                    split
                    · rename_i heq2
                      simp [TokStream.next] at heq2
                    · rename_i t1 st1x heq2
                      simp only [TokStream.next, Except.ok.injEq,
                        Prod.mk.injEq] at heq2
                      obtain ⟨rfl, rfl⟩ := heq2
                      simp only [List.append_eq]
                      rw [if_neg hcl, if_neg hcm]
                      simp only [hML X e2 s2]
                      rw [dif_pos (by
                        simp only [List.length_append, List.length_cons]
                        simp only [List.length_cons] at hguard
                        omega)]
                      exact hext3 X e2 s2
                  · rename_i hguard
                    simp at h
                · have hst2 : st2 = ⟨[], st2.err⟩ := by
                    cases st2
                    simp only [] at hMR ⊢
                    rw [hMR]
                  split at h
                  · rename_i hguard
                    rw [hst2] at h
                    rw [gcLoop_empty] at h
                    simp at h
                  · rename_i hguard
                    simp at h

theorem loadGeometrycollection_ext (s : String) (ts : List String) (e : Bool)
    (g : GeomData) (st1 : TokStream)
    (h : loadGeometrycollection ⟨ts, e⟩ s = .ok (g, st1)) :
    st1.err = e ∧
      ∀ (X : List String) (e2 : Bool) (s2 : String),
        loadGeometrycollection ⟨ts ++ X, e2⟩ s2
          = .ok (g, ⟨st1.toks ++ X, e2⟩) :=
  (gc_ext s ts.length).1 ts e g st1 le_rfl h

theorem loadsRegistry_ext (s : String) (t0 : String)
    (imp : TokStream → String → Except PyErr (GeomData × TokStream))
    (hreg : loadsRegistry t0 = some imp)
    (ts : List String) (e : Bool) (g : GeomData) (st1 : TokStream)
    (hb : e = false → genBalL ts ≤ 0)
    (h : imp ⟨ts, e⟩ s = .ok (g, st1)) :
    ∀ (X : List String) (e2 : Bool) (s2 : String),
      imp ⟨ts ++ X, e2⟩ s2 = .ok (g, ⟨st1.toks ++ X, e2⟩) := by
  unfold loadsRegistry at hreg
  by_cases h1 : t0 = "POINT"
  · rw [if_pos h1] at hreg
    injection hreg with hreg
    subst hreg
    obtain ⟨herr, hLR⟩ := loadPoint_ext s ts e g st1 h
    rcases hLR with hL | hR
    · exact hL
    · exact absurd (hb hR.2.1) (by have := hR.2.2; omega)
  rw [if_neg h1] at hreg
  by_cases h2 : t0 = "LINESTRING"
  · rw [if_pos h2] at hreg
    injection hreg with hreg
    subst hreg
    obtain ⟨herr, hLR⟩ := loadLinestring_ext s ts e g st1 h
    rcases hLR with hL | hR
    · exact hL
    · exact absurd (hb hR.2.1) (by have := hR.2.2; omega)
  rw [if_neg h2] at hreg
  by_cases h3 : t0 = "POLYGON"
  · rw [if_pos h3] at hreg
    injection hreg with hreg
    subst hreg
    obtain ⟨herr, hLR⟩ := loadPolygon_ext s ts e g st1 h
    rcases hLR with hL | hR
    · exact hL
    · exact absurd (hb hR.2.1) (by have := hR.2.2; omega)
  rw [if_neg h3] at hreg
  by_cases h4 : t0 = "MULTIPOINT"
  · rw [if_pos h4] at hreg
    injection hreg with hreg
    subst hreg
    obtain ⟨herr, hLR⟩ := loadMultipoint_ext s ts e g st1 h
    rcases hLR with hL | hR
    · exact hL
    · exact absurd (hb hR.2.1) (by have := hR.2.2; omega)
  rw [if_neg h4] at hreg
  by_cases h5 : t0 = "MULTILINESTRING"
  · rw [if_pos h5] at hreg
    injection hreg with hreg
    subst hreg
    exact (loadMultilinestring_ext s ts e g st1 h).2
  rw [if_neg h5] at hreg
  by_cases h6 : t0 = "MULTIPOLYGON"
  · rw [if_pos h6] at hreg
    injection hreg with hreg
    subst hreg
    exact (loadMultipolygon_ext s ts e g st1 h).2
  rw [if_neg h6] at hreg
  by_cases h7 : t0 = "GEOMETRYCOLLECTION"
  · rw [if_pos h7] at hreg
    injection hreg with hreg
    subst hreg
    exact (loadGeometrycollection_ext s ts e g st1 h).2
  rw [if_neg h7] at hreg
  exact absurd hreg (by simp)

theorem loadsT_ext (s : String) (S : List String) (e : Bool) (obj : GeoObj)
    (hbal : e = decide (0 < genBalL S))
    (h : loadsT ⟨S, e⟩ s = .ok obj) :
    ∀ (X : List String) (e2 : Bool) (s2 : String), loadsT ⟨S ++ X, e2⟩ s2 = .ok obj := by
  intro X e2 s2
  cases S with
  | nil => simp [loadsT, TokStream.next] at h
  | cons t0 S1 =>
    rw [List.cons_append]
    simp only [loadsT, TokStream.next] at h ⊢
    by_cases hS : t0 = "SRID"
    · subst hS
      rw [if_pos rfl] at h ⊢
      cases S1 with
      | nil => simp [TokStream.next] at h
      | cons t1 S2 =>
        simp only [TokStream.next, List.cons_append] at h ⊢
        by_cases h1 : t1 = "="
        · subst h1
          rw [if_neg (not_not_intro rfl)] at h ⊢
          cases S2 with
          | nil => simp [TokStream.next] at h
          | cons t2 S3 =>
            simp only [TokStream.next, List.cons_append] at h ⊢
            cases hpy : parsePyInt t2 with
            | none => simp [hpy] at h
            | some n =>
              simp only [hpy] at h ⊢
              cases S3 with
              | nil => simp [TokStream.next] at h
              | cons t3 S4 =>
                simp only [TokStream.next, List.cons_append] at h ⊢
                by_cases h3 : t3 = ";"
                · subst h3
                  rw [if_neg (not_not_intro rfl)] at h ⊢
                  cases S4 with
                  | nil => simp [TokStream.next] at h
                  | cons ty S5 =>
                    simp only [TokStream.next, List.cons_append] at h ⊢
                    cases hreg : loadsRegistry ty with
                    | none => simp [hreg] at h
                    | some imp =>
                      simp only [hreg] at h ⊢
                      cases S5 with
                      | nil => simp [TokStream.next] at h
                      | cons peek S6 =>
                        simp only [TokStream.next, List.cons_append] at h ⊢
                        by_cases hE : peek = "EMPTY"
                        · rw [if_pos hE] at h ⊢
                          exact h
                        · rw [if_neg hE] at h ⊢
                          cases himp : imp ⟨peek :: S6, e⟩ s with
                          | error err => simp [himp] at h
                          | ok p =>
                            obtain ⟨g, stf⟩ := p
                            simp only [himp] at h
                            have hb : e = false → genBalL (peek :: S6) ≤ 0 := by
                              intro hef
                              rw [hef] at hbal
                              have hnd : ¬ (0 < genBalL ("SRID" :: "=" :: t2
                                  :: ";" :: ty :: peek :: S6)) := by
                                intro hlt
                                rw [decide_eq_true hlt] at hbal
                                exact Bool.false_ne_true hbal
                              have hz2 : genBal t2 = 0 :=
                                parsePyInt_genBal t2 n hpy
                              have hzt : genBal ty = 0 :=
                                loadsRegistry_genBal ty imp hreg
                              simp only [genBalL_cons, hz2, hzt,
                                show genBal "SRID" = 0 from by decide,
                                show genBal "=" = 0 from by decide,
                                show genBal ";" = 0 from by decide] at hnd
                              rw [genBalL_cons]
                              omega
                            have hext := loadsRegistry_ext s ty imp hreg
                              (peek :: S6) e g stf hb himp X e2 s2
                            rw [List.cons_append] at hext
                            simp only [hext]
                            exact h
                · rw [if_pos h3] at h
                  simp at h
        · rw [if_pos h1] at h
          simp at h
    · rw [if_neg hS] at h ⊢
      cases S1 with
      | nil =>
        cases hreg : loadsRegistry t0 <;> simp [hreg, TokStream.next] at h
      | cons peek S6 =>
        simp only [List.cons_append] at h ⊢
        cases hreg : loadsRegistry t0 with
        | none => simp [hreg] at h
        | some imp =>
          simp only [hreg] at h ⊢
          by_cases hE : peek = "EMPTY"
          · rw [if_pos hE] at h ⊢
            exact h
          · rw [if_neg hE] at h ⊢
            cases himp : imp ⟨peek :: S6, e⟩ s with
            | error err => simp [himp] at h
            | ok p =>
              obtain ⟨g, stf⟩ := p
              simp only [himp] at h
              have hb : e = false → genBalL (peek :: S6) ≤ 0 := by
                intro hef
                rw [hef] at hbal
                have hnd : ¬ (0 < genBalL (t0 :: peek :: S6)) := by
                  intro hlt
                  rw [decide_eq_true hlt] at hbal
                  exact Bool.false_ne_true hbal
                have h0 : genBal t0 = 0 := loadsRegistry_genBal t0 imp hreg
                rw [genBalL_cons, h0] at hnd
                omega
              have hext := loadsRegistry_ext s t0 imp hreg (peek :: S6) e g
                stf hb himp X e2 s2
              rw [List.cons_append] at hext
              simp only [hext]
              exact h

theorem tokenizeWkt_append (s extra : String) :
    ∃ B : List String,
      (tokenizeWkt (s ++ " " ++ extra)).1 = (tokenizeWkt s).1 ++ B := by
  have hdata : (s ++ " " ++ extra).data = s.data ++ (' ' :: extra.data) := by
    simp [String.data_append]
  refine ⟨stitch (stitchEnd false (pyTokenize s).1)
      ((lexAux extra.data .idle (lexAux s.data .idle 0).2.2).1 ++
        flushSt (lexAux extra.data .idle (lexAux s.data .idle 0).2.2).2.1),
    ?_⟩
  simp only [tokenizeWkt, pyTokenize, hdata]
  rw [lexAux_append, lexAux_space]
  simp only [List.append_assoc]
  rw [← stitch_append]
  simp [List.append_assoc]

theorem loads_append (s extra : String) (g : GeoObj)
    (h : loads s = .ok g) :
    loads (s ++ " " ++ extra) = .ok g := by
  obtain ⟨B, hB⟩ := tokenizeWkt_append s extra
  simp only [loads] at h ⊢
  rw [hB]
  exact loadsT_ext s (tokenizeWkt s).1 (tokenizeWkt s).2 g
    (tokenizeWkt_spec s) h B (tokenizeWkt (s ++ " " ++ extra)).2
    (s ++ " " ++ extra)

/-! ## The claims -/

theorem roundAndPad_zero (q : ℚ) :
    roundAndPad q 0 = intRepr (roundHalfEven q) := by
  simp [roundAndPad]

/-- C1: for every geometry of the six coordinate-bearing kinds whose every
coordinate tuple (and, where applicable, ring and polygon) is non-empty and
whose ordinates are exactly representable at `d` decimal places, `dumps`
at `d` decimals succeeds with the serialized text and `loads` of that text
reproduces the geometry exactly, with no metadata attached. -/
theorem c1_roundtrip (d : ℕ) (g : GeomData)
    (h : roundTripSafe d g = true) :
    dumps ⟨g, none, none⟩ d = .ok (dumpGeom g d) ∧
    loads (dumpGeom g d) = .ok ⟨g, none, none⟩ :=
  ⟨dumps_noMeta g d (roundTripSafe_dumpsBody d g h), loads_dumpGeom d g h⟩

theorem rts_point12 : roundTripSafe 2 (.point [1, 2]) = true := by
  show tupleSafe 2 [1, 2] = true
  simp [tupleSafe, decimalAtB_of_dvd 1 2 (by norm_num),
    decimalAtB_of_dvd 2 2 (by norm_num)]

/-- C1 witness: the round trip at the point `(1 2)` with two decimals. -/
theorem c1_roundtrip_witness :
    roundTripSafe 2 (.point [1, 2]) = true ∧
    (dumps ⟨.point [1, 2], none, none⟩ 2
        = .ok (dumpGeom (.point [1, 2]) 2) ∧
      loads (dumpGeom (.point [1, 2]) 2) = .ok ⟨.point [1, 2], none, none⟩) :=
  ⟨rts_point12, c1_roundtrip 2 (.point [1, 2]) rts_point12⟩

/-- C1 counterexample: a polygon with an empty second ring is a non-empty
geometry with all ordinates exact at one decimal, yet the round trip
returns a different value (the empty ring comes back as a ring holding one
empty point), so the claim's "every non-empty geometry" is too broad. -/
theorem c1_roundtrip_cx :
    dumps ⟨.polygon [[[1, 2]], []], none, none⟩ 0
      = .ok "POLYGON ((1 2), ())" ∧
    loads "POLYGON ((1 2), ())"
      = .ok ⟨.polygon [[[1, 2]], [[]]], none, none⟩ ∧
    GeomData.polygon [[[1, 2]], []] ≠ .polygon [[[1, 2]], [[]]] := by
  refine ⟨?_, by decide, by decide⟩
  have h1 : roundAndPad 1 0 = "1" := by
    rw [roundAndPad_zero, show (1 : ℚ) = ((1 : ℤ) : ℚ) by norm_num,
      roundHalfEven_intCast]
    simp [intRepr, natDigits_one]
  have h2 : roundAndPad 2 0 = "2" := by
    rw [roundAndPad_zero, show (2 : ℚ) = ((2 : ℤ) : ℚ) by norm_num,
      roundHalfEven_intCast]
    simp [intRepr, natDigits_two]
  have hdump : dumpGeom (.polygon [[[1, 2]], []]) 0
      = "POLYGON ((1 2), ())" := by
    show dumpPolygon [[[1, 2]], []] 0 = _
    simp only [dumpPolygon, dumpRings, dumpPtList, dumpPt, List.map_cons,
      List.map_nil, h1, h2]
    rfl
  rw [dumps_noMeta (.polygon [[[1, 2]], []]) 0
    (by simp [dumpsBody, flattenCoords]), hdump]

/-- C3: a top-level type keyword that is not in the loader registry (and is
not the `SRID` header) makes `loads` fail with the UnsupportedGeometryType
`ValueError` naming the offending keyword. -/
theorem c3_unsupported (s t0 : String) (rest : List String) (e : Bool)
    (htok : tokenizeWkt s = (t0 :: rest, e))
    (hreg : loadsRegistry t0 = none)
    (hS : t0 ≠ "SRID") :
    loads s = .error (.valueError (unsupportedMsg t0)) := by
  simp only [loads, htok, loadsT, TokStream.next]
  rw [if_neg hS]
  simp only [hreg]

/-- C3 witness: the unknown keyword `CIRCLE` at top level. -/
theorem c3_unsupported_witness :
    tokenizeWkt "CIRCLE (0 0 5)" = (["CIRCLE", "(", "0", "0", "5", ")"], false) ∧
    loads "CIRCLE (0 0 5)" = .error (.valueError (unsupportedMsg "CIRCLE")) :=
  ⟨by decide, c3_unsupported "CIRCLE (0 0 5)" "CIRCLE"
    ["(", "0", "0", "5", ")"] false (by decide) (by rfl) (by decide)⟩

/-- C3 counterexample: the same unknown keyword nested in a
GEOMETRYCOLLECTION body is dispatched through the registry miss (`None`)
and fails with a `TypeError`, not the UnsupportedGeometryType error. -/
theorem c3_unsupported_cx :
    loads "GEOMETRYCOLLECTION (CIRCLE (0 0 5))" = .error .typeError ∧
    PyErr.typeError ≠ .valueError (unsupportedMsg "CIRCLE") := by
  refine ⟨?_, by decide⟩
  have h1 : gcLoop ⟨["CIRCLE", "(", "0", "0", "5", ")", ")"], false⟩
      "GEOMETRYCOLLECTION (CIRCLE (0 0 5))" [] = .error .typeError := by
    rw [gcLoop]
    simp [TokStream.next]
  have h2 : loadGeometrycollection
      ⟨["(", "CIRCLE", "(", "0", "0", "5", ")", ")"], false⟩
      "GEOMETRYCOLLECTION (CIRCLE (0 0 5))" = .error .typeError := by
    rw [loadGeometrycollection]
    simp [TokStream.next, h1]
  have htok : tokenizeWkt "GEOMETRYCOLLECTION (CIRCLE (0 0 5))"
      = (["GEOMETRYCOLLECTION", "(", "CIRCLE", "(", "0", "0", "5", ")", ")"],
        false) := by decide
  simp only [loads, htok, loadsT, TokStream.next]
  simp [loadsRegistry, h2]

/-- C4: for each of the six non-collection kinds, `dumps` of the kind with
an empty coordinate list yields `"<TYPE> EMPTY"` at every precision and
`loads` of that string returns the empty-coordinate value of the kind; the
same holds for `GEOMETRYCOLLECTION EMPTY` and the empty geometries list. -/
theorem c4_empty (d : ℕ) :
    (dumps ⟨.point [], none, none⟩ d = .ok "POINT EMPTY" ∧
      loads "POINT EMPTY" = .ok ⟨.point [], none, none⟩) ∧
    (dumps ⟨.lineString [], none, none⟩ d = .ok "LINESTRING EMPTY" ∧
      loads "LINESTRING EMPTY" = .ok ⟨.lineString [], none, none⟩) ∧
    (dumps ⟨.polygon [], none, none⟩ d = .ok "POLYGON EMPTY" ∧
      loads "POLYGON EMPTY" = .ok ⟨.polygon [], none, none⟩) ∧
    (dumps ⟨.multiPoint [], none, none⟩ d = .ok "MULTIPOINT EMPTY" ∧
      loads "MULTIPOINT EMPTY" = .ok ⟨.multiPoint [], none, none⟩) ∧
    (dumps ⟨.multiLineString [], none, none⟩ d = .ok "MULTILINESTRING EMPTY" ∧
      loads "MULTILINESTRING EMPTY" = .ok ⟨.multiLineString [], none, none⟩) ∧
    (dumps ⟨.multiPolygon [], none, none⟩ d = .ok "MULTIPOLYGON EMPTY" ∧
      loads "MULTIPOLYGON EMPTY" = .ok ⟨.multiPolygon [], none, none⟩) ∧
    (dumps ⟨.geometryCollection [], none, none⟩ d
        = .ok "GEOMETRYCOLLECTION EMPTY" ∧
      loads "GEOMETRYCOLLECTION EMPTY"
        = .ok ⟨.geometryCollection [], none, none⟩) :=
  ⟨⟨rfl, by decide⟩, ⟨rfl, by decide⟩, ⟨rfl, by decide⟩, ⟨rfl, by decide⟩,
    ⟨rfl, by decide⟩, ⟨rfl, by decide⟩, ⟨rfl, by decide⟩⟩

/-- C5: when the tokenizer ends inside an unclosed `POINT (` body (the
terminal `TokenError` flag is set) and the collected number tokens are all
parseable, `loads` fails with the MalformedWKT `ValueError` carrying the
original input text. -/
theorem c5_truncated (s : String) (nums : List String)
    (htok : tokenizeWkt s = ("POINT" :: "(" :: nums, true))
    (hnum : ∀ t ∈ nums, (strToRat t).isSome = true) :
    loads s = .error (.valueError (invalidWkt s)) := by
  have hpl : loadPoint ⟨"(" :: nums, true⟩ s
      = .error (.valueError (invalidWkt s)) := by
    simp only [loadPoint, TokStream.next]
    rw [if_neg (by decide : ¬("(" : String) = "EMPTY"),
      if_neg (show ¬("(" : String) ≠ "(" from by simp)]
    exact pointLoop_exhaust_err s nums [] hnum
  simp only [loads, htok, loadsT, TokStream.next]
  rw [if_neg (by decide : ¬("POINT" : String) = "SRID")]
  simp only [loadsRegistry, reduceIte]
  rw [if_neg (by decide : ¬("(" : String) = "EMPTY"), hpl]

/-- C5 witness: `POINT (1 2` with the closing parenthesis missing. -/
theorem c5_truncated_witness :
    tokenizeWkt "POINT (1 2" = (["POINT", "(", "1", "2"], true) ∧
    loads "POINT (1 2" = .error (.valueError (invalidWkt "POINT (1 2")) :=
  ⟨by decide, c5_truncated "POINT (1 2" ["1", "2"] (by decide) (by decide)⟩

/-- C5 counterexample: a stream that ends before the opening parenthesis
(`POINT` alone) escapes as a bare `StopIteration`, not as the MalformedWKT
`ValueError`, so "ends before the structure is complete" is too broad. -/
theorem c5_truncated_cx :
    loads "POINT" = .error .stopIteration ∧
    PyErr.stopIteration ≠ .valueError (invalidWkt "POINT") :=
  ⟨by decide, by decide⟩

/-- C2: when the token stream of `s` opens with a well-formed `SRID=<n>;`
header and the geometry body is not the `EMPTY` short circuit, a
successful `loads` carries the parsed integer as the `metaSrid`
metadata of the returned geometry. -/
theorem c2_srid (s t2 ty peek : String) (rest : List String) (e : Bool)
    (n : ℤ) (obj : GeoObj)
    (htok : tokenizeWkt s
      = ("SRID" :: "=" :: t2 :: ";" :: ty :: peek :: rest, e))
    (hn : parsePyInt t2 = some n)
    (hpeek : peek ≠ "EMPTY")
    (hload : loads s = .ok obj) :
    obj.metaSrid = some n := by
  simp only [loads, htok] at hload
  simp only [loadsT] at hload
  simp only [TokStream.next] at hload
  simp only [reduceIte] at hload
  simp only [if_neg (show ¬("=" : String) ≠ "=" from not_not_intro rfl),
    if_neg (show ¬(";" : String) ≠ ";" from not_not_intro rfl), hn] at hload
  cases hreg : loadsRegistry ty with
  | none => simp [hreg] at hload
  | some imp =>
    simp only [hreg] at hload
    rw [if_neg hpeek] at hload
    cases himp : imp ⟨peek :: rest, e⟩ s with
    | error err => simp [himp] at hload
    | ok p =>
      obtain ⟨g, stf⟩ := p
      simp only [himp, Except.ok.injEq] at hload
      rw [← hload]

/-- C2 witness: `SRID=4326;POINT (1 2)` parses with SRID metadata 4326. -/
theorem c2_srid_witness :
    loads "SRID=4326;POINT (1 2)" = .ok ⟨.point [1, 2], some 4326, none⟩ ∧
    (GeoObj.mk (.point [1, 2]) (some 4326) none).metaSrid = some 4326 :=
  ⟨by decide, c2_srid "SRID=4326;POINT (1 2)" "4326" "POINT" "("
    ["1", "2", ")"] false 4326 ⟨.point [1, 2], some 4326, none⟩ (by decide)
    (by decide) (by decide) (by decide)⟩

/-- C2 counterexample: with an `EMPTY` geometry body the importer short
circuit returns before the SRID is attached, so a valid `SRID=4326;`
prefix is silently dropped. -/
theorem c2_srid_cx :
    loads "SRID=4326;POINT EMPTY" = .ok ⟨.point [], none, none⟩ ∧
    (GeoObj.mk (.point []) none none).metaSrid ≠ some 4326 :=
  ⟨by decide, by decide⟩

/-- C6: the parenthesised and the bare MULTIPOINT forms built from the
same non-empty list of numeral coordinate tuples parse to the same
MultiPoint value, the final accumulated point included. -/
theorem c6_multipoint (d : ℕ) (pts : List (List ℚ)) (hne : pts ≠ [])
    (hsafe : ∀ pt ∈ pts, tupleSafe d pt = true) :
    loads (mpParenForm (pts.map (stPtToks d)))
        = .ok ⟨.multiPoint pts, none, none⟩ ∧
    loads (mpBareForm (pts.map (stPtToks d)))
        = .ok ⟨.multiPoint pts, none, none⟩ := by
  obtain ⟨p, ps, rfl⟩ := List.exists_cons_of_ne_nil hne
  have hpne : ∀ x ∈ p :: ps, x ≠ [] :=
    fun x hx => (tupleSafe_spec d x (hsafe x hx)).1
  have hqsafe : ∀ x ∈ p :: ps, ∀ q ∈ x, decimalAtB d q = true :=
    fun x hx => (tupleSafe_spec d x (hsafe x hx)).2
  constructor
  · have htok := tok_mpParen d (p :: ps)
    simp only [loads, htok]
    exact loadsT_run _ "MULTIPOINT" _ loadMultipoint (by decide)
      (by simp [loadsRegistry]) (by simp) (by simp)
      (.multiPoint (p :: ps)) ⟨[], false⟩
      (loadMultipoint_paren_run _ d p ps hpne hqsafe [] false)
  · have htok := tok_mpBare d (p :: ps)
    simp only [loads, htok]
    exact loadsT_run _ "MULTIPOINT" _ loadMultipoint (by decide)
      (by simp [loadsRegistry]) (by simp) (by simp)
      (.multiPoint (p :: ps)) ⟨[], false⟩
      (loadMultipoint_bare_run _ d p ps hpne hqsafe [] false)

theorem tupleSafe_mp_witness : ∀ pt ∈ ([[1, 2], [3, 4]] : List (List ℚ)),
    tupleSafe 1 pt = true := by
  intro pt hpt
  simp only [List.mem_cons, List.not_mem_nil, or_false] at hpt
  rcases hpt with rfl | rfl
  · simp [tupleSafe, decimalAtB_of_dvd 1 1 (by norm_num),
      decimalAtB_of_dvd 2 1 (by norm_num)]
  · simp [tupleSafe, decimalAtB_of_dvd 3 1 (by norm_num),
      decimalAtB_of_dvd 4 1 (by norm_num)]

/-- C6 witness: the two forms at the tuples `(1 2)` and `(3 4)`. -/
theorem c6_multipoint_witness :
    ([[1, 2], [3, 4]] : List (List ℚ)) ≠ [] ∧
    (loads (mpParenForm (([[1, 2], [3, 4]] : List (List ℚ)).map (stPtToks 1)))
        = .ok ⟨.multiPoint [[1, 2], [3, 4]], none, none⟩ ∧
      loads (mpBareForm (([[1, 2], [3, 4]] : List (List ℚ)).map (stPtToks 1)))
        = .ok ⟨.multiPoint [[1, 2], [3, 4]], none, none⟩) :=
  ⟨by decide, c6_multipoint 1 [[1, 2], [3, 4]] (by decide) tupleSafe_mp_witness⟩

/-- C7: the `_round_and_pad` fixed-width rendering rule: the claimed
`POINT (1.00 2.00)` example; for nonzero `decimals` exactly that many
fractional digits, no scientific notation, and the value is the
half-even rounding; at zero decimals the bare integer repr. -/
theorem c7_round_and_pad :
    dumps ⟨.point [1, 2], none, none⟩ 2 = .ok "POINT (1.00 2.00)" ∧
    (∀ (q : ℚ) (d : ℕ), d ≠ 0 →
      fracLen (roundAndPad q d).data = d ∧
      (∀ c ∈ (roundAndPad q d).data, c ≠ 'e') ∧
      strToRat (roundAndPad q d) = some (roundDec q d)) ∧
    (∀ q : ℚ, roundAndPad q 0 = intRepr (roundHalfEven q)) := by
  refine ⟨?_, fun q d hd => ⟨fracLen_roundAndPad q d hd,
    roundAndPad_no_e q d, strToRat_roundAndPad_all q d hd⟩, roundAndPad_zero⟩
  have hdump : dumpGeom (.point [1, 2]) 2 = "POINT (1.00 2.00)" := by
    show dumpPoint [1, 2] 2 = _
    simp only [dumpPoint, dumpPt, List.map_cons, List.map_nil, rap_1_2,
      rap_2_2]
    rfl
  rw [dumps_noMeta (.point [1, 2]) 2 (by simp [dumpsBody, flattenCoords]),
    hdump]

/-- C8: SRID resolution in `dumps` for a non-empty geometry: a conflict
between `meta.srid` and the EPSG-stripped CRS name is an error; when the
two agree, or with a CRS name alone, or with a nonzero `meta.srid` alone,
the output takes the `SRID=<n>;` prefix. -/
theorem c8_srid_sources (g : GeomData) (d : ℕ) (m : ℤ) (cn : String)
    (hbody : dumpsBody g) :
    (toString m ≠ cn.replace "EPSG" "" →
      dumps ⟨g, some m, some cn⟩ d = .error (.valueError
        ("Ambiguous CRS/SRID values: " ++ toString m ++ " and "
          ++ cn.replace "EPSG" ""))) ∧
    (toString m = cn.replace "EPSG" "" →
      dumps ⟨g, some m, some cn⟩ d
        = .ok ("SRID=" ++ toString m ++ ";" ++ dumpGeom g d)) ∧
    (m ≠ 0 → dumps ⟨g, some m, none⟩ d
        = .ok ("SRID=" ++ toString m ++ ";" ++ dumpGeom g d)) ∧
    dumps ⟨g, none, some cn⟩ d
      = .ok ("SRID=" ++ cn.replace "EPSG" "" ++ ";" ++ dumpGeom g d) := by
  refine ⟨fun hconf => ?_, fun hagree => ?_, fun hm => ?_, ?_⟩
  · rw [dumps_eq_tail ⟨g, some m, some cn⟩ d hbody]
    simp only [dumpsTail, Option.map_some']
    rw [if_pos hconf]
  · rw [dumps_eq_tail ⟨g, some m, some cn⟩ d hbody]
    simp only [dumpsTail, Option.map_some']
    rw [if_neg (not_not_intro hagree)]
    by_cases hm0 : m = 0
    · rw [if_neg (not_not_intro hm0), ← hagree]
    · rw [if_pos hm0]
  · rw [dumps_eq_tail ⟨g, some m, none⟩ d hbody]
    simp only [dumpsTail, Option.map_none']
    rw [if_pos hm]
  · rw [dumps_eq_tail ⟨g, none, some cn⟩ d hbody]
    simp only [dumpsTail, Option.map_some']

/-- C8 witness: the four cases at the point `(1 2)`, `meta.srid` 4326 and
CRS name `EPSG4326`. -/
theorem c8_srid_sources_witness :
    (toString (4326 : ℤ) ≠ ("EPSG4326" : String).replace "EPSG" "" →
      dumps ⟨.point [1, 2], some 4326, some "EPSG4326"⟩ 1
        = .error (.valueError
          ("Ambiguous CRS/SRID values: " ++ toString (4326 : ℤ) ++ " and "
            ++ ("EPSG4326" : String).replace "EPSG" ""))) ∧
    (toString (4326 : ℤ) = ("EPSG4326" : String).replace "EPSG" "" →
      dumps ⟨.point [1, 2], some 4326, some "EPSG4326"⟩ 1
        = .ok ("SRID=" ++ toString (4326 : ℤ) ++ ";"
            ++ dumpGeom (.point [1, 2]) 1)) ∧
    ((4326 : ℤ) ≠ 0 → dumps ⟨.point [1, 2], some 4326, none⟩ 1
        = .ok ("SRID=" ++ toString (4326 : ℤ) ++ ";"
            ++ dumpGeom (.point [1, 2]) 1)) ∧
    dumps ⟨.point [1, 2], none, some "EPSG4326"⟩ 1
      = .ok ("SRID=" ++ ("EPSG4326" : String).replace "EPSG" "" ++ ";"
          ++ dumpGeom (.point [1, 2]) 1) :=
  c8_srid_sources (.point [1, 2]) 1 4326 "EPSG4326"
    (by simp [dumpsBody, flattenCoords])

/-- C8 counterexample: a `meta.srid` of `0` with no CRS name is a present
SRID source, yet Python's truthiness test drops it and no prefix is
emitted, so "exactly one source present" is too broad. -/
theorem c8_srid_sources_cx :
    dumps ⟨.point [1, 2], some 0, none⟩ 0 = .ok "POINT (1 2)" ∧
    ("POINT (1 2)" : String).data.take 5 ≠ ("SRID=" : String).data := by
  refine ⟨?_, by decide⟩
  rw [dumps_eq_tail ⟨.point [1, 2], some 0, none⟩ 0
    (by simp [dumpsBody, flattenCoords])]
  simp only [dumpsTail, Option.map_none']
  rw [if_neg (not_not_intro rfl)]
  have h1 : roundAndPad 1 0 = "1" := by
    rw [roundAndPad_zero, show (1 : ℚ) = ((1 : ℤ) : ℚ) by norm_num,
      roundHalfEven_intCast]
    simp [intRepr, natDigits_one]
  have h2 : roundAndPad 2 0 = "2" := by
    rw [roundAndPad_zero, show (2 : ℚ) = ((2 : ℤ) : ℚ) by norm_num,
      roundHalfEven_intCast]
    simp [intRepr, natDigits_two]
  have hdump : dumpGeom (.point [1, 2]) 0 = "POINT (1 2)" := by
    show dumpPoint [1, 2] 0 = _
    simp only [dumpPoint, dumpPt, List.map_cons, List.map_nil, h1, h2]
    rfl
  rw [hdump]

/-- C9: the sign-stitching tokenizer never emits a standalone `-` token
nor an empty token, and the claimed example `POINT (-107.5 43.0)` loads
to exactly `[-107.5, 43.0]`. -/
theorem c9_tokenizer :
    (∀ s : String, "-" ∉ (tokenizeWkt s).1 ∧ "" ∉ (tokenizeWkt s).1) ∧
    loads "POINT (-107.5 43.0)" = .ok ⟨.point [-215/2, 43], none, none⟩ := by
  refine ⟨fun s => stitch_no_minus_empty (pyTokenize s).1 false, ?_⟩
  have htok : tokenizeWkt "POINT (-107.5 43.0)"
      = (["POINT", "(", "-107.5", "43.0", ")"], false) := by decide
  have hv1 : strToRat "-107.5" = some (-215/2 : ℚ) := by
    rw [show strToRat "-107.5"
        = (parseDec ['1', '0', '7', '.', '5']).map Neg.neg from rfl]
    rw [show parseDec ['1', '0', '7', '.', '5']
        = some ((107 : ℚ) + (5 : ℚ) / 10 ^ (1 : ℕ)) from rfl]
    rw [Option.map_some']
    norm_num
  have hv2 : strToRat "43.0" = some (43 : ℚ) := by
    rw [show strToRat "43.0" = parseDec ['4', '3', '.', '0'] from rfl]
    rw [show parseDec ['4', '3', '.', '0']
        = some ((43 : ℚ) + (0 : ℚ) / 10 ^ (1 : ℕ)) from rfl]
    norm_num
  have hlp : loadPoint ⟨["(", "-107.5", "43.0", ")"], false⟩
      "POINT (-107.5 43.0)"
      = .ok (.point [-215/2, 43], ⟨[], false⟩) := by
    simp only [loadPoint, TokStream.next]
    rw [if_neg (by decide : ¬("(" : String) = "EMPTY"),
      if_neg (show ¬("(" : String) ≠ "(" from by simp)]
    simp [pointLoop, hv1, hv2]
  simp only [loads, htok, loadsT, TokStream.next]
  rw [if_neg (by decide : ¬("POINT" : String) = "SRID")]
  simp only [loadsRegistry, reduceIte]
  rw [if_neg (by decide : ¬("(" : String) = "EMPTY"), hlp]

/-- C10: trailing content after a successfully parsed geometry is ignored:
whenever `loads s` succeeds with `g`, so does `loads` of `s` extended by a
blank and any further text, with the same result. -/
theorem c10_trailing (s extra : String) (g : GeoObj)
    (h : loads s = .ok g) :
    loads (s ++ " " ++ extra) = .ok g :=
  loads_append s extra g h

/-- C10 witness: `POINT (1 2) 99` still parses as the point `(1 2)`. -/
theorem c10_trailing_witness :
    loads "POINT (1 2)" = .ok ⟨.point [1, 2], none, none⟩ ∧
    loads ("POINT (1 2)" ++ " " ++ "99") = .ok ⟨.point [1, 2], none, none⟩ :=
  ⟨by decide, c10_trailing "POINT (1 2)" "99" _ (by decide)⟩
